import Mathlib

/-! The transformation pipeline engine of `src/compiler/transformer.ts`.

A shallow embedding of the TypeScript compiler's transformation stage
(`getTransformers`, `transformFiles` with the closures of its transformation
context, `chain`, `compose`, `arrayOf`) and the properties proved about it.

Conventions of the embedding.

* A JavaScript function with side effects is a function into a monad.  The
  higher-order helpers `compose`, `chain`, `map` and `reduceLeft` are written once,
  for any monad; side-effect free functions are the instance `Id`, the closures of
  `transformFiles` and the passes they drive are the instance `Eff`.
* The mutable variables captured by the closures of `transformFiles` are the
  fields of `TransformState`, next to the part of the JavaScript heap the closures
  reach: the `emitOptions` property of synthesized nodes and the token-range map
  objects, which are shared by reference and therefore live at addresses.
* `undefined` is `none`; a thrown error is `Except.error`.
-/

namespace ts

/-! ## Types declared outside `transformer.ts` -/

/-- Modelled from the spec: `TextRange` (types.ts is not part of the sources), a
range of the source text given by its two ends. -/
structure TextRange where
  pos : Int
  end_ : Int
deriving DecidableEq, Repr

/-- Modelled from the spec: `Node` (types.ts is not part of the sources).  The engine
sees of a node its identity (`id`, also what `getNodeId` returns), its syntax kind,
whether it belongs to a parsed source tree or was synthesized by a pass, whether it
is a declaration-only source file, and the optional `original` back-reference to the
node it replaces.  The mutable `emitOptions` property lives in `TransformState`. -/
inductive Node where
  | mk (id : Nat) (kind : Nat) (sourceTree : Bool) (declarationFile : Bool)
      (original : Option Node) : Node
deriving Repr

/-- The unique id of a node (field `id`). -/
def Node.id : Node → Nat
  | .mk id _ _ _ _ => id

/-- The syntax kind of a node (field `kind`). -/
def Node.kind : Node → Nat
  | .mk _ kind _ _ _ => kind

/-- The node this node was produced from, if any (field `original`). -/
def Node.original : Node → Option Node
  | .mk _ _ _ _ original => original

/-- Modelled from the spec: `getNodeId` (not part of the sources) hands out the unique
id of a node. -/
def getNodeId (node : Node) : Nat := node.id

/-- Modelled from the spec: `isSourceTreeNode` (utilities.ts is not part of the
sources): the node was produced by the parser, not synthesized by a pass. -/
def isSourceTreeNode : Node → Bool
  | .mk _ _ sourceTree _ _ => sourceTree

/-- Modelled from the spec: `isDeclarationFile` (utilities.ts is not part of the
sources): the source file is declaration-only. -/
def isDeclarationFile : Node → Bool
  | .mk _ _ _ declarationFile _ => declarationFile

/-- Modelled from the spec: the members of `NodeEmitFlags` (types.ts is not part of
the sources) that `transformer.ts` names.  Their numeric values are parameters of
the development. -/
structure NodeEmitFlags where
  Merge : Nat
  AdviseOnEmitNode : Nat

/-- The JavaScript expression `flags & ~mask` on flag sets (non-negative 32-bit
integers): the bits of `mask` are removed from `flags`. -/
def clearFlags (flags mask : Nat) : Nat := flags ^^^ (flags &&& mask)

/-- Members of the enumeration `SyntaxKindFeatureFlags`: `1 << 0`. -/
def SyntaxKindFeatureFlags.Substitution : Nat := 1 <<< 0

/-- Members of the enumeration `SyntaxKindFeatureFlags`: `1 << 1`. -/
def SyntaxKindFeatureFlags.EmitNotifications : Nat := 1 <<< 1

/-- Modelled from the spec: `ModuleKind` (types.ts is not part of the sources), the
module-output formats; `unrecognized` stands for any value of the option that is
none of the named members. -/
inductive ModuleKind where
  | None | CommonJS | AMD | UMD | System | ES6
  | unrecognized (value : Nat)
deriving DecidableEq, Repr

/-- Modelled from the spec: `ScriptTarget` (types.ts is not part of the sources), the
target language versions in increasing order. -/
inductive ScriptTarget where
  | ES3 | ES5 | ES6
deriving DecidableEq, Repr

/-- The numeric order of the language versions, used by `<`. -/
def ScriptTarget.toNat : ScriptTarget → Nat
  | .ES3 => 0
  | .ES5 => 1
  | .ES6 => 2

/-- Modelled from the spec: `JsxEmit` (types.ts is not part of the sources), the
markup-handling modes. -/
inductive JsxEmit where
  | None | Preserve | React
deriving DecidableEq, Repr

/-- Modelled from the spec: the fields of `CompilerOptions` that pipeline selection
reads. -/
structure CompilerOptions where
  jsx : Option JsxEmit
  target : Option ScriptTarget
  moduleKind : Option ModuleKind
deriving DecidableEq, Repr

/-- Names of the pass factories defined in the `transformers/` files referenced by
`transformer.ts`. -/
inductive TransformerName where
  | transformTypeScript | transformES6Module | transformSystemModule | transformModule
  | transformJsx | transformES7 | transformES6
deriving DecidableEq, Repr

/-- Modelled from the spec: `EmitResolver`, opaque to the engine. -/
structure EmitResolver where
  handle : Nat
deriving DecidableEq, Repr

/-- Modelled from the spec: `EmitHost`, of which the engine uses `getCompilerOptions`. -/
structure EmitHost where
  getCompilerOptions : CompilerOptions
deriving DecidableEq, Repr

/-- Modelled from the spec: a hoisted variable declaration, as built by
`createVariableDeclaration(name)` (factory.ts is not part of the sources). -/
structure VariableDeclaration where
  name : String
deriving DecidableEq, Repr

/-- Modelled from the spec: a function declaration handed to
`hoistFunctionDeclaration`. -/
structure FunctionDeclaration where
  name : String
deriving DecidableEq, Repr

/-- Modelled from the spec: the statements `endLexicalEnvironment` returns, a
function declaration or the statement built by
`createVariableStatement(undefined, createVariableDeclarationList(declarations))`. -/
inductive Statement where
  | functionDeclaration (func : FunctionDeclaration)
  | variableStatement (declarations : List VariableDeclaration)
deriving DecidableEq, Repr

/-! ## Pipeline selection -/

/-- The table `moduleTransformerMap`; a key without an entry reads as `undefined`. -/
def moduleTransformerMap : ModuleKind → Option TransformerName
  | .ES6 => some .transformES6Module
  | .System => some .transformSystemModule
  | .AMD => some .transformModule
  | .CommonJS => some .transformModule
  | .UMD => some .transformModule
  | .None => some .transformModule
  | .unrecognized _ => none

/-- The function `getTransformers`.  `getEmitScriptTarget` and `getEmitModuleKind`
(utilities.ts is not part of the sources) are parameters.  An element of the result
is `none` where the source pushes `undefined`. -/
def getTransformers (getEmitScriptTarget : CompilerOptions → ScriptTarget)
    (getEmitModuleKind : CompilerOptions → ModuleKind)
    (compilerOptions : CompilerOptions) : List (Option TransformerName) :=
  let jsx := compilerOptions.jsx
  let languageVersion := getEmitScriptTarget compilerOptions
  let moduleKind := getEmitModuleKind compilerOptions
  let transformers : List (Option TransformerName) := []
  let transformers := transformers ++ [some .transformTypeScript]
  let transformers := transformers ++ [moduleTransformerMap moduleKind]
  let transformers :=
    if jsx = some JsxEmit.React then transformers ++ [some .transformJsx] else transformers
  let transformers := transformers ++ [some .transformES7]
  let transformers :=
    if languageVersion.toNat < ScriptTarget.ES6.toNat then
      transformers ++ [some .transformES6]
    else transformers
  transformers

/-! ## Higher-order helpers -/

section HigherOrder
variable {m : Type → Type} [Monad m]

/-- The function `arrayOf`: copies the elements at the indices `0 .. length - 1`. -/
def arrayOf {α : Type} (arrayLike : List α) : List α :=
  List.ofFn (fun i : Fin arrayLike.length => arrayLike.get i)

/-- Modelled from the spec: `reduceLeft` with an initial value (core.ts is not part of
the sources): feeds the elements to `f` from left to right. -/
def reduceLeft {α β : Type} (array : List α) (f : β → α → m β) (initial : β) : m β :=
  match array with
  | [] => pure initial
  | x :: rest => do
    let result ← f initial x
    reduceLeft rest f result

/-- Modelled from the spec: `map` (core.ts is not part of the sources): calls `f` on
every element, first to last, and collects the results. -/
def map {α β : Type} (array : List α) (f : α → m β) : m (List β) :=
  match array with
  | [] => pure []
  | v :: rest => do
    let r ← f v
    let result ← map rest f
    pure (r :: result)

/-- The function `compose`.  The parameters `a` to `e` are the first five arguments;
a parameter is `undefined`, hence falsy, exactly when the argument list is shorter. -/
def compose {T : Type} (args : List (T → m T)) : T → m T :=
  match args with
  | _ :: _ :: _ :: _ :: _ :: _ =>
    let args := arrayOf args
    fun t => reduceLeft args (fun u f => f u) t
  | [a, b, c, d] => fun t => do
    let ra ← a t
    let rb ← b ra
    let rc ← c rb
    d rc
  | [a, b, c] => fun t => do
    let ra ← a t
    let rb ← b ra
    c rb
  | [a, b] => fun t => do
    let ra ← a t
    b ra
  | [a] => fun t => a t
  | [] => fun t => pure t

/-- The function `chain`.  The arguments of each call of `compose` are evaluated from
left to right before `compose` is entered. -/
def chain {T U : Type} (args : List (T → m (U → m U))) : T → m (U → m U) :=
  match args with
  | _ :: _ :: _ :: _ :: _ :: _ =>
    let args := arrayOf args
    fun t => do
      let fs ← map args (fun f => f t)
      pure (compose fs)
  | [a, b, c, d] => fun t => do
    let fa ← a t
    let fb ← b t
    let fc ← c t
    let fd ← d t
    pure (compose [fa, fb, fc, fd])
  | [a, b, c] => fun t => do
    let fa ← a t
    let fb ← b t
    let fc ← c t
    pure (compose [fa, fb, fc])
  | [a, b] => fun t => do
    let fa ← a t
    let fb ← b t
    pure (compose [fa, fb])
  | [a] => fun t => do
    let fa ← a t
    pure (compose [fa])
  | [] => fun _ => pure (fun u => pure u)

end HigherOrder

/-! ## The state behind the transformation context -/

/-- The record `NodeEmitOptions` kept for a node.  `tokenSourceMapRange` holds a
reference to a map object: its address in `TransformState.tokenSourceMapRanges`. -/
structure NodeEmitOptions where
  flags : Option Nat
  sourceMapRange : Option TextRange
  tokenSourceMapRange : Option Nat
  commentRange : Option TextRange
deriving DecidableEq, Repr

/-- The object literal `{ }`: a record with every field undefined. -/
def NodeEmitOptions.empty : NodeEmitOptions := ⟨none, none, none, none⟩

/-- The variables captured by the closures of `transformFiles` (first nine fields),
the part of the heap they reach (`emitOptions`: the property of that name of the
synthesized node with the given id; `tokenSourceMapRanges`: the token-range map
objects by address, `nextAddress` being the first address not yet allocated) and
`ext`, the state private to the passes.  An array slot that was never written reads
as `undefined`; `enabledSyntaxKindFeatures` is only ever used under `|` and `&`,
where `undefined` counts as `0`; `lexicalEnvironmentDisabled` is only ever tested
for truth, where `undefined` counts as `false`. -/
structure TransformState (X : Type) where
  nodeEmitOptions : Nat → Option NodeEmitOptions
  lexicalEnvironmentVariableDeclarationsStack : Int → Option (List VariableDeclaration)
  lexicalEnvironmentFunctionDeclarationsStack : Int → Option (List FunctionDeclaration)
  enabledSyntaxKindFeatures : Nat → Nat
  lexicalEnvironmentStackOffset : Int
  hoistedVariableDeclarations : Option (List VariableDeclaration)
  hoistedFunctionDeclarations : Option (List FunctionDeclaration)
  currentSourceFile : Option Node
  lexicalEnvironmentDisabled : Bool
  emitOptions : Nat → Option NodeEmitOptions
  tokenSourceMapRanges : Nat → Nat → Option TextRange
  nextAddress : Nat
  ext : X

/-- Computations of the engine and of the passes: they read and write the state and
may throw. -/
abbrev Eff (X : Type) (α : Type) : Type := StateT (TransformState X) (Except String) α

/-- A per-node function of a pass. -/
abbrev NodeTransformer (X : Type) : Type := Node → Eff X Node

/-- Modelled from the spec: `Debug.assert` (core.ts is not part of the sources) throws
when the expression is false. -/
def Debug.assert (expression : Bool) (message : String) : Except String Unit :=
  if expression then .ok () else .error ("Debug Failure. False expression: " ++ message)

section Engine
variable {X : Type}

/-! ### Feature table -/

/-- The closure `enableSubstitution`. -/
def enableSubstitution (st : TransformState X) (kind : Nat) : TransformState X :=
  let features := st.enabledSyntaxKindFeatures kind ||| SyntaxKindFeatureFlags.Substitution
  { st with enabledSyntaxKindFeatures := Function.update st.enabledSyntaxKindFeatures kind features }

/-- The closure `isSubstitutionEnabled`. -/
def isSubstitutionEnabled (st : TransformState X) (node : Node) : Bool :=
  (st.enabledSyntaxKindFeatures node.kind &&& SyntaxKindFeatureFlags.Substitution) != 0

/-- The closure `onSubstituteNode`, the default substitution hook. -/
def onSubstituteNode (node : Node) (_isExpression : Bool) : Node := node

/-- The closure `enableEmitNotification`. -/
def enableEmitNotification (st : TransformState X) (kind : Nat) : TransformState X :=
  let features := st.enabledSyntaxKindFeatures kind ||| SyntaxKindFeatureFlags.EmitNotifications
  { st with enabledSyntaxKindFeatures := Function.update st.enabledSyntaxKindFeatures kind features }

/-! ### Overlay -/

/-- The closure `getEmitOptions`: the record of a source-tree node is the slot of
`nodeEmitOptions` at its id, the record of a synthesized node is its own
`emitOptions` property; with `create`, a missing record is created and stored.  The
result stands for a reference to the stored record. -/
def getEmitOptions (st : TransformState X) (node : Node) (create : Bool) :
    Option NodeEmitOptions × TransformState X :=
  let options :=
    if isSourceTreeNode node then st.nodeEmitOptions (getNodeId node)
    else st.emitOptions node.id
  if options.isNone && create then
    let options := NodeEmitOptions.empty
    if isSourceTreeNode node then
      let table := Function.update st.nodeEmitOptions (getNodeId node) (some options)
      (some options, { st with nodeEmitOptions := table })
    else
      let slots := Function.update st.emitOptions node.id (some options)
      (some options, { st with emitOptions := slots })
  else (options, st)

/-- An assignment through the reference `getEmitOptions` returned for `node`: the
record stored for the node is replaced by `update` of it. -/
def assignEmitOptions (st : TransformState X) (node : Node)
    (update : NodeEmitOptions → NodeEmitOptions) : TransformState X :=
  if isSourceTreeNode node then
    let options := (st.nodeEmitOptions (getNodeId node)).map update
    { st with nodeEmitOptions := Function.update st.nodeEmitOptions (getNodeId node) options }
  else
    let options := (st.emitOptions node.id).map update
    { st with emitOptions := Function.update st.emitOptions node.id options }

/-- The closure `getNodeEmitFlags`.  A call on `undefined`, which the source makes at
the end of the chain of originals, skips the loop and returns `undefined`: it is
written out where `original` is matched.  The state is returned too, since resolving
a stored merge marker writes the resolved flags back. -/
def getNodeEmitFlags (F : NodeEmitFlags) (st : TransformState X) :
    Node → Option Nat × TransformState X
  | .mk id kind sourceTree declarationFile original =>
    let node := Node.mk id kind sourceTree declarationFile original
    match ((getEmitOptions st node false).1).bind (fun options => options.flags) with
    | some flags =>
      if flags &&& F.Merge ≠ 0 then
        let inherited :=
          match original with
          | some next => getNodeEmitFlags F st next
          | none => (none, st)
        let flags := clearFlags (flags ||| inherited.1.getD 0) F.Merge
        (some flags, assignEmitOptions inherited.2 node (fun o => { o with flags := some flags }))
      else (some flags, st)
    | none =>
      match original with
      | some next => getNodeEmitFlags F st next
      | none => (none, st)

/-- The closure `setNodeEmitFlags`. -/
def setNodeEmitFlags (F : NodeEmitFlags) (st : TransformState X) (node : Node) (flags : Nat) :
    Node × TransformState X :=
  let options := getEmitOptions st node true
  let flags :=
    if flags &&& F.Merge ≠ 0 then
      ((options.1.bind (fun o => o.flags)).getD 0) ||| clearFlags flags F.Merge
    else flags
  (node, assignEmitOptions options.2 node (fun o => { o with flags := some flags }))

/-- The loop of `getSourceMapRange`: the first custom range on the chain of
originals. -/
def getSourceMapRange.walk (st : TransformState X) : Node → Option TextRange
  | .mk id kind sourceTree declarationFile original =>
    match ((getEmitOptions st (.mk id kind sourceTree declarationFile original) false).1).bind
        (fun options => options.sourceMapRange) with
    | some range => some range
    | none =>
      match original with
      | some next => getSourceMapRange.walk st next
      | none => none

/-- The closure `getSourceMapRange`: the custom range (`Sum.inl`), or the node itself
(`Sum.inr`), which is a text range too. -/
def getSourceMapRange (st : TransformState X) (node : Node) : TextRange ⊕ Node :=
  match getSourceMapRange.walk st node with
  | some range => .inl range
  | none => .inr node

/-- The closure `setSourceMapRange`. -/
def setSourceMapRange (st : TransformState X) (node : Node) (range : TextRange) :
    Node × TransformState X :=
  let options := getEmitOptions st node true
  (node, assignEmitOptions options.2 node (fun o => { o with sourceMapRange := some range }))

/-- The closure `getTokenSourceMapRanges`: a reference to the first token-range map on
the chain of originals. -/
def getTokenSourceMapRanges (st : TransformState X) : Node → Option Nat
  | .mk id kind sourceTree declarationFile original =>
    match ((getEmitOptions st (.mk id kind sourceTree declarationFile original) false).1).bind
        (fun options => options.tokenSourceMapRange) with
    | some ranges => some ranges
    | none =>
      match original with
      | some next => getTokenSourceMapRanges st next
      | none => none

/-- The closure `getTokenSourceMapRange`. -/
def getTokenSourceMapRange (st : TransformState X) (node : Node) (token : Nat) :
    Option TextRange :=
  match getTokenSourceMapRanges st node with
  | some ranges => st.tokenSourceMapRanges ranges token
  | none => none

/-- Allocation of a map object with the given entries, by `{ }` or by `clone` (core.ts
is not part of the sources; modelled from the spec: a copy that shares nothing with
the object it copies): the object is placed at the first free address. -/
def allocateRanges (st : TransformState X) (entries : Nat → Option TextRange) :
    Nat × TransformState X :=
  (st.nextAddress,
    { st with
      tokenSourceMapRanges := Function.update st.tokenSourceMapRanges st.nextAddress entries
      nextAddress := st.nextAddress + 1 })

/-- An assignment `ranges[token] = range` through a reference to a token-range map. -/
def assignTokenRange (st : TransformState X) (ranges token : Nat) (range : TextRange) :
    TransformState X :=
  let entries := Function.update (st.tokenSourceMapRanges ranges) token (some range)
  { st with tokenSourceMapRanges := Function.update st.tokenSourceMapRanges ranges entries }

/-- The closure `setTokenSourceMapRange`. -/
def setTokenSourceMapRange (st : TransformState X) (node : Node) (token : Nat)
    (range : TextRange) : Node × TransformState X :=
  let options := getEmitOptions st node true
  let st := options.2
  let st :=
    match options.1.bind (fun o => o.tokenSourceMapRange) with
    | some _ => st
    | none =>
      let existingRanges := getTokenSourceMapRanges st node
      let ranges :=
        match existingRanges with
        | some existing => allocateRanges st (st.tokenSourceMapRanges existing)
        | none => allocateRanges st (fun _ => none)
      assignEmitOptions ranges.2 node (fun o => { o with tokenSourceMapRange := some ranges.1 })
  let st :=
    match ((getEmitOptions st node false).1).bind (fun o => o.tokenSourceMapRange) with
    | some ranges => assignTokenRange st ranges token range
    | none => st
  (node, st)

/-- The loop of `getCommentRange`: the first custom range on the chain of originals. -/
def getCommentRange.walk (st : TransformState X) : Node → Option TextRange
  | .mk id kind sourceTree declarationFile original =>
    match ((getEmitOptions st (.mk id kind sourceTree declarationFile original) false).1).bind
        (fun options => options.commentRange) with
    | some range => some range
    | none =>
      match original with
      | some next => getCommentRange.walk st next
      | none => none

/-- The closure `getCommentRange`: the custom range (`Sum.inl`), or the node itself
(`Sum.inr`). -/
def getCommentRange (st : TransformState X) (node : Node) : TextRange ⊕ Node :=
  match getCommentRange.walk st node with
  | some range => .inl range
  | none => .inr node

/-- The closure `setCommentRange`. -/
def setCommentRange (st : TransformState X) (node : Node) (range : TextRange) :
    Node × TransformState X :=
  let options := getEmitOptions st node true
  (node, assignEmitOptions options.2 node (fun o => { o with commentRange := some range }))

/-- The closure `isEmitNotificationEnabled`.  The call of `getNodeEmitFlags` may write
to the overlay, so the state is returned too. -/
def isEmitNotificationEnabled (F : NodeEmitFlags) (st : TransformState X) (node : Node) :
    Bool × TransformState X :=
  if (st.enabledSyntaxKindFeatures node.kind &&& SyntaxKindFeatureFlags.EmitNotifications) != 0
  then (true, st)
  else
    let flags := getNodeEmitFlags F st node
    ((flags.1.getD 0 &&& F.AdviseOnEmitNode) != 0, flags.2)

/-! ### Lexical environment -/

/-- Modelled from the spec: `createVariableDeclaration` (factory.ts is not part of the
sources) builds the declaration of a name. -/
def createVariableDeclaration (name : String) : VariableDeclaration := ⟨name⟩

/-- The closure `hoistVariableDeclaration`. -/
def hoistVariableDeclaration (st : TransformState X) (name : String) :
    Except String (Unit × TransformState X) := do
  Debug.assert (!st.lexicalEnvironmentDisabled)
    "Cannot modify the lexical environment during the print phase."
  let decl := createVariableDeclaration name
  match st.hoistedVariableDeclarations with
  | none => pure ((), { st with hoistedVariableDeclarations := some [decl] })
  | some declarations =>
    pure ((), { st with hoistedVariableDeclarations := some (declarations ++ [decl]) })

/-- The closure `hoistFunctionDeclaration`. -/
def hoistFunctionDeclaration (st : TransformState X) (func : FunctionDeclaration) :
    Except String (Unit × TransformState X) := do
  Debug.assert (!st.lexicalEnvironmentDisabled)
    "Cannot modify the lexical environment during the print phase."
  match st.hoistedFunctionDeclarations with
  | none => pure ((), { st with hoistedFunctionDeclarations := some [func] })
  | some declarations =>
    pure ((), { st with hoistedFunctionDeclarations := some (declarations ++ [func]) })

/-- The closure `startLexicalEnvironment`. -/
def startLexicalEnvironment (st : TransformState X) :
    Except String (Unit × TransformState X) := do
  Debug.assert (!st.lexicalEnvironmentDisabled)
    "Cannot start a lexical environment during the print phase."
  let offset := st.lexicalEnvironmentStackOffset
  let variableStack :=
    Function.update st.lexicalEnvironmentVariableDeclarationsStack offset
      st.hoistedVariableDeclarations
  let functionStack :=
    Function.update st.lexicalEnvironmentFunctionDeclarationsStack offset
      st.hoistedFunctionDeclarations
  pure ((), { st with
    lexicalEnvironmentVariableDeclarationsStack := variableStack
    lexicalEnvironmentFunctionDeclarationsStack := functionStack
    lexicalEnvironmentStackOffset := offset + 1
    hoistedVariableDeclarations := none
    hoistedFunctionDeclarations := none })

/-- The closure `endLexicalEnvironment`; the result `none` is `undefined`. -/
def endLexicalEnvironment (st : TransformState X) :
    Except String (Option (List Statement) × TransformState X) := do
  Debug.assert (!st.lexicalEnvironmentDisabled)
    "Cannot end a lexical environment during the print phase."
  let statements : Option (List Statement) := none
  let statements :=
    if st.hoistedVariableDeclarations.isSome || st.hoistedFunctionDeclarations.isSome then
      let statements :=
        match st.hoistedFunctionDeclarations with
        | some functions => some (functions.map Statement.functionDeclaration)
        | none => statements
      match st.hoistedVariableDeclarations with
      | some declarations =>
        let statement := Statement.variableStatement declarations
        match statements with
        | none => some [statement]
        | some others => some (others ++ [statement])
      | none => statements
    else statements
  let offset := st.lexicalEnvironmentStackOffset - 1
  pure (statements, { st with
    lexicalEnvironmentStackOffset := offset
    hoistedVariableDeclarations := st.lexicalEnvironmentVariableDeclarationsStack offset
    hoistedFunctionDeclarations := st.lexicalEnvironmentFunctionDeclarationsStack offset })

/-- The closure `onEmitNode`, the default emit hook; `emit` is the callback of the
printer. -/
def onEmitNode (node : Node) (emit : Node → Eff X Unit) : Eff X Unit := fun st =>
  if !st.lexicalEnvironmentDisabled then
    let savedLexicalEnvironmentDisabled := st.lexicalEnvironmentDisabled
    match emit node { st with lexicalEnvironmentDisabled := true } with
    | .error e => .error e
    | .ok (_, st) =>
      .ok ((), { st with lexicalEnvironmentDisabled := savedLexicalEnvironmentDisabled })
  else emit node st

/-! ### The context and the orchestration -/

/-- Modelled from the spec: `TransformationContext` (types.ts is not part of the
sources), the object of closures handed to every pass factory. -/
structure TransformationContext (X : Type) where
  getCompilerOptions : Eff X CompilerOptions
  getEmitResolver : Eff X EmitResolver
  getEmitHost : Eff X EmitHost
  getNodeEmitFlags : Node → Eff X (Option Nat)
  setNodeEmitFlags : Node → Nat → Eff X Node
  getSourceMapRange : Node → Eff X (TextRange ⊕ Node)
  setSourceMapRange : Node → TextRange → Eff X Node
  getTokenSourceMapRange : Node → Nat → Eff X (Option TextRange)
  setTokenSourceMapRange : Node → Nat → TextRange → Eff X Node
  getCommentRange : Node → Eff X (TextRange ⊕ Node)
  setCommentRange : Node → TextRange → Eff X Node
  hoistVariableDeclaration : String → Eff X Unit
  hoistFunctionDeclaration : FunctionDeclaration → Eff X Unit
  startLexicalEnvironment : Eff X Unit
  endLexicalEnvironment : Eff X (Option (List Statement))
  onSubstituteNode : Node → Bool → Eff X Node
  enableSubstitution : Nat → Eff X Unit
  isSubstitutionEnabled : Node → Eff X Bool
  onEmitNode : Node → (Node → Eff X Unit) → Eff X Unit
  enableEmitNotification : Nat → Eff X Unit
  isEmitNotificationEnabled : Node → Eff X Bool

/-- A pass factory: given the context it returns the per-node function of the pass. -/
abbrev Transformer (X : Type) : Type := TransformationContext X → Eff X (NodeTransformer X)

/-- A closure that only reads the state. -/
def Eff.reading {α : Type} (f : TransformState X → α) : Eff X α :=
  fun st => .ok (f st, st)

/-- A closure that reads and writes the state and cannot throw. -/
def Eff.running {α : Type} (f : TransformState X → α × TransformState X) : Eff X α :=
  fun st => .ok (f st)

/-- A closure that only writes the state. -/
def Eff.writing (f : TransformState X → TransformState X) : Eff X Unit :=
  fun st => .ok ((), f st)

/-- The object `context` built by `transformFiles`. -/
def context (F : NodeEmitFlags) (resolver : EmitResolver) (host : EmitHost) :
    TransformationContext X where
  getCompilerOptions := pure host.getCompilerOptions
  getEmitResolver := pure resolver
  getEmitHost := pure host
  getNodeEmitFlags := fun node => Eff.running (fun st => getNodeEmitFlags F st node)
  setNodeEmitFlags := fun node flags => Eff.running (fun st => setNodeEmitFlags F st node flags)
  getSourceMapRange := fun node => Eff.reading (fun st => getSourceMapRange st node)
  setSourceMapRange := fun node range => Eff.running (fun st => setSourceMapRange st node range)
  getTokenSourceMapRange := fun node token =>
    Eff.reading (fun st => getTokenSourceMapRange st node token)
  setTokenSourceMapRange := fun node token range =>
    Eff.running (fun st => setTokenSourceMapRange st node token range)
  getCommentRange := fun node => Eff.reading (fun st => getCommentRange st node)
  setCommentRange := fun node range => Eff.running (fun st => setCommentRange st node range)
  hoistVariableDeclaration := fun name st => hoistVariableDeclaration st name
  hoistFunctionDeclaration := fun func st => hoistFunctionDeclaration st func
  startLexicalEnvironment := fun st => startLexicalEnvironment st
  endLexicalEnvironment := fun st => endLexicalEnvironment st
  onSubstituteNode := fun node isExpression => pure (onSubstituteNode node isExpression)
  enableSubstitution := fun kind => Eff.writing (fun st => enableSubstitution st kind)
  isSubstitutionEnabled := fun node => Eff.reading (fun st => isSubstitutionEnabled st node)
  onEmitNode := onEmitNode
  enableEmitNotification := fun kind => Eff.writing (fun st => enableEmitNotification st kind)
  isEmitNotificationEnabled := fun node =>
    Eff.running (fun st => isEmitNotificationEnabled F st node)

/-- The values the declarations at the head of `transformFiles` give the captured
variables: empty arrays, offset `0`, everything else `undefined`.  The heap and the
state of the passes are left as they are. -/
def declareVariables (st : TransformState X) : TransformState X :=
  { st with
    nodeEmitOptions := fun _ => none
    lexicalEnvironmentVariableDeclarationsStack := fun _ => none
    lexicalEnvironmentFunctionDeclarationsStack := fun _ => none
    enabledSyntaxKindFeatures := fun _ => 0
    lexicalEnvironmentStackOffset := 0
    hoistedVariableDeclarations := none
    hoistedFunctionDeclarations := none
    currentSourceFile := none
    lexicalEnvironmentDisabled := false }

/-- The closure `transformSourceFile`; `transformation` is the captured variable of
that name. -/
def transformSourceFile (transformation : NodeTransformer X) (sourceFile : Node) :
    Eff X Node :=
  if isDeclarationFile sourceFile then pure sourceFile
  else do
    Eff.writing (fun st => { st with currentSourceFile := some sourceFile })
    transformation sourceFile

/-- The function `transformFiles`. -/
def transformFiles (F : NodeEmitFlags) (resolver : EmitResolver) (host : EmitHost)
    (sourceFiles : List Node) (transformers : List (Transformer X)) : Eff X (List Node) := do
  Eff.writing declareVariables
  let transformation ← chain transformers (context F resolver host)
  map sourceFiles (transformSourceFile transformation)

end Engine

/-! ## The lexical environment, statement by statement

The closures of the lexical environment once more, with the state a throw leaves behind.
A result of type `Except` carries no state when it is an error; here a run gives the
value or the error together with the state reached when the closure returned or threw,
and every assignment is a step of its own, in the order of the source. -/

section Stepwise
variable {X : Type}

/-- The closure `hoistVariableDeclaration`, statement by statement. -/
def Stepwise.hoistVariableDeclaration (st : TransformState X) (name : String) :
    Except String Unit × TransformState X :=
  match Debug.assert (!st.lexicalEnvironmentDisabled)
      "Cannot modify the lexical environment during the print phase." with
  | .error e => (.error e, st)
  | .ok _ =>
    let decl := createVariableDeclaration name
    match st.hoistedVariableDeclarations with
    | none => (.ok (), { st with hoistedVariableDeclarations := some [decl] })
    | some declarations =>
      (.ok (), { st with hoistedVariableDeclarations := some (declarations ++ [decl]) })

/-- The closure `hoistFunctionDeclaration`, statement by statement. -/
def Stepwise.hoistFunctionDeclaration (st : TransformState X) (func : FunctionDeclaration) :
    Except String Unit × TransformState X :=
  match Debug.assert (!st.lexicalEnvironmentDisabled)
      "Cannot modify the lexical environment during the print phase." with
  | .error e => (.error e, st)
  | .ok _ =>
    match st.hoistedFunctionDeclarations with
    | none => (.ok (), { st with hoistedFunctionDeclarations := some [func] })
    | some declarations =>
      (.ok (), { st with hoistedFunctionDeclarations := some (declarations ++ [func]) })

/-- The closure `startLexicalEnvironment`, statement by statement. -/
def Stepwise.startLexicalEnvironment (st : TransformState X) :
    Except String Unit × TransformState X :=
  match Debug.assert (!st.lexicalEnvironmentDisabled)
      "Cannot start a lexical environment during the print phase." with
  | .error e => (.error e, st)
  | .ok _ =>
    let variableStack :=
      Function.update st.lexicalEnvironmentVariableDeclarationsStack
        st.lexicalEnvironmentStackOffset st.hoistedVariableDeclarations
    let st := { st with lexicalEnvironmentVariableDeclarationsStack := variableStack }
    let functionStack :=
      Function.update st.lexicalEnvironmentFunctionDeclarationsStack
        st.lexicalEnvironmentStackOffset st.hoistedFunctionDeclarations
    let st := { st with lexicalEnvironmentFunctionDeclarationsStack := functionStack }
    let st := { st with lexicalEnvironmentStackOffset := st.lexicalEnvironmentStackOffset + 1 }
    let st := { st with hoistedVariableDeclarations := none }
    let st := { st with hoistedFunctionDeclarations := none }
    (.ok (), st)

/-- The closure `endLexicalEnvironment`, statement by statement. -/
def Stepwise.endLexicalEnvironment (st : TransformState X) :
    Except String (Option (List Statement)) × TransformState X :=
  match Debug.assert (!st.lexicalEnvironmentDisabled)
      "Cannot end a lexical environment during the print phase." with
  | .error e => (.error e, st)
  | .ok _ =>
    let statements : Option (List Statement) := none
    let statements :=
      if st.hoistedVariableDeclarations.isSome || st.hoistedFunctionDeclarations.isSome then
        let statements :=
          match st.hoistedFunctionDeclarations with
          | some functions => some (functions.map Statement.functionDeclaration)
          | none => statements
        match st.hoistedVariableDeclarations with
        | some declarations =>
          let statement := Statement.variableStatement declarations
          match statements with
          | none => some [statement]
          | some others => some (others ++ [statement])
        | none => statements
      else statements
    let st := { st with lexicalEnvironmentStackOffset := st.lexicalEnvironmentStackOffset - 1 }
    let restoredVariables :=
      st.lexicalEnvironmentVariableDeclarationsStack st.lexicalEnvironmentStackOffset
    let st := { st with hoistedVariableDeclarations := restoredVariables }
    let restoredFunctions :=
      st.lexicalEnvironmentFunctionDeclarationsStack st.lexicalEnvironmentStackOffset
    let st := { st with hoistedFunctionDeclarations := restoredFunctions }
    (.ok statements, st)

end Stepwise

/-! ## Instrumented functions used to state the properties -/

/-- A pass factory that appends its tag and the context it is called with to a log and
returns the identity as per-node function. -/
def tracingFactory {T U : Type} (tag : Nat) :
    T → StateT (List (Nat × T)) (Except String)
      (U → StateT (List (Nat × T)) (Except String) U) :=
  fun t log => .ok ((fun u => pure u), log ++ [(tag, t)])

/-- A per-node function that keeps a log in the state of the passes: it logs its tag
and the id of the file it is applied to and returns the file. -/
def tracingNodeTransformer (tag : Nat) : NodeTransformer (List (Nat × Option Nat)) :=
  fun sourceFile st =>
    .ok (sourceFile, { st with ext := st.ext ++ [(tag, some (getNodeId sourceFile))] })

/-- A pass that keeps a log in the state of the passes: its factory logs the tag of
the pass and returns `tracingNodeTransformer tag` as per-node function. -/
def tracingTransformer (tag : Nat) : Transformer (List (Nat × Option Nat)) :=
  fun _context st =>
    .ok (tracingNodeTransformer tag, { st with ext := st.ext ++ [(tag, none)] })

/-- A per-node function that logs, for every file it is applied to, whether
substitution is enabled for `probe`, and returns the file. -/
def observingNodeTransformer (context : TransformationContext (List Bool)) (probe : Node) :
    NodeTransformer (List Bool) :=
  fun sourceFile => do
    let enabled ← context.isSubstitutionEnabled probe
    Eff.writing (fun st => { st with ext := st.ext ++ [enabled] })
    pure sourceFile

/-- A pass whose factory enables substitution for `kind` and whose per-node function
logs, for every file it is applied to, whether substitution is enabled for `probe`. -/
def observingTransformer (kind : Nat) (probe : Node) : Transformer (List Bool) :=
  fun context => do
    context.enableSubstitution kind
    pure (observingNodeTransformer context probe)

/-- A pass without side effects: its factory does nothing and returns the function
`f` as per-node function. -/
def purePass {X : Type} (f : Node → Node) : Transformer X :=
  fun _context => pure (fun node => pure (f node))

/-! ## Reference definitions used to state the properties -/

section Reference
variable {X : Type}

/-- The flags recorded for the node itself: the `flags` field of its record, `none`
when the node has no record or the field is undefined. -/
def recordedFlags (st : TransformState X) (node : Node) : Option Nat :=
  ((getEmitOptions st node false).1).bind (fun options => options.flags)

/-- Reference definition of get-flags, after the words of the spec: walk the chain of
originals to the first node with recorded flags; without one the result is undefined;
if the flags found lack the merge marker they are the result; otherwise the result is
`(found | get-flags(original of that node)) & ~Merge`. -/
def getFlagsReference (F : NodeEmitFlags) (st : TransformState X) : Node → Option Nat
  | .mk id kind sourceTree declarationFile original =>
    let ofOriginal : Option Nat :=
      match original with
      | some next => getFlagsReference F st next
      | none => none
    match recordedFlags st (.mk id kind sourceTree declarationFile original) with
    | none => ofOriginal
    | some found =>
      if found &&& F.Merge = 0 then some found
      else some (clearFlags (found ||| ofOriginal.getD 0) F.Merge)

/-- The place where the record of a node is kept: in the table `nodeEmitOptions`
(`true`) or in the property of a synthesized node (`false`), at the id of the node. -/
def location (node : Node) : Bool × Nat := (isSourceTreeNode node, getNodeId node)

/-- The record kept at a place. -/
def recordAt (st : TransformState X) (place : Bool × Nat) : Option NodeEmitOptions :=
  if place.1 then st.nodeEmitOptions place.2 else st.emitOptions place.2

/-- The token-range map the node has of its own: the reference in the
`tokenSourceMapRange` field of its record. -/
def ownTokenRanges (st : TransformState X) (node : Node) : Option Nat :=
  ((getEmitOptions st node false).1).bind (fun options => options.tokenSourceMapRange)

/-- Well-formedness of the heap of token-range maps: every map referenced by a record
has been allocated, and no two records reference the same map. -/
structure TokenRangesOwned (st : TransformState X) : Prop where
  allocated : ∀ place options ranges, recordAt st place = some options →
    options.tokenSourceMapRange = some ranges → ranges < st.nextAddress
  unshared : ∀ place place' options options' ranges,
    recordAt st place = some options → recordAt st place' = some options' →
    options.tokenSourceMapRange = some ranges → options'.tokenSourceMapRange = some ranges →
    place = place'

/-- The source-map range recorded for the node itself, `none` when the node has no
record or the field is undefined. -/
def recordedSourceMapRange (st : TransformState X) (node : Node) : Option TextRange :=
  ((getEmitOptions st node false).1).bind (fun options => options.sourceMapRange)

/-- The comment range recorded for the node itself, `none` when the node has no record
or the field is undefined. -/
def recordedCommentRange (st : TransformState X) (node : Node) : Option TextRange :=
  ((getEmitOptions st node false).1).bind (fun options => options.commentRange)

/-- The chain of originals of a node, nearest first: `node.original`,
`node.original.original`, and so on. -/
def originals : Node → List Node
  | .mk _ _ _ _ none => []
  | .mk _ _ _ _ (some next) => next :: originals next

/-- A hoisting operation of a pass: a call of `hoistVariableDeclaration` or of
`hoistFunctionDeclaration`. -/
inductive HoistOperation where
  | hoistVariable (name : String)
  | hoistFunction (func : FunctionDeclaration)
deriving DecidableEq, Repr

/-- The call a hoisting operation stands for. -/
def hoist (st : TransformState X) : HoistOperation → Except String (Unit × TransformState X)
  | .hoistVariable name => hoistVariableDeclaration st name
  | .hoistFunction func => hoistFunctionDeclaration st func

/-- A sequence of hoisting operations, run one after the other. -/
def hoistAll (st : TransformState X) : List HoistOperation → Except String (TransformState X)
  | [] => .ok st
  | operation :: rest =>
    match hoist st operation with
    | .ok (_, st') => hoistAll st' rest
    | .error e => .error e

/-- The declarations of the variables a sequence of operations hoists, in order. -/
def hoistedVariables : List HoistOperation → List VariableDeclaration
  | [] => []
  | .hoistVariable name :: rest => createVariableDeclaration name :: hoistedVariables rest
  | .hoistFunction _ :: rest => hoistedVariables rest

/-- The functions a sequence of operations hoists, in order. -/
def hoistedFunctions : List HoistOperation → List FunctionDeclaration
  | [] => []
  | .hoistVariable _ :: rest => hoistedFunctions rest
  | .hoistFunction func :: rest => func :: hoistedFunctions rest

/-- Reference definition of the statements of a frame, after the words of the spec: the
hoisted functions first, each as its own statement, then one variable statement listing
every hoisted variable, emitted only if there is one; nothing if neither kind was
hoisted. -/
def statementsOf (functions : List FunctionDeclaration)
    (declarations : List VariableDeclaration) : Option (List Statement) :=
  if functions = [] ∧ declarations = [] then none
  else some (functions.map Statement.functionDeclaration ++
    (if declarations = [] then [] else [Statement.variableStatement declarations]))

/-- A hoisted sequence extended by further declarations: a sequence that is undefined
stays undefined when nothing is added. -/
def extendHoisted {α : Type} (current : Option (List α)) (added : List α) :
    Option (List α) :=
  match added with
  | [] => current
  | first :: rest => some (current.getD [] ++ first :: rest)

/-- A callback of the printer keeps the guard set: run in a state with the guard set,
a normal return leaves the guard set.  The only assignments to
`lexicalEnvironmentDisabled` are those of `onEmitNode`, so a callback changes the guard
only through nested notifications. -/
def KeepsGuard (emit : Node → Eff X Unit) : Prop :=
  ∀ (node : Node) (st st' : TransformState X),
    st.lexicalEnvironmentDisabled = true → emit node st = .ok ((), st') →
    st'.lexicalEnvironmentDisabled = true

/-- The kind-level emit-notification bit of the feature table, the first disjunct of
`isEmitNotificationEnabled`. -/
def emitNotificationBit (st : TransformState X) (kind : Nat) : Bool :=
  (st.enabledSyntaxKindFeatures kind &&& SyntaxKindFeatureFlags.EmitNotifications) != 0

/-- Reference definition of the second phase of `transformFiles` on files that are not
declaration files, after the words of the spec: each file in turn is recorded as the
current source file and replaced by the result of the transformation applied to it, every
application starting in the state the one before it left. -/
def applyToEach (transformation : NodeTransformer X) :
    List Node → TransformState X → Except String (List Node × TransformState X)
  | [], st => .ok ([], st)
  | file :: rest, st =>
    match transformation file { st with currentSourceFile := some file } with
    | .error e => .error e
    | .ok (result, st1) =>
      match applyToEach transformation rest st1 with
      | .error e => .error e
      | .ok (results, st2) => .ok (result :: results, st2)

/-- The list of files returned for `files` when `results` are the results for its files
that are not declaration files, in order: a declaration file stands in its place as it
is, any other file is replaced by the next result. -/
def restoreDeclarationFiles : List Node → List Node → List Node
  | [], _ => []
  | file :: rest, results =>
    if isDeclarationFile file then file :: restoreDeclarationFiles rest results
    else
      match results with
      | [] => []
      | result :: others => result :: restoreDeclarationFiles rest others

/-- No overlay record holds flags that contain the merge marker. -/
def MergeFree (F : NodeEmitFlags) (st : TransformState X) : Prop :=
  ∀ (place : Bool × Nat) (options : NodeEmitOptions) (flags : Nat),
    recordAt st place = some options → options.flags = some flags → flags &&& F.Merge = 0

/-- A finite sequence of calls `setNodeEmitFlags(node, flags)`, run from `st` in the
order of the list. -/
def setNodeEmitFlagsAll (F : NodeEmitFlags) (st : TransformState X) :
    List (Node × Nat) → TransformState X
  | [] => st
  | call :: rest => setNodeEmitFlagsAll F (setNodeEmitFlags F st call.1 call.2).2 rest

end Reference

/-! ## Concrete states and nodes used in the examples -/

/-- The state in which `transformFiles` starts on a fresh heap, the passes being in the
state `ext`: nothing recorded, nothing allocated. -/
def emptyStateWith {X : Type} (ext : X) : TransformState X where
  nodeEmitOptions := fun _ => none
  lexicalEnvironmentVariableDeclarationsStack := fun _ => none
  lexicalEnvironmentFunctionDeclarationsStack := fun _ => none
  enabledSyntaxKindFeatures := fun _ => 0
  lexicalEnvironmentStackOffset := 0
  hoistedVariableDeclarations := none
  hoistedFunctionDeclarations := none
  currentSourceFile := none
  lexicalEnvironmentDisabled := false
  emitOptions := fun _ => none
  tokenSourceMapRanges := fun _ _ => none
  nextAddress := 0
  ext := ext

/-- The state in which `transformFiles` starts on a fresh heap, for passes without
state of their own. -/
def emptyState : TransformState Unit := emptyStateWith ()

/-- Flag values used in the examples: `Merge` is bit 2, `AdviseOnEmitNode` bit 3. -/
def exampleFlags : NodeEmitFlags := ⟨4, 8⟩

/-- A node of a parsed source tree, with id 1 and no original. -/
def exampleOriginal : Node := .mk 1 70 true false none

/-- A synthesized node with id 2 that replaces `exampleOriginal`. -/
def exampleSynthesized : Node := .mk 2 70 false false (some exampleOriginal)

/-- A declaration-only source file, with id 3. -/
def exampleDeclarationFile : Node := .mk 3 256 true true none

/-- A source file with executable content, with id 4. -/
def exampleSourceFile : Node := .mk 4 256 true false none

/-- A resolver for the examples. -/
def exampleResolver : EmitResolver := ⟨0⟩

/-- A host for the examples. -/
def exampleHost : EmitHost := ⟨⟨none, none, none⟩⟩

/-- The files of the examples: a source file, a declaration file, the source file
again. -/
def exampleFiles : List Node := [exampleSourceFile, exampleDeclarationFile, exampleSourceFile]

/-- The state the run of `transformFiles` on `exampleFiles` with the one pass
`observingTransformer 70 exampleOriginal` is in after the factory has run. -/
def observedStateAfterFactories : TransformState (List Bool) :=
  enableSubstitution (declareVariables (emptyStateWith [])) 70

/-- The state of the same run after the first two files. -/
def observedStateAfterTwoFiles : TransformState (List Bool) :=
  { observedStateAfterFactories with
    currentSourceFile := some exampleSourceFile
    ext := [true] }

/-- A pass without side effects used in the examples: it replaces a node by a
synthesized node that has the node as its original. -/
def exampleRewrite (node : Node) : Node :=
  .mk (node.id + 100) node.kind false false (some node)

/-- The state after `setNodeEmitFlags(exampleOriginal, 1)` on the empty state: the
original has the flags `1` recorded, the synthesized node has no record. -/
def exampleState : TransformState Unit :=
  (setNodeEmitFlags exampleFlags emptyState exampleOriginal 1).2

/-- The state after `setTokenSourceMapRange(exampleOriginal, 5, [10, 20))` on the empty
state: the original has a token-range map of its own, the synthesized node inherits
it. -/
def exampleTokenState : TransformState Unit :=
  (setTokenSourceMapRange emptyState exampleOriginal 5 ⟨10, 20⟩).2

/-- The state after `setSourceMapRange(exampleOriginal, [3, 9))` and
`setCommentRange(exampleOriginal, [2, 9))` on `exampleState`: the original has flags and
both ranges recorded, the synthesized node has no record. -/
def exampleRangeState : TransformState Unit :=
  (setCommentRange (setSourceMapRange exampleState exampleOriginal ⟨3, 9⟩).2
    exampleOriginal ⟨2, 9⟩).2

/-- The empty state with the final-emission guard set. -/
def guardedState : TransformState Unit :=
  { emptyState with lexicalEnvironmentDisabled := true }

/-- A pass whose per-node function throws whenever it is applied. -/
def throwingTransformer : Transformer Unit :=
  fun _context => pure (fun _node _st => .error "applied")

/-- The state in which the synthesized example node holds the flags `2 | Merge` with the
merge marker still in them, its original holding the flags `1`: a state the getter
provides for and the setter never produces. -/
def exampleMarkedState : TransformState Unit :=
  { exampleState with
    emitOptions :=
      Function.update exampleState.emitOptions 2
        (some { NodeEmitOptions.empty with flags := some (2 ||| exampleFlags.Merge) }) }

/-- The state `transformFiles` starts in with the variable `a` hoisted and no
`startLexicalEnvironment` outstanding. -/
def hoistedState : TransformState Unit :=
  { emptyState with hoistedVariableDeclarations := some [createVariableDeclaration "a"] }

/-- A callback of the printer that keeps a log in the state of the passes: at every
invocation it logs the id of the node it is given and the value of the guard. -/
def loggingEmit : Node → Eff (List (Nat × Bool)) Unit :=
  fun node st =>
    .ok ((), { st with ext := st.ext ++ [(getNodeId node, st.lexicalEnvironmentDisabled)] })

/-! ## Properties of the higher-order helpers -/

theorem arrayOf_eq {α : Type} (l : List α) : arrayOf l = l := by
  unfold arrayOf
  exact List.ofFn_get l

theorem reduceLeft_eq_foldlM {m : Type → Type} [Monad m] {α β : Type} (array : List α)
    (f : β → α → m β) (initial : β) :
    reduceLeft array f initial = List.foldlM f initial array := by
  induction array generalizing initial with
  | nil => rfl
  | cons x rest ih => simp only [reduceLeft, List.foldlM_cons, ih]

theorem map_eq_mapM {m : Type → Type} [Monad m] [LawfulMonad m] {α β : Type}
    (array : List α) (f : α → m β) : map array f = List.mapM f array := by
  induction array with
  | nil => rfl
  | cons x rest ih => rw [map, List.mapM_cons, ih]

theorem map_id_eq_map {α β : Type} (array : List α) (f : α → β) :
    map (m := Id) array f = List.map f array := by
  induction array with
  | nil => rfl
  | cons x rest ih =>
    show (f x :: map (m := Id) rest f) = f x :: List.map f rest
    rw [ih]

theorem compose_eq_foldlM {m : Type → Type} [Monad m] [LawfulMonad m] {T : Type}
    (args : List (T → m T)) (x : T) :
    compose args x = List.foldlM (fun u f => f u) x args := by
  match args with
  | [] => simp [compose]
  | [a] => simp [compose]
  | [a, b] => simp [compose]
  | [a, b, c] => simp [compose]
  | [a, b, c, d] => simp [compose]
  | a :: b :: c :: d :: e :: rest =>
    simp only [compose, arrayOf_eq, reduceLeft_eq_foldlM]

theorem foldlM_id_eq_foldl {T : Type} (args : List (T → T)) (x : T) :
    List.foldlM (m := Id) (fun u f => f u) x args = args.foldl (fun u f => f u) x := by
  induction args generalizing x with
  | nil => rfl
  | cons f rest ih =>
    simp only [List.foldlM_cons, List.foldl_cons]
    exact ih (f x)

theorem chain_eq_mapM {m : Type → Type} [Monad m] [LawfulMonad m] {T U : Type}
    (args : List (T → m (U → m U))) (c : T) :
    chain args c = (do let fs ← List.mapM (fun g => g c) args; pure (compose fs)) := by
  match args with
  | [] => simp only [chain, compose, List.mapM_nil, pure_bind]
  | [a] => simp only [chain, List.mapM_nil, List.mapM_cons, pure_bind, bind_assoc]
  | [a, b] => simp only [chain, List.mapM_nil, List.mapM_cons, pure_bind, bind_assoc]
  | [a, b, c] => simp only [chain, List.mapM_nil, List.mapM_cons, pure_bind, bind_assoc]
  | [a, b, c, d] => simp only [chain, List.mapM_nil, List.mapM_cons, pure_bind, bind_assoc]
  | a :: b :: c :: d :: e :: rest =>
    simp only [chain, arrayOf_eq, map_eq_mapM]

theorem compose_id_eq_foldl {T : Type} (args : List (T → T)) (x : T) :
    compose (m := Id) args x = args.foldl (fun u f => f u) x := by
  rw [compose_eq_foldlM]
  exact foldlM_id_eq_foldl args x

theorem mapM_tracingFactory {T U : Type} (tags : List Nat) (c : T) (log : List (Nat × T)) :
    ∃ fs : List (U → StateT (List (Nat × T)) (Except String) U),
      List.mapM (fun g => g c) (tags.map (fun tag => tracingFactory tag)) log
        = Except.ok (fs, log ++ tags.map (fun tag => (tag, c))) := by
  induction tags generalizing log with
  | nil =>
    refine ⟨[], ?_⟩
    simp only [List.map_nil, List.mapM_nil, List.append_nil]
    rfl
  | cons tag rest ih =>
    obtain ⟨fs, hfs⟩ := ih (log ++ [(tag, c)])
    refine ⟨(fun u => pure u) :: fs, ?_⟩
    simp only [List.map_cons, List.mapM_cons, bind, StateT.bind, Except.bind, tracingFactory,
      hfs]
    simp only [List.append_assoc, List.singleton_append]
    rfl

/-- C1: `compose` applied to the list `[f1, ..., fN]` is the left fold of function
application: on side-effect free functions `compose(f1, ..., fN)(x)` is
`fN(... f2(f1(x)) ...)`, for every `N`, in the unrolled branches and in the
`reduceLeft` branch alike, and the identity for `N = 0`; functions that append a tag to
a log leave the tags in list order; functions with side effects run each once, in list
order, every one on the result and in the state left by the one before. -/
theorem compose_applies_in_list_order {T : Type} :
    (∀ (args : List (T → T)) (x : T),
      compose (m := Id) args x = args.foldl (fun u f => f u) x) ∧
    (∀ (args : List (T → T)) (x : T),
      compose (m := Id) args x = args.reverse.foldr (fun f u => f u) x) ∧
    (∀ x : T, compose (m := Id) ([] : List (T → T)) x = x) ∧
    (∀ (tags log : List T),
      compose (m := Id) (tags.map (fun tag => fun l => l ++ [tag])) log = log ++ tags) ∧
    (∀ (σ ε : Type) (args : List (T → StateT σ (Except ε) T)) (x : T),
      compose args x = List.foldlM (fun u f => f u) x args) := by
  refine ⟨compose_id_eq_foldl, ?_, fun x => rfl, ?_, ?_⟩
  · intro args x
    rw [compose_id_eq_foldl, List.foldr_reverse]
  · intro tags log
    rw [compose_id_eq_foldl]
    induction tags generalizing log with
    | nil => simp
    | cons tag rest ih =>
      simp only [List.map_cons, List.foldl_cons]
      rw [ih]
      exact List.append_assoc log [tag] rest
  · intro σ ε args x
    exact compose_eq_foldlM args x

/-- C2: `chain(g1, ..., gN)(c)` calls every factory once, first to last, each with that
same `c`, and returns `compose` of the functions they returned, for every `N`, in the
unrolled branches and in the `map` branch alike: it is the monadic map of `g ↦ g(c)`
over the list followed by `compose`; on side-effect free factories it is
`compose(g1(c), ..., gN(c))`; factories that append their tag and the context they
received to a log leave the log extended by the tags in list order, each paired with
`c`. -/
theorem chain_calls_each_factory_once {T U : Type} :
    (∀ (σ ε : Type) (args : List (T → StateT σ (Except ε) (U → StateT σ (Except ε) U)))
        (c : T),
      chain args c = (do let fs ← List.mapM (fun g => g c) args; pure (compose fs))) ∧
    (∀ (args : List (T → U → U)) (c : T),
      chain (m := Id) args c = compose (m := Id) (args.map (fun g => g c))) ∧
    (∀ (tags : List Nat) (c : T) (log : List (Nat × T)),
      ∃ fn : U → StateT (List (Nat × T)) (Except String) U,
        chain (tags.map (fun tag => tracingFactory tag)) c log
          = Except.ok (fn, log ++ tags.map (fun tag => (tag, c)))) := by
  refine ⟨fun σ ε args c => chain_eq_mapM args c, ?_, ?_⟩
  · intro args c
    match args with
    | [] => rfl
    | [a] => rfl
    | [a, b] => rfl
    | [a, b, c] => rfl
    | [a, b, c, d] => rfl
    | a :: b :: c' :: d :: e :: rest =>
      simp only [chain, arrayOf_eq]
      show compose (m := Id) (map (m := Id) (a :: b :: c' :: d :: e :: rest) (fun f => f c)) = _
      rw [map_id_eq_map]
  · intro tags c log
    obtain ⟨fs, hfs⟩ := mapM_tracingFactory (U := U) tags c log
    refine ⟨compose fs, ?_⟩
    rw [chain_eq_mapM]
    simp only [bind, StateT.bind, hfs, Except.bind]
    rfl

/-! ## Pipeline selection -/

/-- C4: for a module kind `M` among ES6, System, AMD, CommonJS, UMD and None the table
has an entry, and `getTransformers` returns `transformTypeScript`, the entry of `M`,
`transformJsx` if `jsx` is React, `transformES7`, and `transformES6` if the language
version is below ES6, in this order and nothing else; the table maps ES6 to
`transformES6Module`, System to `transformSystemModule` and the other four to
`transformModule`; a target before ES6 with System modules and no React gives
TypeScript, System, ES7, ES6, and target ES6 with ES6 modules and React gives
TypeScript, ES6Module, Jsx, ES7. -/
theorem getTransformers_selects_passes
    (getEmitScriptTarget : CompilerOptions → ScriptTarget)
    (getEmitModuleKind : CompilerOptions → ModuleKind) (compilerOptions : CompilerOptions)
    (hM : getEmitModuleKind compilerOptions ∈
      [ModuleKind.ES6, ModuleKind.System, ModuleKind.AMD, ModuleKind.CommonJS,
        ModuleKind.UMD, ModuleKind.None]) :
    (∃ modulePass, moduleTransformerMap (getEmitModuleKind compilerOptions) = some modulePass ∧
      getTransformers getEmitScriptTarget getEmitModuleKind compilerOptions =
        List.map some
          ([TransformerName.transformTypeScript, modulePass]
            ++ (if compilerOptions.jsx = some JsxEmit.React
                then [TransformerName.transformJsx] else [])
            ++ [TransformerName.transformES7]
            ++ (if (getEmitScriptTarget compilerOptions).toNat < ScriptTarget.ES6.toNat
                then [TransformerName.transformES6] else []))) ∧
    (moduleTransformerMap ModuleKind.ES6 = some TransformerName.transformES6Module ∧
      moduleTransformerMap ModuleKind.System = some TransformerName.transformSystemModule ∧
      moduleTransformerMap ModuleKind.AMD = some TransformerName.transformModule ∧
      moduleTransformerMap ModuleKind.CommonJS = some TransformerName.transformModule ∧
      moduleTransformerMap ModuleKind.UMD = some TransformerName.transformModule ∧
      moduleTransformerMap ModuleKind.None = some TransformerName.transformModule) ∧
    (getEmitScriptTarget compilerOptions ≠ ScriptTarget.ES6 →
      getEmitModuleKind compilerOptions = ModuleKind.System →
      compilerOptions.jsx ≠ some JsxEmit.React →
      getTransformers getEmitScriptTarget getEmitModuleKind compilerOptions =
        [some TransformerName.transformTypeScript, some TransformerName.transformSystemModule,
          some TransformerName.transformES7, some TransformerName.transformES6]) ∧
    (getEmitScriptTarget compilerOptions = ScriptTarget.ES6 →
      getEmitModuleKind compilerOptions = ModuleKind.ES6 →
      compilerOptions.jsx = some JsxEmit.React →
      getTransformers getEmitScriptTarget getEmitModuleKind compilerOptions =
        [some TransformerName.transformTypeScript, some TransformerName.transformES6Module,
          some TransformerName.transformJsx, some TransformerName.transformES7]) := by
  refine ⟨?_, ⟨rfl, rfl, rfl, rfl, rfl, rfl⟩, ?_, ?_⟩
  · have hentry : ∃ modulePass,
        moduleTransformerMap (getEmitModuleKind compilerOptions) = some modulePass := by
      simp only [List.mem_cons, List.mem_singleton, List.not_mem_nil, or_false] at hM
      rcases hM with h | h | h | h | h | h <;> rw [h] <;> exact ⟨_, rfl⟩
    obtain ⟨modulePass, hpass⟩ := hentry
    refine ⟨modulePass, hpass, ?_⟩
    simp only [getTransformers, hpass]
    by_cases hjsx : compilerOptions.jsx = some JsxEmit.React <;>
      by_cases hver : (getEmitScriptTarget compilerOptions).toNat < ScriptTarget.ES6.toNat <;>
      simp [hjsx, hver]
  · intro htarget hmodule hjsx
    have hver : (getEmitScriptTarget compilerOptions).toNat < ScriptTarget.ES6.toNat := by
      cases h : getEmitScriptTarget compilerOptions
      · decide
      · decide
      · exact absurd h htarget
    simp [getTransformers, hmodule, hjsx, hver, moduleTransformerMap]
  · intro htarget hmodule hjsx
    simp [getTransformers, hmodule, hjsx, htarget, moduleTransformerMap, ScriptTarget.toNat]

/-- Witness of C4: target ES5, System modules, no `jsx` option; and target ES6, ES6
modules, `jsx` React. -/
theorem getTransformers_selects_passes_witness :
    getTransformers (fun o => o.target.getD ScriptTarget.ES3)
        (fun o => o.moduleKind.getD ModuleKind.CommonJS)
        ⟨none, some ScriptTarget.ES5, some ModuleKind.System⟩ =
      [some TransformerName.transformTypeScript, some TransformerName.transformSystemModule,
        some TransformerName.transformES7, some TransformerName.transformES6] ∧
    getTransformers (fun o => o.target.getD ScriptTarget.ES3)
        (fun o => o.moduleKind.getD ModuleKind.CommonJS)
        ⟨some JsxEmit.React, some ScriptTarget.ES6, some ModuleKind.ES6⟩ =
      [some TransformerName.transformTypeScript, some TransformerName.transformES6Module,
        some TransformerName.transformJsx, some TransformerName.transformES7] :=
  ⟨(getTransformers_selects_passes (fun o => o.target.getD ScriptTarget.ES3)
        (fun o => o.moduleKind.getD ModuleKind.CommonJS)
        ⟨none, some ScriptTarget.ES5, some ModuleKind.System⟩ (by decide)).2.2.1
      (by decide) rfl (by decide),
    (getTransformers_selects_passes (fun o => o.target.getD ScriptTarget.ES3)
        (fun o => o.moduleKind.getD ModuleKind.CommonJS)
        ⟨some JsxEmit.React, some ScriptTarget.ES6, some ModuleKind.ES6⟩ (by decide)).2.2.2
      rfl rfl rfl⟩

/-- C5, as stated, fails: for a module kind without an entry in the table (here the
value 99, with target ES5 and no `jsx` option) `getTransformers` does return a list;
its second element is `undefined`. -/
theorem getTransformers_unrecognized_module_returns :
    getTransformers (fun o => o.target.getD ScriptTarget.ES3)
        (fun o => o.moduleKind.getD ModuleKind.CommonJS)
        ⟨none, some ScriptTarget.ES5, some (ModuleKind.unrecognized 99)⟩ =
      [some TransformerName.transformTypeScript, none,
        some TransformerName.transformES7, some TransformerName.transformES6] := by
  decide

/-- C5, amended: for a module kind without an entry in the table `getTransformers`
does not fail; it returns the usual list with `undefined` in the place of the module
pass: `transformTypeScript`, `undefined`, `transformJsx` if `jsx` is React,
`transformES7`, and `transformES6` if the language version is below ES6. -/
theorem getTransformers_without_table_entry
    (getEmitScriptTarget : CompilerOptions → ScriptTarget)
    (getEmitModuleKind : CompilerOptions → ModuleKind) (compilerOptions : CompilerOptions)
    (hM : moduleTransformerMap (getEmitModuleKind compilerOptions) = none) :
    getTransformers getEmitScriptTarget getEmitModuleKind compilerOptions =
      [some TransformerName.transformTypeScript, none]
        ++ (if compilerOptions.jsx = some JsxEmit.React
            then [some TransformerName.transformJsx] else [])
        ++ [some TransformerName.transformES7]
        ++ (if (getEmitScriptTarget compilerOptions).toNat < ScriptTarget.ES6.toNat
            then [some TransformerName.transformES6] else []) := by
  simp only [getTransformers, hM]
  by_cases hjsx : compilerOptions.jsx = some JsxEmit.React <;>
    by_cases hver : (getEmitScriptTarget compilerOptions).toNat < ScriptTarget.ES6.toNat <;>
    simp [hjsx, hver]

/-- Witness of the amended C5: the module kind 7, target ES6 and `jsx` React. -/
theorem getTransformers_without_table_entry_witness :
    getTransformers (fun o => o.target.getD ScriptTarget.ES3)
        (fun o => o.moduleKind.getD ModuleKind.CommonJS)
        ⟨some JsxEmit.React, some ScriptTarget.ES6, some (ModuleKind.unrecognized 7)⟩ =
      [some TransformerName.transformTypeScript, none, some TransformerName.transformJsx,
        some TransformerName.transformES7] :=
  getTransformers_without_table_entry (fun o => o.target.getD ScriptTarget.ES3)
    (fun o => o.moduleKind.getD ModuleKind.CommonJS)
    ⟨some JsxEmit.React, some ScriptTarget.ES6, some (ModuleKind.unrecognized 7)⟩ rfl

/-! ## Emit flags -/

theorem clearFlags_testBit (flags mask i : Nat) :
    (clearFlags flags mask).testBit i = (flags.testBit i && !mask.testBit i) := by
  unfold clearFlags
  rw [Nat.testBit_xor, Nat.testBit_and]
  cases flags.testBit i <;> cases mask.testBit i <;> rfl

theorem clearFlags_and_mask (flags mask : Nat) : clearFlags flags mask &&& mask = 0 := by
  apply Nat.eq_of_testBit_eq
  intro i
  rw [Nat.testBit_and, clearFlags_testBit, Nat.zero_testBit]
  cases flags.testBit i <;> cases mask.testBit i <;> rfl

theorem clearFlags_or_mask (flags mask : Nat) :
    clearFlags (flags ||| mask) mask = clearFlags flags mask := by
  apply Nat.eq_of_testBit_eq
  intro i
  rw [clearFlags_testBit, clearFlags_testBit, Nat.testBit_or]
  cases flags.testBit i <;> cases mask.testBit i <;> rfl

theorem clearFlags_of_and_eq_zero (flags mask : Nat) (h : flags &&& mask = 0) :
    clearFlags flags mask = flags := by
  unfold clearFlags
  rw [h, Nat.xor_zero]

theorem or_mask_and_mask (flags mask : Nat) : (flags ||| mask) &&& mask = mask := by
  apply Nat.eq_of_testBit_eq
  intro i
  rw [Nat.testBit_and, Nat.testBit_or]
  cases flags.testBit i <;> cases mask.testBit i <;> rfl

section OverlayLemmas
variable {X : Type}

theorem getEmitOptions_false (st : TransformState X) (node : Node) :
    getEmitOptions st node false =
      (if isSourceTreeNode node then st.nodeEmitOptions (getNodeId node)
        else st.emitOptions node.id, st) := by
  simp [getEmitOptions]

theorem getNodeEmitFlags_fst (F : NodeEmitFlags) (st : TransformState X) :
    ∀ node : Node, (getNodeEmitFlags F st node).1 = getFlagsReference F st node
  | .mk id kind sourceTree declarationFile none => by
    simp only [getNodeEmitFlags, getFlagsReference, recordedFlags]
    cases h : ((getEmitOptions st (Node.mk id kind sourceTree declarationFile none)
        false).1).bind (fun options => options.flags) with
    | none => rfl
    | some flags =>
      by_cases hm : flags &&& F.Merge = 0
      · simp [hm]
      · simp [hm]
  | .mk id kind sourceTree declarationFile (some next) => by
    have ih := getNodeEmitFlags_fst F st next
    simp only [getNodeEmitFlags, getFlagsReference, recordedFlags]
    cases h : ((getEmitOptions st (Node.mk id kind sourceTree declarationFile (some next))
        false).1).bind (fun options => options.flags) with
    | none => exact ih
    | some flags =>
      by_cases hm : flags &&& F.Merge = 0
      · simp [hm]
      · simp [hm, ih]

/-- The flags recorded for `node` after `setNodeEmitFlags(node, flags)`. -/
theorem recordedFlags_setNodeEmitFlags (F : NodeEmitFlags) (st : TransformState X)
    (node : Node) (flags : Nat) :
    recordedFlags (setNodeEmitFlags F st node flags).2 node =
      some (if flags &&& F.Merge ≠ 0
        then (recordedFlags st node).getD 0 ||| clearFlags flags F.Merge else flags) := by
  unfold recordedFlags setNodeEmitFlags
  rw [getEmitOptions_false, getEmitOptions_false]
  by_cases hs : isSourceTreeNode node = true
  · cases hrec : st.nodeEmitOptions (getNodeId node) <;>
      simp [getEmitOptions, assignEmitOptions, hs, hrec, NodeEmitOptions.empty]
  · cases hrec : st.emitOptions node.id <;>
      simp [getEmitOptions, assignEmitOptions, hs, hrec, NodeEmitOptions.empty]

/-- Flags recorded for a node without the merge marker are what `getNodeEmitFlags`
reports for it. -/
theorem getNodeEmitFlags_of_recorded (F : NodeEmitFlags) (st : TransformState X)
    (node : Node) (flags : Nat) (hrec : recordedFlags st node = some flags)
    (hm : flags &&& F.Merge = 0) :
    (getNodeEmitFlags F st node).1 = some flags := by
  rw [getNodeEmitFlags_fst]
  cases node with
  | mk id kind sourceTree declarationFile original =>
    cases original <;> simp only [getFlagsReference, hrec, hm, if_true]

end OverlayLemmas

/-- C7: the value `getNodeEmitFlags` returns is the reference definition of get-flags
evaluated in the state of the call: the flags of the first node on the chain of
originals that has flags recorded, resolved against the original of that node when
they carry the merge marker, and undefined when no node of the chain has flags.  In
particular a node without an overlay record whose original has flags `flags` without
the merge marker reports `flags`. -/
theorem getNodeEmitFlags_matches_reference {X : Type} (F : NodeEmitFlags)
    (st : TransformState X) :
    (∀ node : Node, (getNodeEmitFlags F st node).1 = getFlagsReference F st node) ∧
    (∀ (S O : Node) (flags : Nat),
      S.original = some O → (getEmitOptions st S false).1 = none →
      recordedFlags st O = some flags → flags &&& F.Merge = 0 →
      (getNodeEmitFlags F st S).1 = some flags) := by
  refine ⟨getNodeEmitFlags_fst F st, ?_⟩
  intro S O flags hO hS hrec hm
  have hO' := getNodeEmitFlags_of_recorded F st O flags hrec hm
  rw [getNodeEmitFlags_fst] at hO' ⊢
  cases S with
  | mk id kind sourceTree declarationFile original =>
    have horig : original = some O := hO
    subst horig
    simp only [getFlagsReference, recordedFlags, hS, Option.bind]
    exact hO'

/-- Witness of C7: the synthesized example node has no record, its original has the
flags `1` recorded, and it reports `1`. -/
theorem getNodeEmitFlags_matches_reference_witness :
    (getNodeEmitFlags exampleFlags exampleState exampleSynthesized).1 = some 1 :=
  (getNodeEmitFlags_matches_reference exampleFlags exampleState).2
    exampleSynthesized exampleOriginal 1 rfl (by decide) (by decide) (by decide)

/-- C8: the code at the failing input.  The original has the flags `1`, the synthesized
node S has no record; after `setNodeEmitFlags(S, 2 | Merge)` the node reports `2`, where
the claim says `1 | 2`.  The setter has stored `2` without the marker, so the branch of
`getNodeEmitFlags` that resolves a stored marker against the original is not reached;
had the record of S kept `2 | Merge`, that branch would report `1 | 2` with the marker
cleared, as the claim says. -/
theorem setNodeEmitFlags_merge_drops_original_flags :
    recordedFlags exampleState exampleOriginal = some 1 ∧
    exampleSynthesized.original = some exampleOriginal ∧
    (getEmitOptions exampleState exampleSynthesized false).1 = none ∧
    recordedFlags (setNodeEmitFlags exampleFlags exampleState exampleSynthesized
      (2 ||| exampleFlags.Merge)).2 exampleSynthesized = some 2 ∧
    (getNodeEmitFlags exampleFlags
        (setNodeEmitFlags exampleFlags exampleState exampleSynthesized
          (2 ||| exampleFlags.Merge)).2 exampleSynthesized).1 = some 2 ∧
    (getNodeEmitFlags exampleFlags
        (setNodeEmitFlags exampleFlags exampleState exampleSynthesized
          (2 ||| exampleFlags.Merge)).2 exampleSynthesized).1
      ≠ some (clearFlags (1 ||| 2) exampleFlags.Merge) ∧
    recordedFlags exampleMarkedState exampleSynthesized = some (2 ||| exampleFlags.Merge) ∧
    (getNodeEmitFlags exampleFlags exampleMarkedState exampleSynthesized).1 =
      some (clearFlags (1 ||| 2) exampleFlags.Merge) :=
  ⟨by decide, rfl, by decide, by decide, by decide, by decide, by decide, by decide⟩

/-- What the code does for every node `S` without an overlay record, whatever flags its
original has: after `setNodeEmitFlags(S, newFlags | Merge)` the node reports `newFlags`
with the merge marker cleared; the setter merges with the flags recorded for `S` itself,
of which there are none, and stores the result without the marker. -/
theorem setNodeEmitFlags_merge_without_record {X : Type} (F : NodeEmitFlags)
    (st : TransformState X) (S : Node) (newFlags : Nat)
    (hS : (getEmitOptions st S false).1 = none) :
    (getNodeEmitFlags F (setNodeEmitFlags F st S (newFlags ||| F.Merge)).2 S).1 =
      some (clearFlags newFlags F.Merge) := by
  have hnone : recordedFlags st S = none := by
    unfold recordedFlags
    rw [hS]
    rfl
  have hrec := recordedFlags_setNodeEmitFlags F st S (newFlags ||| F.Merge)
  rw [or_mask_and_mask, hnone, clearFlags_or_mask] at hrec
  by_cases hM : F.Merge = 0
  · rw [if_neg (by simpa using hM)] at hrec
    rw [getNodeEmitFlags_of_recorded F _ S (newFlags ||| F.Merge) hrec
      (by rw [or_mask_and_mask]; exact hM)]
    rw [clearFlags_of_and_eq_zero _ _ (by rw [hM, Nat.and_zero]), hM, Nat.or_zero]
  · rw [if_pos hM] at hrec
    simp only [Option.getD_none, Nat.zero_or] at hrec
    exact getNodeEmitFlags_of_recorded F _ S _ hrec (clearFlags_and_mask _ _)

/-- The synthesized example node, whose original has the flags `1`, reports `2` after
`setNodeEmitFlags(S, 2 | Merge)`. -/
theorem setNodeEmitFlags_merge_without_record_witness :
    (getNodeEmitFlags exampleFlags
        (setNodeEmitFlags exampleFlags exampleState exampleSynthesized
          (2 ||| exampleFlags.Merge)).2 exampleSynthesized).1
      = some (clearFlags 2 exampleFlags.Merge) :=
  setNodeEmitFlags_merge_without_record exampleFlags exampleState exampleSynthesized 2
    (by decide)

/-- C9: `setNodeEmitFlags(node, flags)` returns `node`.  Without the merge marker in
`flags`, the flags recorded for the node become `flags`, whatever was recorded, and
`getNodeEmitFlags(node)` is `flags`.  With the merge marker, the flags recorded become
the flags recorded before for this very node (empty when there are none) or-ed with
`flags & ~Merge`; the original of the node plays no part. -/
theorem setNodeEmitFlags_stores {X : Type} (F : NodeEmitFlags) (st : TransformState X)
    (node : Node) (flags : Nat) :
    (setNodeEmitFlags F st node flags).1 = node ∧
    (flags &&& F.Merge = 0 →
      recordedFlags (setNodeEmitFlags F st node flags).2 node = some flags ∧
      (getNodeEmitFlags F (setNodeEmitFlags F st node flags).2 node).1 = some flags) ∧
    (flags &&& F.Merge ≠ 0 →
      recordedFlags (setNodeEmitFlags F st node flags).2 node =
        some ((recordedFlags st node).getD 0 ||| clearFlags flags F.Merge)) := by
  have hrec := recordedFlags_setNodeEmitFlags F st node flags
  refine ⟨rfl, ?_, ?_⟩
  · intro hm
    rw [if_neg (by simpa using hm)] at hrec
    exact ⟨hrec, getNodeEmitFlags_of_recorded F _ node flags hrec hm⟩
  · intro hm
    rw [if_pos hm] at hrec
    exact hrec

/-- Witness of C9: on the example state, `3` replaces the flags `1` of the original, and
`2 | Merge` adds `2` to them. -/
theorem setNodeEmitFlags_stores_witness :
    (recordedFlags (setNodeEmitFlags exampleFlags exampleState exampleOriginal 3).2
        exampleOriginal = some 3 ∧
      (getNodeEmitFlags exampleFlags
        (setNodeEmitFlags exampleFlags exampleState exampleOriginal 3).2
        exampleOriginal).1 = some 3) ∧
    recordedFlags (setNodeEmitFlags exampleFlags exampleState exampleOriginal 6).2
        exampleOriginal = some ((recordedFlags exampleState exampleOriginal).getD 0
          ||| clearFlags 6 exampleFlags.Merge) :=
  ⟨(setNodeEmitFlags_stores exampleFlags exampleState exampleOriginal 3).2.1 (by decide),
    (setNodeEmitFlags_stores exampleFlags exampleState exampleOriginal 6).2.2 (by decide)⟩

/-! ## Token ranges -/

section TokenRangeLemmas
variable {X : Type}

theorem getEmitOptions_fst (st : TransformState X) (node : Node) :
    (getEmitOptions st node false).1 = recordAt st (location node) := by
  rw [getEmitOptions_false]
  simp only [recordAt, location, getNodeId]

theorem getEmitOptions_create_fst (st : TransformState X) (node : Node) :
    (getEmitOptions st node true).1 =
      some ((recordAt st (location node)).getD NodeEmitOptions.empty) := by
  simp only [getEmitOptions, recordAt, location, getNodeId, Bool.and_true]
  cases hs : isSourceTreeNode node
  · cases hrec : st.emitOptions node.id <;> simp
  · cases hrec : st.nodeEmitOptions node.id <;> simp

theorem recordAt_getEmitOptions_create (st : TransformState X) (node : Node)
    (place : Bool × Nat) :
    recordAt (getEmitOptions st node true).2 place =
      if place = location node
      then some ((recordAt st place).getD NodeEmitOptions.empty)
      else recordAt st place := by
  obtain ⟨tree, id⟩ := place
  simp only [getEmitOptions, recordAt, location, getNodeId, Prod.mk.injEq, Bool.and_true]
  cases hs : isSourceTreeNode node
  · cases hrec : st.emitOptions node.id <;> cases tree <;> by_cases hid : id = node.id <;>
      simp [hid, hrec, Function.update_apply]
  · cases hrec : st.nodeEmitOptions node.id <;> cases tree <;> by_cases hid : id = node.id <;>
      simp [hid, hrec, Function.update_apply]

theorem heap_getEmitOptions_create (st : TransformState X) (node : Node) :
    (getEmitOptions st node true).2.tokenSourceMapRanges = st.tokenSourceMapRanges ∧
    (getEmitOptions st node true).2.nextAddress = st.nextAddress := by
  simp only [getEmitOptions, getNodeId, Bool.and_true]
  cases hs : isSourceTreeNode node
  · cases hrec : st.emitOptions node.id <;> simp
  · cases hrec : st.nodeEmitOptions node.id <;> simp

theorem recordAt_assignEmitOptions (st : TransformState X) (node : Node)
    (update : NodeEmitOptions → NodeEmitOptions) (place : Bool × Nat) :
    recordAt (assignEmitOptions st node update) place =
      if place = location node then (recordAt st place).map update else recordAt st place := by
  obtain ⟨tree, id⟩ := place
  simp only [assignEmitOptions, recordAt, location, getNodeId, Prod.mk.injEq]
  cases hs : isSourceTreeNode node <;> cases tree <;> by_cases hid : id = node.id <;>
    simp [hid, Function.update_apply]

theorem heap_assignEmitOptions (st : TransformState X) (node : Node)
    (update : NodeEmitOptions → NodeEmitOptions) :
    (assignEmitOptions st node update).tokenSourceMapRanges = st.tokenSourceMapRanges ∧
    (assignEmitOptions st node update).nextAddress = st.nextAddress := by
  simp only [assignEmitOptions]
  cases hs : isSourceTreeNode node <;> simp

theorem ownTokenRanges_eq (st : TransformState X) (node : Node) :
    ownTokenRanges st node =
      (recordAt st (location node)).bind (fun options => options.tokenSourceMapRange) := by
  unfold ownTokenRanges
  rw [getEmitOptions_fst]

theorem ownTokenRanges_getEmitOptions_create (st : TransformState X) (node : Node) :
    ((getEmitOptions st node true).1).bind (fun o => o.tokenSourceMapRange) =
      ownTokenRanges st node := by
  rw [getEmitOptions_create_fst, ownTokenRanges_eq]
  cases recordAt st (location node) <;> rfl

theorem ownTokenRanges_after_create (st : TransformState X) (node other : Node) :
    ownTokenRanges (getEmitOptions st node true).2 other = ownTokenRanges st other := by
  rw [ownTokenRanges_eq, ownTokenRanges_eq, recordAt_getEmitOptions_create]
  split_ifs with hp
  · cases recordAt st (location other) <;> rfl
  · rfl

theorem getTokenSourceMapRanges_congr (st st' : TransformState X)
    (h : ∀ node, ownTokenRanges st' node = ownTokenRanges st node) :
    ∀ node : Node, getTokenSourceMapRanges st' node = getTokenSourceMapRanges st node
  | .mk id kind sourceTree declarationFile none => by
    have h0 := h (.mk id kind sourceTree declarationFile none)
    unfold ownTokenRanges at h0
    simp only [getTokenSourceMapRanges, h0]
  | .mk id kind sourceTree declarationFile (some next) => by
    have h0 := h (.mk id kind sourceTree declarationFile (some next))
    unfold ownTokenRanges at h0
    simp only [getTokenSourceMapRanges, h0, getTokenSourceMapRanges_congr st st' h next]

theorem getTokenSourceMapRanges_of_own (st : TransformState X) (node : Node) (ranges : Nat)
    (hown : ownTokenRanges st node = some ranges) :
    getTokenSourceMapRanges st node = some ranges := by
  unfold ownTokenRanges at hown
  cases node with
  | mk id kind sourceTree declarationFile original =>
    cases original <;> simp only [getTokenSourceMapRanges, hown]

theorem recordAt_allocateRanges (st : TransformState X) (entries : Nat → Option TextRange)
    (place : Bool × Nat) : recordAt (allocateRanges st entries).2 place = recordAt st place :=
  rfl

theorem heap_allocateRanges (st : TransformState X) (entries : Nat → Option TextRange) :
    (allocateRanges st entries).1 = st.nextAddress ∧
    (allocateRanges st entries).2.tokenSourceMapRanges =
      Function.update st.tokenSourceMapRanges st.nextAddress entries ∧
    (allocateRanges st entries).2.nextAddress = st.nextAddress + 1 :=
  ⟨rfl, rfl, rfl⟩

theorem recordAt_assignTokenRange (st : TransformState X) (ranges token : Nat)
    (range : TextRange) (place : Bool × Nat) :
    recordAt (assignTokenRange st ranges token range) place = recordAt st place :=
  rfl

theorem heap_assignTokenRange (st : TransformState X) (ranges token : Nat)
    (range : TextRange) :
    (assignTokenRange st ranges token range).tokenSourceMapRanges =
      Function.update st.tokenSourceMapRanges ranges
        (Function.update (st.tokenSourceMapRanges ranges) token (some range)) ∧
    (assignTokenRange st ranges token range).nextAddress = st.nextAddress :=
  ⟨rfl, rfl⟩

/-- The effect of `setTokenSourceMapRange` on a node that has a map of its own: the map
is updated in place. -/
theorem setTokenSourceMapRange_own (st : TransformState X) (node : Node) (token : Nat)
    (range : TextRange) (ranges : Nat) (hown : ownTokenRanges st node = some ranges) :
    (∀ place, recordAt (setTokenSourceMapRange st node token range).2 place =
      recordAt st place) ∧
    (setTokenSourceMapRange st node token range).2.tokenSourceMapRanges =
      Function.update st.tokenSourceMapRanges ranges
        (Function.update (st.tokenSourceMapRanges ranges) token (some range)) ∧
    (setTokenSourceMapRange st node token range).2.nextAddress = st.nextAddress := by
  have hrec : ∀ place, recordAt (getEmitOptions st node true).2 place = recordAt st place := by
    intro place
    rw [recordAt_getEmitOptions_create]
    split_ifs with hp
    · subst hp
      rw [ownTokenRanges_eq] at hown
      cases hr : recordAt st (location node) with
      | none => rw [hr] at hown; cases hown
      | some o => rfl
    · rfl
  have hown' : ((getEmitOptions (getEmitOptions st node true).2 node false).1).bind
      (fun o => o.tokenSourceMapRange) = some ranges := by
    rw [getEmitOptions_fst, hrec, ← ownTokenRanges_eq, hown]
  obtain ⟨hheap, hnext⟩ := heap_getEmitOptions_create st node
  unfold setTokenSourceMapRange
  simp only [ownTokenRanges_getEmitOptions_create, hown, hown']
  refine ⟨fun place => ?_, ?_, ?_⟩
  · rw [recordAt_assignTokenRange, hrec]
  · rw [(heap_assignTokenRange _ _ _ _).1, hheap]
  · rw [(heap_assignTokenRange _ _ _ _).2, hnext]

/-- The effect of `setTokenSourceMapRange` on a node that has no map of its own: a new
map is allocated at the first free address, filled with the entries of the map the node
inherits (none if it inherits no map) and the new entry, and referenced from the record
of the node. -/
theorem setTokenSourceMapRange_fresh (st : TransformState X) (node : Node) (token : Nat)
    (range : TextRange) (hown : ownTokenRanges st node = none) :
    (∀ place, recordAt (setTokenSourceMapRange st node token range).2 place =
      if place = location node
      then some { (recordAt st place).getD NodeEmitOptions.empty with
        tokenSourceMapRange := some st.nextAddress }
      else recordAt st place) ∧
    (setTokenSourceMapRange st node token range).2.tokenSourceMapRanges =
      Function.update st.tokenSourceMapRanges st.nextAddress
        (Function.update
          (match getTokenSourceMapRanges st node with
            | some existing => st.tokenSourceMapRanges existing
            | none => fun _ => none) token (some range)) ∧
    (setTokenSourceMapRange st node token range).2.nextAddress = st.nextAddress + 1 := by
  have hwalk : getTokenSourceMapRanges (getEmitOptions st node true).2 node =
      getTokenSourceMapRanges st node :=
    getTokenSourceMapRanges_congr st _ (ownTokenRanges_after_create st node) node
  obtain ⟨hheap, hnext⟩ := heap_getEmitOptions_create st node
  -- the state after the allocation and the assignment of the reference
  generalize hentries : (match getTokenSourceMapRanges st node with
    | some existing => st.tokenSourceMapRanges existing
    | none => fun _ => none) = entries
  have hstep : (match getTokenSourceMapRanges (getEmitOptions st node true).2 node with
      | some existing => allocateRanges (getEmitOptions st node true).2
          ((getEmitOptions st node true).2.tokenSourceMapRanges existing)
      | none => allocateRanges (getEmitOptions st node true).2 (fun _ => none))
      = allocateRanges (getEmitOptions st node true).2 entries := by
    rw [hwalk, hheap, ← hentries]
    cases getTokenSourceMapRanges st node <;> rfl
  have hrec2 : ∀ place, recordAt (assignEmitOptions
        (allocateRanges (getEmitOptions st node true).2 entries).2 node
        (fun o => { o with tokenSourceMapRange := some st.nextAddress })) place =
      if place = location node
      then some { (recordAt st place).getD NodeEmitOptions.empty with
        tokenSourceMapRange := some st.nextAddress }
      else recordAt st place := by
    intro place
    rw [recordAt_assignEmitOptions, recordAt_allocateRanges, recordAt_getEmitOptions_create]
    split_ifs with hp
    · rfl
    · rfl
  have hown2 : ((getEmitOptions (assignEmitOptions
        (allocateRanges (getEmitOptions st node true).2 entries).2 node
        (fun o => { o with tokenSourceMapRange := some st.nextAddress })) node false).1).bind
      (fun o => o.tokenSourceMapRange) = some st.nextAddress := by
    rw [getEmitOptions_fst, hrec2, if_pos rfl]
    rfl
  unfold setTokenSourceMapRange
  simp only [ownTokenRanges_getEmitOptions_create, hown, hstep,
    (heap_allocateRanges _ _).1, hnext, hown2]
  refine ⟨fun place => ?_, ?_, ?_⟩
  · rw [recordAt_assignTokenRange, hrec2]
  · rw [(heap_assignTokenRange _ _ _ _).1, (heap_assignEmitOptions _ _ _).1,
      (heap_allocateRanges _ _).2.1, hheap, hnext, Function.update_same, Function.update_idem]
  · rw [(heap_assignTokenRange _ _ _ _).2, (heap_assignEmitOptions _ _ _).2,
      (heap_allocateRanges _ _).2.2, hnext]

theorem location_ne_of_id_ne (node other : Node) (h : getNodeId other ≠ getNodeId node) :
    location other ≠ location node := by
  intro heq
  exact h (congrArg Prod.snd heq)

theorem ownTokenRanges_record (st : TransformState X) (node : Node) (ranges : Nat)
    (hown : ownTokenRanges st node = some ranges) :
    ∃ options, recordAt st (location node) = some options ∧
      options.tokenSourceMapRange = some ranges := by
  rw [ownTokenRanges_eq] at hown
  cases hr : recordAt st (location node) with
  | none => rw [hr] at hown; cases hown
  | some options => rw [hr] at hown; exact ⟨options, rfl, hown⟩

theorem tokenRangesOwned_emptyStateWith (ext : X) : TokenRangesOwned (emptyStateWith ext) := by
  refine ⟨?_, ?_⟩
  · intro place options ranges h
    obtain ⟨tree, id⟩ := place
    cases tree <;> cases h
  · intro place place' options options' ranges h
    obtain ⟨tree, id⟩ := place
    cases tree <;> cases h

theorem tokenRangesOwned_emptyState : TokenRangesOwned emptyState :=
  tokenRangesOwned_emptyStateWith ()

/-- Well-formedness of the heap of token-range maps depends only on the references the
records hold and on the first free address. -/
theorem tokenRangesOwned_congr (st st' : TransformState X)
    (hrec : ∀ place, (recordAt st' place).bind (fun o => o.tokenSourceMapRange) =
      (recordAt st place).bind (fun o => o.tokenSourceMapRange))
    (hnext : st'.nextAddress = st.nextAddress) (hwf : TokenRangesOwned st) :
    TokenRangesOwned st' := by
  have hold : ∀ place options ranges, recordAt st' place = some options →
      options.tokenSourceMapRange = some ranges →
      ∃ old, recordAt st place = some old ∧ old.tokenSourceMapRange = some ranges := by
    intro place options ranges h hr
    have hb := hrec place
    rw [h] at hb
    cases hold : recordAt st place with
    | none =>
      rw [hold] at hb
      simp only [Option.bind, hr] at hb
      cases hb
    | some old =>
      rw [hold] at hb
      simp only [Option.bind, hr] at hb
      exact ⟨old, rfl, hb.symm⟩
  refine ⟨?_, ?_⟩
  · intro place options ranges h hr
    obtain ⟨old, hold1, hold2⟩ := hold place options ranges h hr
    rw [hnext]
    exact hwf.allocated place old ranges hold1 hold2
  · intro place place' options options' ranges h h' hr hr'
    obtain ⟨old, hold1, hold2⟩ := hold place options ranges h hr
    obtain ⟨old', hold1', hold2'⟩ := hold place' options' ranges h' hr'
    exact hwf.unshared place place' old old' ranges hold1 hold1' hold2 hold2'

theorem tokenRangesOwned_getEmitOptions (st : TransformState X) (node : Node)
    (create : Bool) (hwf : TokenRangesOwned st) :
    TokenRangesOwned (getEmitOptions st node create).2 := by
  cases create with
  | false => rw [getEmitOptions_false]; exact hwf
  | true =>
    refine tokenRangesOwned_congr st _ (fun place => ?_) (heap_getEmitOptions_create st node).2
      hwf
    rw [recordAt_getEmitOptions_create]
    split_ifs
    · cases recordAt st place <;> rfl
    · rfl

theorem tokenRangesOwned_assignEmitOptions (st : TransformState X) (node : Node)
    (update : NodeEmitOptions → NodeEmitOptions)
    (hupdate : ∀ o, (update o).tokenSourceMapRange = o.tokenSourceMapRange)
    (hwf : TokenRangesOwned st) : TokenRangesOwned (assignEmitOptions st node update) := by
  refine tokenRangesOwned_congr st _ (fun place => ?_) (heap_assignEmitOptions st node _).2 hwf
  rw [recordAt_assignEmitOptions]
  split_ifs
  · cases recordAt st place with
    | none => rfl
    | some o => exact hupdate o
  · rfl

/-- The heap of token-range maps stays well formed under `setNodeEmitFlags`. -/
theorem tokenRangesOwned_setNodeEmitFlags (F : NodeEmitFlags) (st : TransformState X)
    (node : Node) (flags : Nat) (hwf : TokenRangesOwned st) :
    TokenRangesOwned (setNodeEmitFlags F st node flags).2 :=
  tokenRangesOwned_assignEmitOptions _ node _ (fun _ => rfl)
    (tokenRangesOwned_getEmitOptions st node true hwf)

/-- The heap of token-range maps stays well formed under `setSourceMapRange`. -/
theorem tokenRangesOwned_setSourceMapRange (st : TransformState X) (node : Node)
    (range : TextRange) (hwf : TokenRangesOwned st) :
    TokenRangesOwned (setSourceMapRange st node range).2 :=
  tokenRangesOwned_assignEmitOptions _ node _ (fun _ => rfl)
    (tokenRangesOwned_getEmitOptions st node true hwf)

/-- The heap of token-range maps stays well formed under `setCommentRange`. -/
theorem tokenRangesOwned_setCommentRange (st : TransformState X) (node : Node)
    (range : TextRange) (hwf : TokenRangesOwned st) :
    TokenRangesOwned (setCommentRange st node range).2 :=
  tokenRangesOwned_assignEmitOptions _ node _ (fun _ => rfl)
    (tokenRangesOwned_getEmitOptions st node true hwf)

/-- The heap of token-range maps stays well formed under `getNodeEmitFlags`, which may
write resolved flags back. -/
theorem tokenRangesOwned_getNodeEmitFlags (F : NodeEmitFlags) (st : TransformState X)
    (hwf : TokenRangesOwned st) :
    ∀ node : Node, TokenRangesOwned (getNodeEmitFlags F st node).2
  | .mk id kind sourceTree declarationFile none => by
    simp only [getNodeEmitFlags]
    cases ((getEmitOptions st (Node.mk id kind sourceTree declarationFile none) false).1).bind
        (fun options => options.flags) with
    | none => exact hwf
    | some flags =>
      simp only
      split_ifs
      · exact tokenRangesOwned_assignEmitOptions _ _ _ (fun _ => rfl) hwf
      · exact hwf
  | .mk id kind sourceTree declarationFile (some next) => by
    have ih := tokenRangesOwned_getNodeEmitFlags F st hwf next
    simp only [getNodeEmitFlags]
    cases ((getEmitOptions st (Node.mk id kind sourceTree declarationFile (some next))
        false).1).bind (fun options => options.flags) with
    | none => exact ih
    | some flags =>
      simp only
      split_ifs
      · exact tokenRangesOwned_assignEmitOptions _ _ _ (fun _ => rfl) ih
      · exact hwf

/-- The heap of token-range maps stays well formed under `setTokenSourceMapRange`. -/
theorem tokenRangesOwned_setTokenSourceMapRange (st : TransformState X) (node : Node)
    (token : Nat) (range : TextRange) (hwf : TokenRangesOwned st) :
    TokenRangesOwned (setTokenSourceMapRange st node token range).2 := by
  cases hown : ownTokenRanges st node with
  | some ranges =>
    obtain ⟨hrec, _, hnext⟩ := setTokenSourceMapRange_own st node token range ranges hown
    refine ⟨?_, ?_⟩
    · intro place options r h hr
      rw [hrec] at h
      rw [hnext]
      exact hwf.allocated place options r h hr
    · intro place place' options options' r h h' hr hr'
      rw [hrec] at h h'
      exact hwf.unshared place place' options options' r h h' hr hr'
  | none =>
    obtain ⟨hrec, _, hnext⟩ := setTokenSourceMapRange_fresh st node token range hown
    have hnew : ∀ place options r,
        recordAt (setTokenSourceMapRange st node token range).2 place = some options →
        options.tokenSourceMapRange = some r →
        (place = location node ∧ r = st.nextAddress) ∨
        (place ≠ location node ∧ recordAt st place = some options) := by
      intro place options r h hr
      rw [hrec] at h
      split_ifs at h with hp
      · left
        refine ⟨hp, ?_⟩
        have h' := Option.some.inj h
        rw [← h'] at hr
        exact (Option.some.inj hr).symm
      · exact Or.inr ⟨hp, h⟩
    refine ⟨?_, ?_⟩
    · intro place options r h hr
      rw [hnext]
      rcases hnew place options r h hr with ⟨_, hr'⟩ | ⟨_, hold⟩
      · omega
      · have := hwf.allocated place options r hold hr
        omega
    · intro place place' options options' r h h' hr hr'
      rcases hnew place options r h hr with ⟨hp, hr1⟩ | ⟨_, hold⟩
      · rcases hnew place' options' r h' hr' with ⟨hp', _⟩ | ⟨_, hold'⟩
        · rw [hp, hp']
        · have := hwf.allocated place' options' r hold' hr'
          omega
      · rcases hnew place' options' r h' hr' with ⟨_, hr1'⟩ | ⟨_, hold'⟩
        · have := hwf.allocated place options r hold hr
          omega
        · exact hwf.unshared place place' options options' r hold hold' hr hr'

theorem tokenRangesOwned_exampleTokenState : TokenRangesOwned exampleTokenState :=
  tokenRangesOwned_setTokenSourceMapRange emptyState exampleOriginal 5 ⟨10, 20⟩
    tokenRangesOwned_emptyState

end TokenRangeLemmas

/-- C10: on a well-formed heap, `setTokenSourceMapRange(N, T, r)` on a node `N` without
a token-range map of its own leaves what `getTokenSourceMapRange(A, T')` returns
unchanged, for every token `T'` and every node `A` that has a map of its own (the node
whose map `N` inherits is one of them); and, whether or not `N` has a map of its own,
for every node `M` other than `N` the record of `M` and the entries of the map it
references are unchanged. -/
theorem setTokenSourceMapRange_leaves_other_nodes {X : Type} (st : TransformState X)
    (N : Node) (T : Nat) (r : TextRange) (hwf : TokenRangesOwned st) :
    (ownTokenRanges st N = none →
      ∀ (A : Node) (ranges : Nat), ownTokenRanges st A = some ranges →
        ∀ T' : Nat,
          getTokenSourceMapRange (setTokenSourceMapRange st N T r).2 A T' =
            getTokenSourceMapRange st A T') ∧
    (∀ M : Node, getNodeId M ≠ getNodeId N →
      (getEmitOptions (setTokenSourceMapRange st N T r).2 M false).1 =
          (getEmitOptions st M false).1 ∧
      ∀ ranges : Nat, ownTokenRanges st M = some ranges →
        (setTokenSourceMapRange st N T r).2.tokenSourceMapRanges ranges =
          st.tokenSourceMapRanges ranges) := by
  constructor
  · intro hN A ranges hA T'
    obtain ⟨hrec, hheap, _⟩ := setTokenSourceMapRange_fresh st N T r hN
    obtain ⟨options, hrecA, hranges⟩ := ownTokenRanges_record st A ranges hA
    have hloc : location A ≠ location N := by
      intro heq
      rw [ownTokenRanges_eq, heq, ← ownTokenRanges_eq, hN] at hA
      cases hA
    have hA' : ownTokenRanges (setTokenSourceMapRange st N T r).2 A = some ranges := by
      rw [ownTokenRanges_eq, hrec, if_neg hloc, ← ownTokenRanges_eq, hA]
    have hlt := hwf.allocated (location A) options ranges hrecA hranges
    unfold getTokenSourceMapRange
    rw [getTokenSourceMapRanges_of_own _ A ranges hA',
      getTokenSourceMapRanges_of_own _ A ranges hA]
    simp only [hheap]
    rw [Function.update_noteq (by omega)]
  · intro M hM
    have hloc := location_ne_of_id_ne N M hM
    cases hN : ownTokenRanges st N with
    | some own =>
      obtain ⟨hrec, hheap, _⟩ := setTokenSourceMapRange_own st N T r own hN
      refine ⟨by rw [getEmitOptions_fst, getEmitOptions_fst, hrec], ?_⟩
      intro ranges hMown
      obtain ⟨options, hrecM, hranges⟩ := ownTokenRanges_record st M ranges hMown
      obtain ⟨options', hrecN, hranges'⟩ := ownTokenRanges_record st N own hN
      have hne : ranges ≠ own := by
        intro heq
        subst heq
        exact hloc (hwf.unshared _ _ options options' ranges hrecM hrecN hranges hranges')
      rw [hheap, Function.update_noteq hne]
    | none =>
      obtain ⟨hrec, hheap, _⟩ := setTokenSourceMapRange_fresh st N T r hN
      refine ⟨by rw [getEmitOptions_fst, getEmitOptions_fst, hrec, if_neg hloc], ?_⟩
      intro ranges hMown
      obtain ⟨options, hrecM, hranges⟩ := ownTokenRanges_record st M ranges hMown
      have hlt := hwf.allocated (location M) options ranges hrecM hranges
      rw [hheap, Function.update_noteq (by omega)]

/-- Witness of C10: the original has the range `[10, 20)` for token 5 in a map of its own,
the synthesized node inherits it; setting another range for token 5 on the synthesized
node leaves the answer for the original, and the map of the original, as they were. -/
theorem setTokenSourceMapRange_leaves_other_nodes_witness :
    getTokenSourceMapRange exampleTokenState exampleOriginal 5 = some ⟨10, 20⟩ ∧
    getTokenSourceMapRange exampleTokenState exampleSynthesized 5 = some ⟨10, 20⟩ ∧
    getTokenSourceMapRange
        (setTokenSourceMapRange exampleTokenState exampleSynthesized 5 ⟨1, 2⟩).2
        exampleSynthesized 5 = some ⟨1, 2⟩ ∧
    getTokenSourceMapRange
        (setTokenSourceMapRange exampleTokenState exampleSynthesized 5 ⟨1, 2⟩).2
        exampleOriginal 5 = getTokenSourceMapRange exampleTokenState exampleOriginal 5 ∧
    (setTokenSourceMapRange exampleTokenState exampleSynthesized 5 ⟨1, 2⟩).2.tokenSourceMapRanges
        0 = exampleTokenState.tokenSourceMapRanges 0 :=
  ⟨by decide, by decide, by decide,
    (setTokenSourceMapRange_leaves_other_nodes exampleTokenState exampleSynthesized 5 ⟨1, 2⟩
      tokenRangesOwned_exampleTokenState).1 (by decide) exampleOriginal 0 (by decide) 5,
    ((setTokenSourceMapRange_leaves_other_nodes exampleTokenState exampleSynthesized 5 ⟨1, 2⟩
      tokenRangesOwned_exampleTokenState).2 exampleOriginal (by decide)).2 0 (by decide)⟩



/-! ## Orchestration -/

theorem eff_bind {σ ε α β : Type} (x : StateT σ (Except ε) α)
    (k : α → StateT σ (Except ε) β) (s : σ) :
    (x >>= k) s = match x s with
      | .ok (a, s') => k a s'
      | .error e => .error e := by
  show (do let p ← x s; k p.1 p.2 : Except ε (β × σ)) = _
  cases x s with
  | error e => rfl
  | ok p => rfl

theorem eff_pure {σ ε α : Type} (a : α) (s : σ) :
    (pure a : StateT σ (Except ε) α) s = .ok (a, s) := rfl

theorem mapM_eff_cons {σ ε α β : Type} (f : α → StateT σ (Except ε) β) (a : α)
    (l : List α) (s : σ) :
    List.mapM f (a :: l) s = match f a s with
      | .ok (b, s') =>
        (match List.mapM f l s' with
          | .ok (bs, s'') => .ok (b :: bs, s'')
          | .error e => .error e)
      | .error e => .error e := by
  rw [List.mapM_cons, eff_bind]
  cases f a s with
  | error e => rfl
  | ok p =>
    obtain ⟨b, s'⟩ := p
    simp only [eff_bind]
    cases List.mapM f l s' with
    | error e => rfl
    | ok q => rfl

section OrchestrationLemmas
variable {X : Type}

theorem transformSourceFile_run (transformation : NodeTransformer X) (sourceFile : Node)
    (st : TransformState X) :
    transformSourceFile transformation sourceFile st =
      if isDeclarationFile sourceFile then .ok (sourceFile, st)
      else transformation sourceFile { st with currentSourceFile := some sourceFile } := by
  unfold transformSourceFile
  split_ifs with h
  · rfl
  · rfl

/-- The two phases of `transformFiles`: every factory is run once on the context, in
list order; then the composition of the functions they returned is applied to the
files, in list order. -/
theorem transformFiles_eq (F : NodeEmitFlags) (resolver : EmitResolver) (host : EmitHost)
    (sourceFiles : List Node) (transformers : List (Transformer X)) :
    transformFiles F resolver host sourceFiles transformers =
      (do
        Eff.writing declareVariables
        let passes ← List.mapM (fun factory => factory (context F resolver host)) transformers
        List.mapM (transformSourceFile (compose passes)) sourceFiles) := by
  unfold transformFiles
  simp only [chain_eq_mapM, map_eq_mapM, bind_assoc, pure_bind]

theorem transformFiles_run (F : NodeEmitFlags) (resolver : EmitResolver) (host : EmitHost)
    (sourceFiles : List Node) (transformers : List (Transformer X)) (st : TransformState X) :
    transformFiles F resolver host sourceFiles transformers st =
      match List.mapM (fun factory => factory (context F resolver host)) transformers
          (declareVariables st) with
      | .ok (passes, st1) => List.mapM (transformSourceFile (compose passes)) sourceFiles st1
      | .error e => .error e := by
  rw [transformFiles_eq, eff_bind]
  simp only [Eff.writing]
  rw [eff_bind]
  cases List.mapM (fun factory => factory (context F resolver host)) transformers
      (declareVariables st) with
  | error e => rfl
  | ok p => rfl

/-- A property of the state that holds when the files are started on, that the
transformation keeps and that does not depend on the current source file, holds after
any number of files. -/
theorem mapM_transformSourceFile_invariant (P : TransformState X → Prop)
    (transformation : NodeTransformer X)
    (hcurrent : ∀ st file, P st → P { st with currentSourceFile := some file })
    (hkeep : ∀ file st file' st', P st → transformation file st = .ok (file', st') → P st') :
    ∀ (files : List Node) (st : TransformState X) (out : List Node) (st' : TransformState X),
      P st → List.mapM (transformSourceFile transformation) files st = .ok (out, st') → P st'
  | [], st, out, st', hP, h => by
    rw [List.mapM_nil, eff_pure] at h
    cases h
    exact hP
  | file :: rest, st, out, st', hP, h => by
    rw [mapM_eff_cons, transformSourceFile_run] at h
    have hnext : ∀ file' st1, (if isDeclarationFile file = true then Except.ok (file, st)
        else transformation file { st with currentSourceFile := some file }) =
          Except.ok (file', st1) → P st1 := by
      intro file' st1 h1
      split_ifs at h1 with hd
      · cases h1
        exact hP
      · exact hkeep _ _ _ _ (hcurrent st file hP) h1
    cases h1 : (if isDeclarationFile file = true then Except.ok (file, st)
        else transformation file { st with currentSourceFile := some file }) with
    | error e => rw [h1] at h; cases h
    | ok p =>
      obtain ⟨file', st1⟩ := p
      rw [h1] at h
      simp only at h
      cases h2 : List.mapM (transformSourceFile transformation) rest st1 with
      | error e => rw [h2] at h; cases h
      | ok q =>
        obtain ⟨out', st2⟩ := q
        rw [h2] at h
        cases h
        exact mapM_transformSourceFile_invariant P transformation hcurrent hkeep rest st1
          out' st' (hnext file' st1 h1) h2

theorem mapM_tracingTransformer (c : TransformationContext (List (Nat × Option Nat))) :
    ∀ (tags : List Nat) (st : TransformState (List (Nat × Option Nat))),
      List.mapM (fun factory => factory c) (tags.map tracingTransformer) st =
        .ok (tags.map tracingNodeTransformer,
          { st with ext := st.ext ++ tags.map (fun tag => (tag, none)) })
  | [], st => by
    simp only [List.map_nil, List.mapM_nil, List.append_nil]
    rfl
  | tag :: rest, st => by
    rw [List.map_cons, mapM_eff_cons]
    have hhead : tracingTransformer tag c st =
        .ok (tracingNodeTransformer tag, { st with ext := st.ext ++ [(tag, none)] }) := rfl
    rw [hhead]
    simp only [mapM_tracingTransformer c rest, List.map_cons, List.append_assoc,
      List.singleton_append]

theorem foldlM_tracingNodeTransformer (file : Node) :
    ∀ (tags : List Nat) (st : TransformState (List (Nat × Option Nat))),
      List.foldlM (fun u f => f u) file (tags.map tracingNodeTransformer) st =
        .ok (file,
          { st with ext := st.ext ++ tags.map (fun tag => (tag, some (getNodeId file))) })
  | [], st => by
    simp only [List.map_nil, List.foldlM_nil, List.append_nil]
    rfl
  | tag :: rest, st => by
    rw [List.map_cons, List.foldlM_cons, eff_bind]
    have hhead : tracingNodeTransformer tag file st =
        .ok (file, { st with ext := st.ext ++ [(tag, some (getNodeId file))] }) := rfl
    rw [hhead]
    simp only [foldlM_tracingNodeTransformer file rest, List.map_cons, List.append_assoc,
      List.singleton_append]

theorem mapM_transformSourceFile_tracing (tags : List Nat) :
    ∀ (files : List Node) (st : TransformState (List (Nat × Option Nat))),
      ∃ st', List.mapM (transformSourceFile (compose (tags.map tracingNodeTransformer)))
          files st = .ok (files, st') ∧
        st'.ext = st.ext ++ files.flatMap (fun file =>
          if isDeclarationFile file then []
          else tags.map (fun tag => (tag, some (getNodeId file))))
  | [], st => ⟨st, by simp only [List.mapM_nil]; rfl, by simp⟩
  | file :: rest, st => by
    rw [mapM_eff_cons, transformSourceFile_run]
    by_cases hd : isDeclarationFile file = true
    · obtain ⟨st', hrun, hext⟩ := mapM_transformSourceFile_tracing tags rest st
      refine ⟨st', ?_, ?_⟩
      · simp only [hd, if_true, hrun]
      · simp only [hext, List.flatMap_cons, hd, if_true, List.nil_append]
    · obtain ⟨st', hrun, hext⟩ := mapM_transformSourceFile_tracing tags rest
        { st with
          currentSourceFile := some file
          ext := st.ext ++ tags.map (fun tag => (tag, some (getNodeId file))) }
      refine ⟨st', ?_, ?_⟩
      · simp only [hd, if_false, compose_eq_foldlM, foldlM_tracingNodeTransformer,
          Bool.false_eq_true, hrun]
      · simp [hext, List.flatMap_cons, hd]

theorem mapM_purePass (c : TransformationContext X) :
    ∀ (fs : List (Node → Node)) (st : TransformState X),
      List.mapM (fun factory => factory c) (fs.map purePass) st =
        .ok (fs.map (fun f => fun node => pure (f node)), st)
  | [], st => by
    simp only [List.map_nil, List.mapM_nil]
    rfl
  | f :: rest, st => by
    rw [List.map_cons, mapM_eff_cons]
    have hhead : purePass f c st = .ok ((fun node => pure (f node)), st) := rfl
    rw [hhead]
    simp only [mapM_purePass c rest, List.map_cons]

theorem foldlM_pure_functions :
    ∀ (fs : List (Node → Node)) (file : Node) (st : TransformState X),
      List.foldlM (fun u g => g u) file
          (fs.map (fun f => fun node => (pure (f node) : Eff X Node))) st =
        .ok (fs.foldl (fun u f => f u) file, st)
  | [], file, st => by
    simp only [List.map_nil, List.foldlM_nil, List.foldl_nil]
    rfl
  | f :: rest, file, st => by
    rw [List.map_cons, List.foldlM_cons, eff_bind]
    exact foldlM_pure_functions rest (f file) st

theorem mapM_transformSourceFile_pure (fs : List (Node → Node)) :
    ∀ (files : List Node) (st : TransformState X),
      ∃ st', List.mapM
          (transformSourceFile (compose (fs.map (fun f => fun node =>
            (pure (f node) : Eff X Node))))) files st =
        .ok (files.map (fun file =>
          if isDeclarationFile file then file else fs.foldl (fun u f => f u) file), st')
  | [], st => ⟨st, by simp only [List.mapM_nil, List.map_nil]; rfl⟩
  | file :: rest, st => by
    rw [mapM_eff_cons, transformSourceFile_run]
    by_cases hd : isDeclarationFile file = true
    · obtain ⟨st', hrun⟩ := mapM_transformSourceFile_pure fs rest st
      exact ⟨st', by simp only [hd, if_true, hrun, List.map_cons]⟩
    · obtain ⟨st', hrun⟩ := mapM_transformSourceFile_pure fs rest
        { st with currentSourceFile := some file }
      exact ⟨st', by
        simp only [hd, if_false, compose_eq_foldlM, foldlM_pure_functions,
          Bool.false_eq_true, hrun, List.map_cons]⟩

/-- The shape of the result of the file phase: one result per file, in order; a
declaration file is its own result; the result of another file is what the
transformation returns for it in the state left by the files before it, with the file
recorded as current. -/
theorem mapM_transformSourceFile_shape (transformation : NodeTransformer X) :
    ∀ (files : List Node) (st : TransformState X) (out : List Node)
      (st' : TransformState X),
      List.mapM (transformSourceFile transformation) files st = .ok (out, st') →
      out.length = files.length ∧
      ∀ (i : Nat) (file : Node), files[i]? = some file →
        ∃ done si, List.mapM (transformSourceFile transformation) (files.take i) st =
            .ok (done, si) ∧
          (isDeclarationFile file = true → out[i]? = some file) ∧
          (isDeclarationFile file = false →
            ∃ result si',
              transformation file { si with currentSourceFile := some file } =
                .ok (result, si') ∧
              out[i]? = some result)
  | [], st, out, st', h => by
    rw [List.mapM_nil, eff_pure] at h
    cases h
    exact ⟨rfl, fun i file hi => by simp at hi⟩
  | first :: rest, st, out, st', h => by
    rw [mapM_eff_cons] at h
    cases h1 : transformSourceFile transformation first st with
    | error e => rw [h1] at h; cases h
    | ok p =>
      obtain ⟨first', st1⟩ := p
      rw [h1] at h
      simp only at h
      cases h2 : List.mapM (transformSourceFile transformation) rest st1 with
      | error e => rw [h2] at h; cases h
      | ok q =>
        obtain ⟨out', st2⟩ := q
        rw [h2] at h
        cases h
        obtain ⟨hlen, hrest⟩ :=
          mapM_transformSourceFile_shape transformation rest st1 out' st' h2
        refine ⟨by simp [hlen], ?_⟩
        intro i file hi
        cases i with
        | zero =>
          simp only [List.getElem?_cons_zero, Option.some.injEq] at hi
          subst hi
          refine ⟨[], st, by simp only [List.take_zero, List.mapM_nil]; rfl, ?_, ?_⟩
          · intro hd
            rw [transformSourceFile_run, if_pos hd] at h1
            cases h1
            exact List.getElem?_cons_zero
          · intro hd
            rw [transformSourceFile_run, if_neg (by simp [hd])] at h1
            exact ⟨first', st1, h1, List.getElem?_cons_zero⟩
        | succ j =>
          simp only [List.getElem?_cons_succ] at hi
          obtain ⟨done, si, hdone, hdecl, hother⟩ := hrest j file hi
          refine ⟨first' :: done, si, ?_, ?_, ?_⟩
          · rw [List.take_succ_cons, mapM_eff_cons, h1]
            simp only [hdone]
          · intro hd
            simpa using hdecl hd
          · intro hd
            obtain ⟨result, si', hres, hout⟩ := hother hd
            exact ⟨result, si', hres, by simpa using hout⟩

theorem mapM_transformSourceFile_total (transformation : NodeTransformer X)
    (htotal : ∀ file st, ∃ r, transformation file st = .ok r) :
    ∀ (files : List Node) (st : TransformState X),
      ∃ r, List.mapM (transformSourceFile transformation) files st = .ok r
  | [], st => ⟨([], st), by simp only [List.mapM_nil]; rfl⟩
  | file :: rest, st => by
    rw [mapM_eff_cons, transformSourceFile_run]
    have hfirst : ∃ r, (if isDeclarationFile file = true then Except.ok (file, st)
        else transformation file { st with currentSourceFile := some file }) = .ok r := by
      split_ifs
      · exact ⟨_, rfl⟩
      · exact htotal _ _
    obtain ⟨⟨file', st1⟩, h1⟩ := hfirst
    obtain ⟨⟨out, st2⟩, h2⟩ := mapM_transformSourceFile_total transformation htotal rest st1
    exact ⟨(file' :: out, st2), by rw [h1]; simp only [h2]⟩

/-- The second phase of `transformFiles` is the reference run over the files that are
not declaration files, the declaration files standing in their places as they are. -/
theorem mapM_transformSourceFile_eq (transformation : NodeTransformer X) :
    ∀ (files : List Node) (st : TransformState X),
      List.mapM (transformSourceFile transformation) files st =
        match applyToEach transformation
            (files.filter (fun file => !isDeclarationFile file)) st with
        | .error e => .error e
        | .ok (results, st') => .ok (restoreDeclarationFiles files results, st')
  | [], st => by
    simp only [List.mapM_nil, List.filter_nil, applyToEach, restoreDeclarationFiles]
    rfl
  | file :: rest, st => by
    rw [mapM_eff_cons, transformSourceFile_run]
    by_cases hd : isDeclarationFile file = true
    · have hfilter : (file :: rest).filter (fun file => !isDeclarationFile file) =
          rest.filter (fun file => !isDeclarationFile file) := by
        rw [List.filter_cons, hd]
        rfl
      rw [hfilter, if_pos hd]
      simp only [mapM_transformSourceFile_eq transformation rest st]
      cases applyToEach transformation
          (rest.filter (fun file => !isDeclarationFile file)) st with
      | error e => rfl
      | ok r => simp only [restoreDeclarationFiles, hd, if_true]
    · have hd' : isDeclarationFile file = false := by simpa using hd
      have hfilter : (file :: rest).filter (fun file => !isDeclarationFile file) =
          file :: rest.filter (fun file => !isDeclarationFile file) := by
        rw [List.filter_cons, hd']
        rfl
      rw [hfilter, if_neg hd]
      simp only [applyToEach]
      cases transformation file { st with currentSourceFile := some file } with
      | error e => rfl
      | ok p =>
        obtain ⟨result, st1⟩ := p
        simp only [mapM_transformSourceFile_eq transformation rest st1]
        cases applyToEach transformation
            (rest.filter (fun file => !isDeclarationFile file)) st1 with
        | error e => rfl
        | ok r => simp [restoreDeclarationFiles, hd']

theorem restoreDeclarationFiles_all :
    ∀ (files : List Node), (∀ file, file ∈ files → isDeclarationFile file = true) →
      restoreDeclarationFiles files [] = files
  | [], _ => rfl
  | file :: rest, h => by
    simp only [restoreDeclarationFiles, h file (List.mem_cons_self _ _), if_true,
      restoreDeclarationFiles_all rest (fun f hf => h f (List.mem_cons_of_mem _ hf))]

theorem isSubstitutionEnabled_enableSubstitution (st : TransformState X) (node : Node) :
    isSubstitutionEnabled (enableSubstitution st node.kind) node = true := by
  simp only [isSubstitutionEnabled, enableSubstitution, Function.update_same,
    or_mask_and_mask, SyntaxKindFeatureFlags.Substitution]
  decide

theorem observingNodeTransformer_run (F : NodeEmitFlags) (resolver : EmitResolver)
    (host : EmitHost) (probe file : Node) (st : TransformState (List Bool)) :
    observingNodeTransformer (context F resolver host) probe file st =
      .ok (file, { st with ext := st.ext ++ [isSubstitutionEnabled st probe] }) := rfl

theorem observingTransformer_run (F : NodeEmitFlags) (resolver : EmitResolver)
    (host : EmitHost) (kind : Nat) (probe : Node) (st : TransformState (List Bool)) :
    List.mapM (fun factory => factory (context F resolver host))
        [observingTransformer kind probe] st =
      .ok ([observingNodeTransformer (context F resolver host) probe],
        enableSubstitution st kind) := rfl

theorem mapM_transformSourceFile_observing (F : NodeEmitFlags) (resolver : EmitResolver)
    (host : EmitHost) (probe : Node) :
    ∀ (files : List Node) (st : TransformState (List Bool)),
      isSubstitutionEnabled st probe = true →
      ∃ st', List.mapM (transformSourceFile
          (compose [observingNodeTransformer (context F resolver host) probe])) files st =
          .ok (files, st') ∧
        st'.ext = st.ext ++
          (files.filter (fun file => !isDeclarationFile file)).map (fun _ => true)
  | [], st, _ => ⟨st, by simp only [List.mapM_nil]; rfl, by simp⟩
  | file :: rest, st, hP => by
    rw [mapM_eff_cons, transformSourceFile_run]
    by_cases hd : isDeclarationFile file = true
    · obtain ⟨st', hrun, hext⟩ :=
        mapM_transformSourceFile_observing F resolver host probe rest st hP
      refine ⟨st', ?_, ?_⟩
      · simp only [hd, if_true, hrun]
      · simp [hext, hd]
    · obtain ⟨st', hrun, hext⟩ :=
        mapM_transformSourceFile_observing F resolver host probe rest
          { st with currentSourceFile := some file, ext := st.ext ++ [true] } hP
      refine ⟨st', ?_, ?_⟩
      · have hstep : compose [observingNodeTransformer (context F resolver host) probe] file
            { st with currentSourceFile := some file } =
            .ok (file, { st with currentSourceFile := some file, ext := st.ext ++ [true] }) := by
          show observingNodeTransformer (context F resolver host) probe file _ = _
          rw [observingNodeTransformer_run]
          have hP' : isSubstitutionEnabled { st with currentSourceFile := some file } probe
              = true := hP
          rw [hP']
        simp only [hd, if_false, Bool.false_eq_true, hstep, hrun]
      · simp [hext, hd]

end OrchestrationLemmas

/-- C3: `transformFiles` runs in two phases.  First every factory is called once on the
one context, in list order; then the composition of the functions the factories
returned is applied to the files, in list order; no factory is called again.  Passes
that log their calls leave the log of all factory calls, in order, followed for each
file that is not a declaration file by the calls of the per-node functions on it, in
order.  Hence a property of the state that holds once the factories have run, that the
per-node functions keep and that does not depend on the current source file, such as
substitution being enabled for a kind, holds in the state in which the transformation
is applied to every file of the list, first to last.  A pass whose factory enables
substitution for the kind of a node and whose per-node function logs whether
substitution is enabled for that node logs `true` for every file that is not a
declaration file. -/
theorem transformFiles_initializes_before_files {X : Type} (F : NodeEmitFlags)
    (resolver : EmitResolver) (host : EmitHost) (sourceFiles : List Node)
    (transformers : List (Transformer X)) :
    (transformFiles F resolver host sourceFiles transformers =
      (do
        Eff.writing declareVariables
        let passes ← List.mapM (fun factory => factory (context F resolver host)) transformers
        List.mapM (transformSourceFile (compose passes)) sourceFiles)) ∧
    (∀ (tags : List Nat) (st : TransformState (List (Nat × Option Nat))),
      ∃ st', transformFiles F resolver host sourceFiles (tags.map tracingTransformer) st =
          .ok (sourceFiles, st') ∧
        st'.ext = st.ext ++ tags.map (fun tag => (tag, none)) ++
          sourceFiles.flatMap (fun file =>
            if isDeclarationFile file then []
            else tags.map (fun tag => (tag, some (getNodeId file))))) ∧
    (∀ (P : TransformState X → Prop) (st st1 : TransformState X)
        (passes : List (NodeTransformer X)),
      List.mapM (fun factory => factory (context F resolver host)) transformers
          (declareVariables st) = .ok (passes, st1) →
      P st1 →
      (∀ s file, P s → P { s with currentSourceFile := some file }) →
      (∀ file s file' s', P s → compose passes file s = .ok (file', s') → P s') →
      ∀ (k : Nat) (file : Node) (done : List Node) (sk : TransformState X),
        sourceFiles[k]? = some file →
        List.mapM (transformSourceFile (compose passes)) (sourceFiles.take k) st1 =
          .ok (done, sk) →
        P { sk with currentSourceFile := some file }) ∧
    (∀ (probe : Node) (st : TransformState (List Bool)),
      ∃ st', transformFiles F resolver host sourceFiles
            [observingTransformer probe.kind probe] st = .ok (sourceFiles, st') ∧
        st'.ext = st.ext ++
          (sourceFiles.filter (fun file => !isDeclarationFile file)).map (fun _ => true)) := by
  refine ⟨transformFiles_eq F resolver host sourceFiles transformers, ?_, ?_, ?_⟩
  · intro tags st
    rw [transformFiles_run, mapM_tracingTransformer]
    obtain ⟨st', hrun, hext⟩ := mapM_transformSourceFile_tracing tags sourceFiles
      { declareVariables st with
        ext := (declareVariables st).ext ++ tags.map (fun tag => (tag, none)) }
    exact ⟨st', hrun, hext⟩
  · intro P st st1 passes _ hP hcurrent hkeep k file done sk _ hrun
    exact hcurrent _ _
      (mapM_transformSourceFile_invariant P (compose passes) hcurrent hkeep
        (sourceFiles.take k) st1 done sk hP hrun)
  · intro probe st
    rw [transformFiles_run, observingTransformer_run]
    exact mapM_transformSourceFile_observing F resolver host probe sourceFiles _
      (isSubstitutionEnabled_enableSubstitution _ probe)

/-- Witness of C3: the pass `observingTransformer 70 exampleOriginal` on the example
files; substitution for kind 70, enabled by the factory, is enabled in the state in which
the third file is transformed. -/
theorem transformFiles_initializes_before_files_witness :
    isSubstitutionEnabled
      { observedStateAfterTwoFiles with currentSourceFile := some exampleSourceFile }
      exampleOriginal = true :=
  (transformFiles_initializes_before_files exampleFlags exampleResolver exampleHost
      exampleFiles [observingTransformer 70 exampleOriginal]).2.2.1
    (fun s => isSubstitutionEnabled s exampleOriginal = true)
    (emptyStateWith []) observedStateAfterFactories
    [observingNodeTransformer (context exampleFlags exampleResolver exampleHost)
      exampleOriginal]
    rfl (by decide) (fun _ _ h => h)
    (fun file s file' s' hP h => by
      have hrun : observingNodeTransformer (context exampleFlags exampleResolver exampleHost)
          exampleOriginal file s = .ok (file', s') := h
      rw [observingNodeTransformer_run] at hrun
      cases hrun
      exact hP)
    2 exampleSourceFile [exampleSourceFile, exampleDeclarationFile]
    observedStateAfterTwoFiles rfl rfl

/-- C6: when `transformFiles` returns, it returns one file per input file, in the order
of the input; in the place of a declaration file is that very file; in the place of any
other file is what the composed transformation returns for it, applied in the state
left by the files before it with the file recorded as the current source file.  It does
return whenever the factories and the composed transformation return.  For passes
without side effects the result is the input list with every file that is not a
declaration file replaced by the passes applied to it in list order.  The
transformation is not applied to a declaration file: the run is the run of the
factories followed by the composed transformation applied to the files that are not
declaration files only, in their order, with the declaration files put back in their
places; its result, its final state and whether it throws do not depend on what the
transformation would do on a declaration file, and on declaration files alone the run
returns the files in the state the factories left, whatever the passes are. -/
theorem transformFiles_result {X : Type} (F : NodeEmitFlags) (resolver : EmitResolver)
    (host : EmitHost) (sourceFiles : List Node) (transformers : List (Transformer X))
    (st : TransformState X) :
    (∀ (out : List Node) (st' : TransformState X),
      transformFiles F resolver host sourceFiles transformers st = .ok (out, st') →
      out.length = sourceFiles.length ∧
      ∀ (i : Nat) (file : Node), sourceFiles[i]? = some file →
        (isDeclarationFile file = true → out[i]? = some file) ∧
        (isDeclarationFile file = false →
          ∃ passes st1 done si result si',
            List.mapM (fun factory => factory (context F resolver host)) transformers
              (declareVariables st) = .ok (passes, st1) ∧
            List.mapM (transformSourceFile (compose passes)) (sourceFiles.take i) st1 =
              .ok (done, si) ∧
            compose passes file { si with currentSourceFile := some file } =
              .ok (result, si') ∧
            out[i]? = some result)) ∧
    (∀ (passes : List (NodeTransformer X)) (st1 : TransformState X),
      List.mapM (fun factory => factory (context F resolver host)) transformers
        (declareVariables st) = .ok (passes, st1) →
      (∀ file s, ∃ r, compose passes file s = .ok r) →
      ∃ out st', transformFiles F resolver host sourceFiles transformers st = .ok (out, st')) ∧
    (∀ fs : List (Node → Node),
      ∃ st', transformFiles F resolver host sourceFiles (fs.map purePass) st =
        .ok (sourceFiles.map (fun file =>
          if isDeclarationFile file then file else fs.foldl (fun u f => f u) file), st')) ∧
    (transformFiles F resolver host sourceFiles transformers st =
      match List.mapM (fun factory => factory (context F resolver host)) transformers
          (declareVariables st) with
      | .error e => .error e
      | .ok (passes, st1) =>
        match applyToEach (compose passes)
            (sourceFiles.filter (fun file => !isDeclarationFile file)) st1 with
        | .error e => .error e
        | .ok (results, st') => .ok (restoreDeclarationFiles sourceFiles results, st')) ∧
    ((∀ file, file ∈ sourceFiles → isDeclarationFile file = true) →
      ∀ (passes : List (NodeTransformer X)) (st1 : TransformState X),
        List.mapM (fun factory => factory (context F resolver host)) transformers
          (declareVariables st) = .ok (passes, st1) →
        transformFiles F resolver host sourceFiles transformers st =
          .ok (sourceFiles, st1)) := by
  have hrun : transformFiles F resolver host sourceFiles transformers st =
      match List.mapM (fun factory => factory (context F resolver host)) transformers
          (declareVariables st) with
      | .error e => .error e
      | .ok (passes, st1) =>
        match applyToEach (compose passes)
            (sourceFiles.filter (fun file => !isDeclarationFile file)) st1 with
        | .error e => .error e
        | .ok (results, st') => .ok (restoreDeclarationFiles sourceFiles results, st') := by
    rw [transformFiles_run]
    cases List.mapM (fun factory => factory (context F resolver host)) transformers
        (declareVariables st) with
    | error e => rfl
    | ok p =>
      obtain ⟨passes, st1⟩ := p
      exact mapM_transformSourceFile_eq (compose passes) sourceFiles st1
  refine ⟨?_, ?_, ?_, hrun, ?_⟩
  rotate_left 3
  · intro hall passes st1 hinit
    rw [hrun, hinit]
    have hnone : sourceFiles.filter (fun file => !isDeclarationFile file) = [] := by
      rw [List.filter_eq_nil_iff]
      intro file hfile
      simp [hall file hfile]
    simp only [hnone, applyToEach, restoreDeclarationFiles_all sourceFiles hall]
  · intro out st' h
    rw [transformFiles_run] at h
    cases hinit : List.mapM (fun factory => factory (context F resolver host)) transformers
        (declareVariables st) with
    | error e => rw [hinit] at h; cases h
    | ok p =>
      obtain ⟨passes, st1⟩ := p
      rw [hinit] at h
      obtain ⟨hlen, hfiles⟩ :=
        mapM_transformSourceFile_shape (compose passes) sourceFiles st1 out st' h
      refine ⟨hlen, fun i file hi => ?_⟩
      obtain ⟨done, si, hdone, hdecl, hother⟩ := hfiles i file hi
      refine ⟨hdecl, fun hd => ?_⟩
      obtain ⟨result, si', hres, hout⟩ := hother hd
      exact ⟨passes, st1, done, si, result, si', rfl, hdone, hres, hout⟩
  · intro passes st1 hinit htotal
    rw [transformFiles_run, hinit]
    obtain ⟨⟨out, st'⟩, hrun⟩ :=
      mapM_transformSourceFile_total (compose passes) htotal sourceFiles st1
    exact ⟨out, st', hrun⟩
  · intro fs
    rw [transformFiles_run, mapM_purePass]
    exact mapM_transformSourceFile_pure fs sourceFiles (declareVariables st)

/-- Witness of C6: the example files under the one pass `exampleRewrite`; the run
returns, the second file of the result is the declaration file itself, and the third is
what the composed transformation returns for the third input file.  Under a pass that
throws whenever it is applied, two declaration files are returned as they are, in the
state the factories left. -/
theorem transformFiles_result_witness :
    [exampleRewrite exampleSourceFile, exampleDeclarationFile,
        exampleRewrite exampleSourceFile][1]? = some exampleDeclarationFile ∧
    (∃ passes st1 done si result si',
      List.mapM (fun factory => factory (context exampleFlags exampleResolver exampleHost))
        [purePass exampleRewrite] (declareVariables emptyState) = .ok (passes, st1) ∧
      List.mapM (transformSourceFile (compose passes)) (exampleFiles.take 2) st1 =
        .ok (done, si) ∧
      compose passes exampleSourceFile { si with currentSourceFile := some exampleSourceFile } =
        .ok (result, si') ∧
      [exampleRewrite exampleSourceFile, exampleDeclarationFile,
        exampleRewrite exampleSourceFile][2]? = some result) ∧
    (∃ out st', transformFiles exampleFlags exampleResolver exampleHost exampleFiles
      [purePass exampleRewrite] emptyState = .ok (out, st')) ∧
    transformFiles exampleFlags exampleResolver exampleHost
        [exampleDeclarationFile, exampleDeclarationFile] [throwingTransformer] emptyState =
      .ok ([exampleDeclarationFile, exampleDeclarationFile], declareVariables emptyState) :=
  ⟨((transformFiles_result exampleFlags exampleResolver exampleHost exampleFiles
        [purePass exampleRewrite] emptyState).1
      [exampleRewrite exampleSourceFile, exampleDeclarationFile,
        exampleRewrite exampleSourceFile]
      { declareVariables emptyState with currentSourceFile := some exampleSourceFile }
      rfl).2 1 exampleDeclarationFile rfl |>.1 rfl,
    ((transformFiles_result exampleFlags exampleResolver exampleHost exampleFiles
        [purePass exampleRewrite] emptyState).1
      [exampleRewrite exampleSourceFile, exampleDeclarationFile,
        exampleRewrite exampleSourceFile]
      { declareVariables emptyState with currentSourceFile := some exampleSourceFile }
      rfl).2 2 exampleSourceFile rfl |>.2 rfl,
    (transformFiles_result exampleFlags exampleResolver exampleHost exampleFiles
        [purePass exampleRewrite] emptyState).2.1
      [fun node => pure (exampleRewrite node)] (declareVariables emptyState) rfl
      (fun file s => ⟨(exampleRewrite file, s), rfl⟩),
    (transformFiles_result exampleFlags exampleResolver exampleHost
        [exampleDeclarationFile, exampleDeclarationFile] [throwingTransformer]
        emptyState).2.2.2.2
      (fun file hfile => by
        simp only [List.mem_cons, List.mem_singleton, List.mem_nil_iff, or_false,
          or_self] at hfile
        subst hfile
        rfl)
      [fun _node _st => .error "applied"] (declareVariables emptyState) rfl⟩

/-! ## Reading back a token range -/

/-- C11: after `setTokenSourceMapRange(N, T, r)`, `getTokenSourceMapRange(N, T)` is `r`,
and for every other token `getTokenSourceMapRange(N, T')` is what it was before the
call, whether the node had a map of its own, inherited one, or had none. -/
theorem setTokenSourceMapRange_then_get {X : Type} (st : TransformState X) (N : Node)
    (T : Nat) (r : TextRange) :
    getTokenSourceMapRange (setTokenSourceMapRange st N T r).2 N T = some r ∧
    ∀ T' : Nat, T' ≠ T →
      getTokenSourceMapRange (setTokenSourceMapRange st N T r).2 N T' =
        getTokenSourceMapRange st N T' := by
  cases hown : ownTokenRanges st N with
  | some ranges =>
    obtain ⟨hrec, hheap, _⟩ := setTokenSourceMapRange_own st N T r ranges hown
    have hown' : ownTokenRanges (setTokenSourceMapRange st N T r).2 N = some ranges := by
      rw [ownTokenRanges_eq, hrec, ← ownTokenRanges_eq, hown]
    unfold getTokenSourceMapRange
    rw [getTokenSourceMapRanges_of_own _ N ranges hown',
      getTokenSourceMapRanges_of_own _ N ranges hown]
    simp only [hheap, Function.update_same]
    exact ⟨trivial, fun T' hT => by rw [Function.update_noteq hT]⟩
  | none =>
    obtain ⟨hrec, hheap, _⟩ := setTokenSourceMapRange_fresh st N T r hown
    have hown' : ownTokenRanges (setTokenSourceMapRange st N T r).2 N =
        some st.nextAddress := by
      rw [ownTokenRanges_eq, hrec, if_pos rfl]
      rfl
    unfold getTokenSourceMapRange
    rw [getTokenSourceMapRanges_of_own _ N _ hown']
    simp only [hheap, Function.update_same]
    refine ⟨trivial, fun T' hT => ?_⟩
    rw [Function.update_noteq hT]
    cases getTokenSourceMapRanges st N <;> rfl

/-- Witness of C11: the synthesized example node inherits the range `[10, 20)` for token
5; after a range is set for token 6 it still reports `[10, 20)` for token 5. -/
theorem setTokenSourceMapRange_then_get_witness :
    getTokenSourceMapRange exampleTokenState exampleSynthesized 5 = some ⟨10, 20⟩ ∧
    getTokenSourceMapRange
        (setTokenSourceMapRange exampleTokenState exampleSynthesized 6 ⟨1, 2⟩).2
        exampleSynthesized 5 = getTokenSourceMapRange exampleTokenState exampleSynthesized 5 :=
  ⟨by decide,
    (setTokenSourceMapRange_then_get exampleTokenState exampleSynthesized 6 ⟨1, 2⟩).2 5
      (by decide)⟩

/-! ## Source-map ranges and comment ranges -/

section RangeLemmas
variable {X : Type}

theorem recordedSourceMapRange_eq (st : TransformState X) (node : Node) :
    recordedSourceMapRange st node =
      (recordAt st (location node)).bind (fun options => options.sourceMapRange) := by
  unfold recordedSourceMapRange
  rw [getEmitOptions_fst]

theorem recordedCommentRange_eq (st : TransformState X) (node : Node) :
    recordedCommentRange st node =
      (recordAt st (location node)).bind (fun options => options.commentRange) := by
  unfold recordedCommentRange
  rw [getEmitOptions_fst]

theorem recordedSourceMapRange_setSourceMapRange (st : TransformState X) (node : Node)
    (range : TextRange) :
    recordedSourceMapRange (setSourceMapRange st node range).2 node = some range := by
  rw [recordedSourceMapRange_eq]
  unfold setSourceMapRange
  rw [recordAt_assignEmitOptions, if_pos rfl, recordAt_getEmitOptions_create, if_pos rfl]
  rfl

theorem recordedCommentRange_setCommentRange (st : TransformState X) (node : Node)
    (range : TextRange) :
    recordedCommentRange (setCommentRange st node range).2 node = some range := by
  rw [recordedCommentRange_eq]
  unfold setCommentRange
  rw [recordAt_assignEmitOptions, if_pos rfl, recordAt_getEmitOptions_create, if_pos rfl]
  rfl

/-- The loop of `getSourceMapRange` finds the first range recorded on the node or on
its originals, nearest first. -/
theorem getSourceMapRange_walk_eq (st : TransformState X) :
    ∀ node : Node, getSourceMapRange.walk st node =
      (node :: originals node).findSome? (recordedSourceMapRange st)
  | .mk id kind sourceTree declarationFile none => by
    simp only [getSourceMapRange.walk, originals, List.findSome?_cons, List.findSome?_nil,
      recordedSourceMapRange]
    cases ((getEmitOptions st (Node.mk id kind sourceTree declarationFile none) false).1).bind
      (fun options => options.sourceMapRange) <;> rfl
  | .mk id kind sourceTree declarationFile (some next) => by
    have ih := getSourceMapRange_walk_eq st next
    simp only [getSourceMapRange.walk, originals, List.findSome?_cons, recordedSourceMapRange]
    cases ((getEmitOptions st (Node.mk id kind sourceTree declarationFile (some next))
      false).1).bind (fun options => options.sourceMapRange) with
    | some range => rfl
    | none =>
      simp only [ih, List.findSome?_cons, recordedSourceMapRange]

/-- The loop of `getCommentRange` finds the first range recorded on the node or on its
originals, nearest first. -/
theorem getCommentRange_walk_eq (st : TransformState X) :
    ∀ node : Node, getCommentRange.walk st node =
      (node :: originals node).findSome? (recordedCommentRange st)
  | .mk id kind sourceTree declarationFile none => by
    simp only [getCommentRange.walk, originals, List.findSome?_cons, List.findSome?_nil,
      recordedCommentRange]
    cases ((getEmitOptions st (Node.mk id kind sourceTree declarationFile none) false).1).bind
      (fun options => options.commentRange) <;> rfl
  | .mk id kind sourceTree declarationFile (some next) => by
    have ih := getCommentRange_walk_eq st next
    simp only [getCommentRange.walk, originals, List.findSome?_cons, recordedCommentRange]
    cases ((getEmitOptions st (Node.mk id kind sourceTree declarationFile (some next))
      false).1).bind (fun options => options.commentRange) with
    | some range => rfl
    | none =>
      simp only [ih, List.findSome?_cons, recordedCommentRange]

/-- The loop of `getTokenSourceMapRanges` finds the first map referenced on the node or
on its originals, nearest first. -/
theorem getTokenSourceMapRanges_eq (st : TransformState X) :
    ∀ node : Node, getTokenSourceMapRanges st node =
      (node :: originals node).findSome? (ownTokenRanges st)
  | .mk id kind sourceTree declarationFile none => by
    simp only [getTokenSourceMapRanges, originals, List.findSome?_cons, List.findSome?_nil,
      ownTokenRanges]
    cases ((getEmitOptions st (Node.mk id kind sourceTree declarationFile none) false).1).bind
      (fun options => options.tokenSourceMapRange) <;> rfl
  | .mk id kind sourceTree declarationFile (some next) => by
    have ih := getTokenSourceMapRanges_eq st next
    simp only [getTokenSourceMapRanges, originals, List.findSome?_cons, ownTokenRanges]
    cases ((getEmitOptions st (Node.mk id kind sourceTree declarationFile (some next))
      false).1).bind (fun options => options.tokenSourceMapRange) with
    | some range => rfl
    | none =>
      simp only [ih, List.findSome?_cons, ownTokenRanges]

end RangeLemmas

/-- C12: `setSourceMapRange` returns the node it is given, and after
`setSourceMapRange(N, r1)` followed by `setSourceMapRange(N, r2)` the node reports `r2`,
whatever is recorded for its originals; a single write reads back too.  The same holds
for `setCommentRange` and `getCommentRange`. -/
theorem setRange_then_getRange {X : Type} (st : TransformState X) (N : Node)
    (r1 r2 : TextRange) :
    ((setSourceMapRange st N r1).1 = N ∧
      getSourceMapRange (setSourceMapRange st N r1).2 N = .inl r1 ∧
      getSourceMapRange (setSourceMapRange (setSourceMapRange st N r1).2 N r2).2 N
        = .inl r2) ∧
    ((setCommentRange st N r1).1 = N ∧
      getCommentRange (setCommentRange st N r1).2 N = .inl r1 ∧
      getCommentRange (setCommentRange (setCommentRange st N r1).2 N r2).2 N = .inl r2) := by
  have hsource : ∀ (s : TransformState X) (r : TextRange),
      getSourceMapRange (setSourceMapRange s N r).2 N = .inl r := by
    intro s r
    unfold getSourceMapRange
    rw [getSourceMapRange_walk_eq, List.findSome?_cons,
      recordedSourceMapRange_setSourceMapRange]
  have hcomment : ∀ (s : TransformState X) (r : TextRange),
      getCommentRange (setCommentRange s N r).2 N = .inl r := by
    intro s r
    unfold getCommentRange
    rw [getCommentRange_walk_eq, List.findSome?_cons, recordedCommentRange_setCommentRange]
  exact ⟨⟨rfl, hsource st r1, hsource _ r2⟩, ⟨rfl, hcomment st r1, hcomment _ r2⟩⟩

/-- C13: a node without a source-map range recorded for itself, whatever else its record
holds, reports the range recorded on the nearest of its originals that has one, and
itself when none has; the same holds for comment ranges; and
`getTokenSourceMapRange(N, T)` is undefined when neither the node nor any of its
originals has a token-range map. -/
theorem getRange_inherits {X : Type} (st : TransformState X) (N : Node) :
    (recordedSourceMapRange st N = none →
      getSourceMapRange st N =
        match (originals N).findSome? (recordedSourceMapRange st) with
        | some range => .inl range
        | none => .inr N) ∧
    (recordedCommentRange st N = none →
      getCommentRange st N =
        match (originals N).findSome? (recordedCommentRange st) with
        | some range => .inl range
        | none => .inr N) ∧
    (∀ T : Nat, (∀ n ∈ N :: originals N, ownTokenRanges st n = none) →
      getTokenSourceMapRange st N T = none) := by
  refine ⟨?_, ?_, ?_⟩
  · intro hN
    unfold getSourceMapRange
    rw [getSourceMapRange_walk_eq, List.findSome?_cons, hN]
  · intro hN
    unfold getCommentRange
    rw [getCommentRange_walk_eq, List.findSome?_cons, hN]
  · intro T hnone
    have hfind : (N :: originals N).findSome? (ownTokenRanges st) = none := by
      rw [List.findSome?_eq_none_iff]
      exact hnone
    unfold getTokenSourceMapRange
    rw [getTokenSourceMapRanges_eq, hfind]

/-- Witness of C13: in the example state with ranges the synthesized node, which has no
record, reports the ranges of its original; in the example state without ranges the
original, whose record holds flags only, reports itself; and in that state the
synthesized node has no token range. -/
theorem getRange_inherits_witness :
    getSourceMapRange exampleRangeState exampleSynthesized = .inl ⟨3, 9⟩ ∧
    getCommentRange exampleRangeState exampleSynthesized = .inl ⟨2, 9⟩ ∧
    getSourceMapRange exampleState exampleOriginal = .inr exampleOriginal ∧
    getTokenSourceMapRange exampleState exampleSynthesized 5 = none :=
  ⟨(getRange_inherits exampleRangeState exampleSynthesized).1 (by decide),
    (getRange_inherits exampleRangeState exampleSynthesized).2.1 (by decide),
    (getRange_inherits exampleState exampleOriginal).1 (by decide),
    (getRange_inherits exampleState exampleSynthesized).2.2 5 (by
      intro n hn
      simp only [exampleSynthesized, exampleOriginal, originals, List.mem_cons,
        List.mem_singleton, List.not_mem_nil, or_false] at hn
      rcases hn with h | h <;> subst h <;> decide)⟩

/-! ## Overlay writes and the final-emission guard -/

section GuardLemmas
variable {X : Type}

theorem guard_getEmitOptions (st : TransformState X) (node : Node) (create : Bool) :
    (getEmitOptions st node create).2.lexicalEnvironmentDisabled =
      st.lexicalEnvironmentDisabled := by
  unfold getEmitOptions
  simp only
  split_ifs <;> rfl

theorem guard_assignEmitOptions (st : TransformState X) (node : Node)
    (update : NodeEmitOptions → NodeEmitOptions) :
    (assignEmitOptions st node update).lexicalEnvironmentDisabled =
      st.lexicalEnvironmentDisabled := by
  unfold assignEmitOptions
  split_ifs <;> rfl

theorem guard_setNodeEmitFlags (F : NodeEmitFlags) (st : TransformState X) (node : Node)
    (flags : Nat) :
    (setNodeEmitFlags F st node flags).2.lexicalEnvironmentDisabled =
      st.lexicalEnvironmentDisabled := by
  unfold setNodeEmitFlags
  simp only [guard_assignEmitOptions, guard_getEmitOptions]

theorem guard_setSourceMapRange (st : TransformState X) (node : Node) (range : TextRange) :
    (setSourceMapRange st node range).2.lexicalEnvironmentDisabled =
      st.lexicalEnvironmentDisabled := by
  unfold setSourceMapRange
  simp only [guard_assignEmitOptions, guard_getEmitOptions]

theorem guard_setCommentRange (st : TransformState X) (node : Node) (range : TextRange) :
    (setCommentRange st node range).2.lexicalEnvironmentDisabled =
      st.lexicalEnvironmentDisabled := by
  unfold setCommentRange
  simp only [guard_assignEmitOptions, guard_getEmitOptions]

theorem guard_setTokenSourceMapRange (st : TransformState X) (node : Node) (token : Nat)
    (range : TextRange) :
    (setTokenSourceMapRange st node token range).2.lexicalEnvironmentDisabled =
      st.lexicalEnvironmentDisabled := by
  have halloc : ∀ (s : TransformState X) (entries : Nat → Option TextRange),
      (allocateRanges s entries).2.lexicalEnvironmentDisabled = s.lexicalEnvironmentDisabled :=
    fun _ _ => rfl
  have hassign : ∀ (s : TransformState X) (ranges : Nat),
      (assignTokenRange s ranges token range).lexicalEnvironmentDisabled =
        s.lexicalEnvironmentDisabled := fun _ _ => rfl
  unfold setTokenSourceMapRange
  simp only
  split <;> split <;> (try split) <;>
    simp only [hassign, guard_assignEmitOptions, halloc, guard_getEmitOptions]

end GuardLemmas

/-- C14, as stated, fails: with the final-emission guard set and nothing recorded, each
of the four overlay writes of the context returns normally and the overlay holds what
was written. -/
theorem overlay_writes_with_guard_set :
    guardedState.lexicalEnvironmentDisabled = true ∧
    recordedFlags guardedState exampleOriginal = none ∧
    (∃ st', (context exampleFlags exampleResolver exampleHost).setNodeEmitFlags
        exampleOriginal 1 guardedState = .ok (exampleOriginal, st') ∧
      recordedFlags st' exampleOriginal = some 1) ∧
    (∃ st', (context exampleFlags exampleResolver exampleHost).setSourceMapRange
        exampleOriginal ⟨3, 9⟩ guardedState = .ok (exampleOriginal, st') ∧
      recordedSourceMapRange st' exampleOriginal = some ⟨3, 9⟩) ∧
    (∃ st', (context exampleFlags exampleResolver exampleHost).setTokenSourceMapRange
        exampleOriginal 5 ⟨3, 9⟩ guardedState = .ok (exampleOriginal, st') ∧
      getTokenSourceMapRange st' exampleOriginal 5 = some ⟨3, 9⟩) ∧
    (∃ st', (context exampleFlags exampleResolver exampleHost).setCommentRange
        exampleOriginal ⟨2, 9⟩ guardedState = .ok (exampleOriginal, st') ∧
      recordedCommentRange st' exampleOriginal = some ⟨2, 9⟩) :=
  ⟨rfl, by decide,
    ⟨_, rfl, by decide⟩, ⟨_, rfl, by decide⟩, ⟨_, rfl, by decide⟩, ⟨_, rfl, by decide⟩⟩

/-- C14, amended: the overlay writes do not consult the final-emission guard.  While it
is set, `setNodeEmitFlags`, `setSourceMapRange`, `setTokenSourceMapRange` and
`setCommentRange` return their node, leave the guard set, and the overlay holds what
they wrote: the flags are recorded as without the guard, and the ranges read back. -/
theorem overlay_writes_ignore_guard {X : Type} (F : NodeEmitFlags) (resolver : EmitResolver)
    (host : EmitHost) (st : TransformState X) (node : Node) (flags token : Nat)
    (range : TextRange) (hguard : st.lexicalEnvironmentDisabled = true) :
    (∃ st', (context F resolver host).setNodeEmitFlags node flags st = .ok (node, st') ∧
      st'.lexicalEnvironmentDisabled = true ∧
      recordedFlags st' node = some (if flags &&& F.Merge ≠ 0
        then (recordedFlags st node).getD 0 ||| clearFlags flags F.Merge else flags)) ∧
    (∃ st', (context F resolver host).setSourceMapRange node range st = .ok (node, st') ∧
      st'.lexicalEnvironmentDisabled = true ∧
      getSourceMapRange st' node = .inl range) ∧
    (∃ st', (context F resolver host).setTokenSourceMapRange node token range st =
        .ok (node, st') ∧
      st'.lexicalEnvironmentDisabled = true ∧
      getTokenSourceMapRange st' node token = some range) ∧
    (∃ st', (context F resolver host).setCommentRange node range st = .ok (node, st') ∧
      st'.lexicalEnvironmentDisabled = true ∧
      getCommentRange st' node = .inl range) := by
  refine ⟨⟨(setNodeEmitFlags F st node flags).2, rfl, ?_, ?_⟩,
    ⟨(setSourceMapRange st node range).2, rfl, ?_, ?_⟩,
    ⟨(setTokenSourceMapRange st node token range).2, rfl, ?_, ?_⟩,
    ⟨(setCommentRange st node range).2, rfl, ?_, ?_⟩⟩
  · rw [guard_setNodeEmitFlags, hguard]
  · exact recordedFlags_setNodeEmitFlags F st node flags
  · rw [guard_setSourceMapRange, hguard]
  · unfold getSourceMapRange
    rw [getSourceMapRange_walk_eq, List.findSome?_cons,
      recordedSourceMapRange_setSourceMapRange]
  · rw [guard_setTokenSourceMapRange, hguard]
  · cases hown : ownTokenRanges st node with
    | some ranges =>
      obtain ⟨hrec, hheap, _⟩ := setTokenSourceMapRange_own st node token range ranges hown
      have hown' : ownTokenRanges (setTokenSourceMapRange st node token range).2 node =
          some ranges := by
        rw [ownTokenRanges_eq, hrec, ← ownTokenRanges_eq, hown]
      unfold getTokenSourceMapRange
      rw [getTokenSourceMapRanges_of_own _ node ranges hown']
      simp only [hheap, Function.update_same]
    | none =>
      obtain ⟨hrec, hheap, _⟩ := setTokenSourceMapRange_fresh st node token range hown
      have hown' : ownTokenRanges (setTokenSourceMapRange st node token range).2 node =
          some st.nextAddress := by
        rw [ownTokenRanges_eq, hrec, if_pos rfl]
        rfl
      unfold getTokenSourceMapRange
      rw [getTokenSourceMapRanges_of_own _ node _ hown']
      simp only [hheap, Function.update_same]
  · rw [guard_setCommentRange, hguard]
  · unfold getCommentRange
    rw [getCommentRange_walk_eq, List.findSome?_cons, recordedCommentRange_setCommentRange]

/-- Witness of the amended C14: `setSourceMapRange` on the empty state with the guard
set returns its node, leaves the guard set and records the range. -/
theorem overlay_writes_ignore_guard_witness :
    ∃ st', (context exampleFlags exampleResolver exampleHost).setSourceMapRange
        exampleOriginal ⟨3, 9⟩ guardedState = .ok (exampleOriginal, st') ∧
      st'.lexicalEnvironmentDisabled = true ∧
      getSourceMapRange st' exampleOriginal = .inl ⟨3, 9⟩ :=
  (overlay_writes_ignore_guard exampleFlags exampleResolver exampleHost guardedState
    exampleOriginal 1 5 ⟨3, 9⟩ rfl).2.1

/-! ## Lexical environments -/

section LexicalLemmas
variable {X : Type}

theorem hoistVariableDeclaration_ok (st : TransformState X) (name : String)
    (hguard : st.lexicalEnvironmentDisabled = false) :
    hoistVariableDeclaration st name =
      .ok ((), { st with
        hoistedVariableDeclarations :=
          some (st.hoistedVariableDeclarations.getD [] ++ [createVariableDeclaration name]) }) := by
  unfold hoistVariableDeclaration
  simp only [Debug.assert, hguard]
  cases st.hoistedVariableDeclarations <;> rfl

theorem hoistFunctionDeclaration_ok (st : TransformState X) (func : FunctionDeclaration)
    (hguard : st.lexicalEnvironmentDisabled = false) :
    hoistFunctionDeclaration st func =
      .ok ((), { st with
        hoistedFunctionDeclarations :=
          some (st.hoistedFunctionDeclarations.getD [] ++ [func]) }) := by
  unfold hoistFunctionDeclaration
  simp only [Debug.assert, hguard]
  cases st.hoistedFunctionDeclarations <;> rfl

theorem startLexicalEnvironment_ok (st : TransformState X)
    (hguard : st.lexicalEnvironmentDisabled = false) :
    startLexicalEnvironment st =
      .ok ((), { st with
        lexicalEnvironmentVariableDeclarationsStack :=
          Function.update st.lexicalEnvironmentVariableDeclarationsStack
            st.lexicalEnvironmentStackOffset st.hoistedVariableDeclarations
        lexicalEnvironmentFunctionDeclarationsStack :=
          Function.update st.lexicalEnvironmentFunctionDeclarationsStack
            st.lexicalEnvironmentStackOffset st.hoistedFunctionDeclarations
        lexicalEnvironmentStackOffset := st.lexicalEnvironmentStackOffset + 1
        hoistedVariableDeclarations := none
        hoistedFunctionDeclarations := none }) := by
  unfold startLexicalEnvironment
  simp only [Debug.assert, hguard]
  rfl

theorem endLexicalEnvironment_ok (st : TransformState X)
    (hguard : st.lexicalEnvironmentDisabled = false) :
    endLexicalEnvironment st =
      .ok (match st.hoistedFunctionDeclarations, st.hoistedVariableDeclarations with
          | none, none => none
          | some functions, none => some (functions.map Statement.functionDeclaration)
          | none, some declarations => some [Statement.variableStatement declarations]
          | some functions, some declarations =>
            some (functions.map Statement.functionDeclaration ++
              [Statement.variableStatement declarations]),
        { st with
          lexicalEnvironmentStackOffset := st.lexicalEnvironmentStackOffset - 1
          hoistedVariableDeclarations :=
            st.lexicalEnvironmentVariableDeclarationsStack (st.lexicalEnvironmentStackOffset - 1)
          hoistedFunctionDeclarations :=
            st.lexicalEnvironmentFunctionDeclarationsStack
              (st.lexicalEnvironmentStackOffset - 1) }) := by
  unfold endLexicalEnvironment
  simp only [Debug.assert, hguard]
  cases st.hoistedFunctionDeclarations <;> cases st.hoistedVariableDeclarations <;> rfl

theorem extendHoisted_snoc {α : Type} (current : Option (List α)) (first : α)
    (rest : List α) :
    extendHoisted (some (current.getD [] ++ [first])) rest =
      extendHoisted current (first :: rest) := by
  cases rest with
  | nil => rfl
  | cons second others =>
    simp only [extendHoisted, Option.getD_some, List.append_assoc, List.singleton_append]

/-- With the guard unset every hoisting operation of a sequence succeeds; the variables
and the functions of the sequence are appended, in order, to the current sequences, and
nothing else changes. -/
theorem hoistAll_ok :
    ∀ (operations : List HoistOperation) (st : TransformState X),
      st.lexicalEnvironmentDisabled = false →
      hoistAll st operations =
        .ok { st with
          hoistedVariableDeclarations :=
            extendHoisted st.hoistedVariableDeclarations (hoistedVariables operations)
          hoistedFunctionDeclarations :=
            extendHoisted st.hoistedFunctionDeclarations (hoistedFunctions operations) }
  | [], st, _ => rfl
  | .hoistVariable name :: rest, st, hguard => by
    simp only [hoistAll, hoist, hoistVariableDeclaration_ok st name hguard, hoistedVariables,
      hoistedFunctions]
    refine (hoistAll_ok rest _ ?_).trans ?_
    · exact hguard
    · simp only [extendHoisted_snoc]
  | .hoistFunction func :: rest, st, hguard => by
    simp only [hoistAll, hoist, hoistFunctionDeclaration_ok st func hguard, hoistedVariables,
      hoistedFunctions]
    refine (hoistAll_ok rest _ ?_).trans ?_
    · exact hguard
    · simp only [extendHoisted_snoc]

/-- The statements `endLexicalEnvironment` builds for a frame in which the given
functions and variables were hoisted, and nothing before them. -/
theorem statements_of_frame (functions : List FunctionDeclaration)
    (declarations : List VariableDeclaration) :
    (match extendHoisted none functions, extendHoisted none declarations with
      | none, none => none
      | some functions, none => some (functions.map Statement.functionDeclaration)
      | none, some declarations => some [Statement.variableStatement declarations]
      | some functions, some declarations =>
        some (functions.map Statement.functionDeclaration ++
          [Statement.variableStatement declarations])) =
      statementsOf functions declarations := by
  cases functions <;> cases declarations <;> simp [extendHoisted, statementsOf]

/-- A frame: `startLexicalEnvironment`, a sequence of hoisting operations, and
`endLexicalEnvironment`, from a state with the guard unset.  All calls succeed, the
statements returned are those of the operations, and the current sequences and the
offset are those of the state the frame was started in. -/
theorem frame_run (st : TransformState X) (operations : List HoistOperation)
    (hguard : st.lexicalEnvironmentDisabled = false) :
    ∃ s1 s2 s3,
      startLexicalEnvironment st = .ok ((), s1) ∧
      hoistAll s1 operations = .ok s2 ∧
      endLexicalEnvironment s2 =
        .ok (statementsOf (hoistedFunctions operations) (hoistedVariables operations), s3) ∧
      s3.hoistedVariableDeclarations = st.hoistedVariableDeclarations ∧
      s3.hoistedFunctionDeclarations = st.hoistedFunctionDeclarations ∧
      s3.lexicalEnvironmentStackOffset = st.lexicalEnvironmentStackOffset ∧
      s3.lexicalEnvironmentDisabled = false ∧
      s2.lexicalEnvironmentDisabled = false ∧
      s1.lexicalEnvironmentDisabled = false := by
  refine ⟨_, _, _, startLexicalEnvironment_ok st hguard, hoistAll_ok operations _ ?_,
    (endLexicalEnvironment_ok _ ?_).trans
      (congrArg (fun statements => Except.ok (statements, _)) ?_), ?_, ?_, ?_, ?_, ?_, ?_⟩
  · exact hguard
  · exact hguard
  · exact statements_of_frame (hoistedFunctions operations) (hoistedVariables operations)
  · show Function.update _ _ _ (st.lexicalEnvironmentStackOffset + 1 - 1) = _
    rw [add_sub_cancel_right, Function.update_same]
  · show Function.update _ _ _ (st.lexicalEnvironmentStackOffset + 1 - 1) = _
    rw [add_sub_cancel_right, Function.update_same]
  · show st.lexicalEnvironmentStackOffset + 1 - 1 = _
    rw [add_sub_cancel_right]
  · exact hguard
  · exact hguard
  · exact hguard

theorem hoistVariableDeclaration_guarded (st : TransformState X) (name : String)
    (hguard : st.lexicalEnvironmentDisabled = true) :
    hoistVariableDeclaration st name = .error
      ("Debug Failure. False expression: " ++
        "Cannot modify the lexical environment during the print phase.") := by
  unfold hoistVariableDeclaration
  simp only [Debug.assert, hguard]
  rfl

theorem hoistFunctionDeclaration_guarded (st : TransformState X) (func : FunctionDeclaration)
    (hguard : st.lexicalEnvironmentDisabled = true) :
    hoistFunctionDeclaration st func = .error
      ("Debug Failure. False expression: " ++
        "Cannot modify the lexical environment during the print phase.") := by
  unfold hoistFunctionDeclaration
  simp only [Debug.assert, hguard]
  rfl

theorem startLexicalEnvironment_guarded (st : TransformState X)
    (hguard : st.lexicalEnvironmentDisabled = true) :
    startLexicalEnvironment st = .error
      ("Debug Failure. False expression: " ++
        "Cannot start a lexical environment during the print phase.") := by
  unfold startLexicalEnvironment
  simp only [Debug.assert, hguard]
  rfl

theorem endLexicalEnvironment_guarded (st : TransformState X)
    (hguard : st.lexicalEnvironmentDisabled = true) :
    endLexicalEnvironment st = .error
      ("Debug Failure. False expression: " ++
        "Cannot end a lexical environment during the print phase.") := by
  unfold endLexicalEnvironment
  simp only [Debug.assert, hguard]
  rfl

/-- The statement-by-statement run of `hoistVariableDeclaration` gives the result of
the closure, with the state of the call when it throws. -/
theorem stepwise_hoistVariableDeclaration (st : TransformState X) (name : String) :
    Stepwise.hoistVariableDeclaration st name =
      match hoistVariableDeclaration st name with
      | .ok (value, st') => (.ok value, st')
      | .error e => (.error e, st) := by
  rcases Bool.eq_false_or_eq_true st.lexicalEnvironmentDisabled with hguard | hguard
  · rw [hoistVariableDeclaration_guarded st name hguard]
    unfold Stepwise.hoistVariableDeclaration
    simp only [Debug.assert, hguard]
    rfl
  · rw [hoistVariableDeclaration_ok st name hguard]
    unfold Stepwise.hoistVariableDeclaration
    simp only [Debug.assert, hguard]
    cases st.hoistedVariableDeclarations <;> rfl

theorem stepwise_hoistFunctionDeclaration (st : TransformState X)
    (func : FunctionDeclaration) :
    Stepwise.hoistFunctionDeclaration st func =
      match hoistFunctionDeclaration st func with
      | .ok (value, st') => (.ok value, st')
      | .error e => (.error e, st) := by
  rcases Bool.eq_false_or_eq_true st.lexicalEnvironmentDisabled with hguard | hguard
  · rw [hoistFunctionDeclaration_guarded st func hguard]
    unfold Stepwise.hoistFunctionDeclaration
    simp only [Debug.assert, hguard]
    rfl
  · rw [hoistFunctionDeclaration_ok st func hguard]
    unfold Stepwise.hoistFunctionDeclaration
    simp only [Debug.assert, hguard]
    cases st.hoistedFunctionDeclarations <;> rfl

theorem stepwise_startLexicalEnvironment (st : TransformState X) :
    Stepwise.startLexicalEnvironment st =
      match startLexicalEnvironment st with
      | .ok (value, st') => (.ok value, st')
      | .error e => (.error e, st) := by
  rcases Bool.eq_false_or_eq_true st.lexicalEnvironmentDisabled with hguard | hguard
  · rw [startLexicalEnvironment_guarded st hguard]
    unfold Stepwise.startLexicalEnvironment
    simp only [Debug.assert, hguard]
    rfl
  · rw [startLexicalEnvironment_ok st hguard]
    unfold Stepwise.startLexicalEnvironment
    simp only [Debug.assert, hguard]
    rfl

theorem stepwise_endLexicalEnvironment (st : TransformState X) :
    Stepwise.endLexicalEnvironment st =
      match endLexicalEnvironment st with
      | .ok (value, st') => (.ok value, st')
      | .error e => (.error e, st) := by
  rcases Bool.eq_false_or_eq_true st.lexicalEnvironmentDisabled with hguard | hguard
  · rw [endLexicalEnvironment_guarded st hguard]
    unfold Stepwise.endLexicalEnvironment
    simp only [Debug.assert, hguard]
    rfl
  · rw [endLexicalEnvironment_ok st hguard]
    unfold Stepwise.endLexicalEnvironment
    simp only [Debug.assert, hguard]
    cases st.hoistedFunctionDeclarations <;> cases st.hoistedVariableDeclarations <;> rfl

end LexicalLemmas

/-- C15: lexical environments stack.  From any state with the guard unset, for all
sequences A and B of hoisting operations, the run start, A, start, B, end, end succeeds;
the first end returns the statements of exactly the declarations hoisted in B, the second
those of exactly the declarations hoisted in A, and after it the current hoisted
sequences and the stack offset are those of the state before the first start. -/
theorem lexicalEnvironment_stacking {X : Type} (st : TransformState X)
    (A B : List HoistOperation) (hguard : st.lexicalEnvironmentDisabled = false) :
    ∃ s1 s2 s3 s4 s5 s6,
      startLexicalEnvironment st = .ok ((), s1) ∧
      hoistAll s1 A = .ok s2 ∧
      startLexicalEnvironment s2 = .ok ((), s3) ∧
      hoistAll s3 B = .ok s4 ∧
      endLexicalEnvironment s4 =
        .ok (statementsOf (hoistedFunctions B) (hoistedVariables B), s5) ∧
      endLexicalEnvironment s5 =
        .ok (statementsOf (hoistedFunctions A) (hoistedVariables A), s6) ∧
      s6.hoistedVariableDeclarations = st.hoistedVariableDeclarations ∧
      s6.hoistedFunctionDeclarations = st.hoistedFunctionDeclarations ∧
      s6.lexicalEnvironmentStackOffset = st.lexicalEnvironmentStackOffset := by
  refine ⟨_, _, _, _, _, _, startLexicalEnvironment_ok st hguard, hoistAll_ok A _ ?_,
    startLexicalEnvironment_ok _ ?_, hoistAll_ok B _ ?_,
    (endLexicalEnvironment_ok _ ?_).trans
      (congrArg (fun statements => Except.ok (statements, _)) ?_),
    (endLexicalEnvironment_ok _ ?_).trans
      (congrArg (fun statements => Except.ok (statements, _)) ?_), ?_, ?_, ?_⟩
  · exact hguard
  · exact hguard
  · exact hguard
  · exact hguard
  · exact statements_of_frame (hoistedFunctions B) (hoistedVariables B)
  · exact hguard
  · dsimp only
    rw [add_sub_cancel_right, Function.update_same, Function.update_same]
    exact statements_of_frame (hoistedFunctions A) (hoistedVariables A)
  · show Function.update (Function.update _ st.lexicalEnvironmentStackOffset _)
      (st.lexicalEnvironmentStackOffset + 1) _
      (st.lexicalEnvironmentStackOffset + 1 + 1 - 1 - 1) = _
    rw [add_sub_cancel_right, add_sub_cancel_right,
      Function.update_noteq (by omega), Function.update_same]
  · show Function.update (Function.update _ st.lexicalEnvironmentStackOffset _)
      (st.lexicalEnvironmentStackOffset + 1) _
      (st.lexicalEnvironmentStackOffset + 1 + 1 - 1 - 1) = _
    rw [add_sub_cancel_right, add_sub_cancel_right,
      Function.update_noteq (by omega), Function.update_same]
  · show st.lexicalEnvironmentStackOffset + 1 + 1 - 1 - 1 = _
    rw [add_sub_cancel_right, add_sub_cancel_right]

/-- Witness of C15: start, hoist the variable a, start, hoist the function g; the inner
end returns only the declaration of g, the outer end only the variable statement of a,
and the state is back at offset 0 with nothing hoisted. -/
theorem lexicalEnvironment_stacking_witness :
    ∃ s1 s2 s3 s4 s5 s6 : TransformState Unit,
      startLexicalEnvironment emptyState = .ok ((), s1) ∧
      hoistAll s1 [.hoistVariable "a"] = .ok s2 ∧
      startLexicalEnvironment s2 = .ok ((), s3) ∧
      hoistAll s3 [.hoistFunction ⟨"g"⟩] = .ok s4 ∧
      endLexicalEnvironment s4 = .ok (some [Statement.functionDeclaration ⟨"g"⟩], s5) ∧
      endLexicalEnvironment s5 =
        .ok (some [Statement.variableStatement [createVariableDeclaration "a"]], s6) ∧
      s6.hoistedVariableDeclarations = none ∧
      s6.hoistedFunctionDeclarations = none ∧
      s6.lexicalEnvironmentStackOffset = 0 :=
  lexicalEnvironment_stacking emptyState [.hoistVariable "a"] [.hoistFunction ⟨"g"⟩] rfl

/-- C16: shape of the result of `endLexicalEnvironment`.  When the functions f1..fm and
the variables v1..vk were hoisted in the frame being ended, the result is f1, ..., fm,
each as its own statement in hoisting order, followed, only when k is at least 1, by one
variable statement listing the declarations of v1..vk in hoisting order; nothing is
returned when m = 0 and k = 0; the result has m + (1 if k ≥ 1 else 0) statements. -/
theorem endLexicalEnvironment_shape {X : Type} (st : TransformState X)
    (operations : List HoistOperation) (hguard : st.lexicalEnvironmentDisabled = false) :
    ∃ s1 s2 s3 statements,
      startLexicalEnvironment st = .ok ((), s1) ∧
      hoistAll s1 operations = .ok s2 ∧
      endLexicalEnvironment s2 = .ok (statements, s3) ∧
      (hoistedFunctions operations = [] → hoistedVariables operations = [] →
        statements = none) ∧
      (hoistedFunctions operations ≠ [] → hoistedVariables operations = [] →
        statements =
          some ((hoistedFunctions operations).map Statement.functionDeclaration)) ∧
      (hoistedVariables operations ≠ [] →
        statements =
          some ((hoistedFunctions operations).map Statement.functionDeclaration ++
            [Statement.variableStatement (hoistedVariables operations)])) ∧
      (statements.getD []).length =
        (hoistedFunctions operations).length +
          (if 1 ≤ (hoistedVariables operations).length then 1 else 0) := by
  obtain ⟨s1, s2, s3, h1, h2, h3, -⟩ := frame_run st operations hguard
  refine ⟨s1, s2, s3, _, h1, h2, h3, ?_, ?_, ?_, ?_⟩
  · intro hf hv
    simp [statementsOf, hf, hv]
  · intro hf hv
    simp [statementsOf, hf, hv]
  · intro hv
    simp [statementsOf, hv]
  · cases hf : hoistedFunctions operations <;> cases hv : hoistedVariables operations <;>
      simp [statementsOf]

/-- Witness of C16: hoisting the variable a, the function g and the variable b in one
frame gives two statements, the declaration of g and then the variable statement of a
and b. -/
theorem endLexicalEnvironment_shape_witness :
    ∃ s1 s2 s3 : TransformState Unit,
      startLexicalEnvironment emptyState = .ok ((), s1) ∧
      hoistAll s1 [.hoistVariable "a", .hoistFunction ⟨"g"⟩, .hoistVariable "b"] = .ok s2 ∧
      endLexicalEnvironment s2 =
        .ok (some [Statement.functionDeclaration ⟨"g"⟩,
          Statement.variableStatement [⟨"a"⟩, ⟨"b"⟩]], s3) := by
  obtain ⟨s1, s2, s3, statements, h1, h2, h3, -, -, h4, -⟩ :=
    endLexicalEnvironment_shape emptyState
      [.hoistVariable "a", .hoistFunction ⟨"g"⟩, .hoistVariable "b"] rfl
  exact ⟨s1, s2, s3, h1, h2, by rw [h3, h4 (by decide)]; rfl⟩

/-- Counterexample to C17: in the state `transformFiles` starts in, where no
`startLexicalEnvironment` is outstanding and the stack offset is 0,
`endLexicalEnvironment` does not fail: it returns nothing and leaves the offset at -1. -/
theorem endLexicalEnvironment_without_start_returns :
    emptyState.lexicalEnvironmentStackOffset = 0 ∧
    ∃ st', endLexicalEnvironment emptyState = .ok (none, st') ∧
      st'.lexicalEnvironmentStackOffset = -1 :=
  ⟨rfl, { emptyState with lexicalEnvironmentStackOffset := -1 }, rfl, rfl⟩

/-- C17, amended: `endLexicalEnvironment` at stack offset 0, with no
`startLexicalEnvironment` outstanding, fails only when the guard is set.  With the guard
unset it returns the statements of whatever is currently hoisted: nothing when neither
sequence is defined, otherwise the hoisted functions followed by one variable statement
of the hoisted declarations when that sequence is defined; it moves the offset to -1 and
takes the current hoisted sequences from slot -1 of the saved stacks, every other
component of the state staying as it was. -/
theorem endLexicalEnvironment_without_start {X : Type} (st : TransformState X)
    (hoffset : st.lexicalEnvironmentStackOffset = 0) :
    ((∃ e, endLexicalEnvironment st = .error e) ↔ st.lexicalEnvironmentDisabled = true) ∧
    (st.lexicalEnvironmentDisabled = false →
      endLexicalEnvironment st =
        .ok (match st.hoistedFunctionDeclarations, st.hoistedVariableDeclarations with
            | none, none => none
            | some functions, none => some (functions.map Statement.functionDeclaration)
            | none, some declarations => some [Statement.variableStatement declarations]
            | some functions, some declarations =>
              some (functions.map Statement.functionDeclaration ++
                [Statement.variableStatement declarations]),
          { st with
            lexicalEnvironmentStackOffset := -1
            hoistedVariableDeclarations :=
              st.lexicalEnvironmentVariableDeclarationsStack (-1)
            hoistedFunctionDeclarations :=
              st.lexicalEnvironmentFunctionDeclarationsStack (-1) })) := by
  have hok : st.lexicalEnvironmentDisabled = false →
      endLexicalEnvironment st =
        .ok (match st.hoistedFunctionDeclarations, st.hoistedVariableDeclarations with
            | none, none => none
            | some functions, none => some (functions.map Statement.functionDeclaration)
            | none, some declarations => some [Statement.variableStatement declarations]
            | some functions, some declarations =>
              some (functions.map Statement.functionDeclaration ++
                [Statement.variableStatement declarations]),
          { st with
            lexicalEnvironmentStackOffset := -1
            hoistedVariableDeclarations :=
              st.lexicalEnvironmentVariableDeclarationsStack (-1)
            hoistedFunctionDeclarations :=
              st.lexicalEnvironmentFunctionDeclarationsStack (-1) }) := by
    intro hguard
    rw [endLexicalEnvironment_ok st hguard, hoffset]
    rfl
  refine ⟨?_, hok⟩
  rcases Bool.eq_false_or_eq_true st.lexicalEnvironmentDisabled with hguard | hguard
  · rw [endLexicalEnvironment_guarded st hguard]
    simp [hguard]
  · rw [hok hguard]
    simp [hguard]

/-- Witness of the amended C17: with the variable `a` hoisted and no start outstanding,
`endLexicalEnvironment` returns the one variable statement of `a`, the offset is -1
afterwards and nothing is hoisted. -/
theorem endLexicalEnvironment_without_start_witness :
    endLexicalEnvironment hoistedState =
      .ok (some [Statement.variableStatement [createVariableDeclaration "a"]],
        { hoistedState with
          lexicalEnvironmentStackOffset := -1
          hoistedVariableDeclarations := none
          hoistedFunctionDeclarations := none }) :=
  (endLexicalEnvironment_without_start hoistedState rfl).2 rfl

/-- C18: `hoistVariableDeclaration`, `hoistFunctionDeclaration`,
`startLexicalEnvironment` and `endLexicalEnvironment` each fail if and only if the guard
`lexicalEnvironmentDisabled` is set at the call.  Run statement by statement, each of
them gives the same result, and a failing call leaves the state in which it was called:
the hoisted sequences, the saved stacks, the offset and everything else are unchanged.
With the guard unset, `hoistVariableDeclaration` appends exactly one declaration of the
name to the current variable sequence and `hoistFunctionDeclaration` appends the function
to the current function sequence; every other component of the state, the other
sequence, the saved stacks and the offset included, is unchanged. -/
theorem lexicalEnvironment_calls_fail_iff_guard {X : Type} (st : TransformState X)
    (name : String) (func : FunctionDeclaration) :
    ((∃ e, hoistVariableDeclaration st name = .error e) ↔
      st.lexicalEnvironmentDisabled = true) ∧
    ((∃ e, hoistFunctionDeclaration st func = .error e) ↔
      st.lexicalEnvironmentDisabled = true) ∧
    ((∃ e, startLexicalEnvironment st = .error e) ↔
      st.lexicalEnvironmentDisabled = true) ∧
    ((∃ e, endLexicalEnvironment st = .error e) ↔
      st.lexicalEnvironmentDisabled = true) ∧
    ((Stepwise.hoistVariableDeclaration st name).1 =
        (hoistVariableDeclaration st name).map Prod.fst ∧
      (Stepwise.hoistFunctionDeclaration st func).1 =
        (hoistFunctionDeclaration st func).map Prod.fst ∧
      (Stepwise.startLexicalEnvironment st).1 =
        (startLexicalEnvironment st).map Prod.fst ∧
      (Stepwise.endLexicalEnvironment st).1 =
        (endLexicalEnvironment st).map Prod.fst) ∧
    (∀ st', (hoistVariableDeclaration st name).map Prod.snd = .ok st' →
        (Stepwise.hoistVariableDeclaration st name).2 = st') ∧
    (∀ st', (hoistFunctionDeclaration st func).map Prod.snd = .ok st' →
        (Stepwise.hoistFunctionDeclaration st func).2 = st') ∧
    (∀ st', (startLexicalEnvironment st).map Prod.snd = .ok st' →
        (Stepwise.startLexicalEnvironment st).2 = st') ∧
    (∀ st', (endLexicalEnvironment st).map Prod.snd = .ok st' →
        (Stepwise.endLexicalEnvironment st).2 = st') ∧
    (st.lexicalEnvironmentDisabled = true →
      Stepwise.hoistVariableDeclaration st name =
        (.error ("Debug Failure. False expression: " ++
          "Cannot modify the lexical environment during the print phase."), st) ∧
      Stepwise.hoistFunctionDeclaration st func =
        (.error ("Debug Failure. False expression: " ++
          "Cannot modify the lexical environment during the print phase."), st) ∧
      Stepwise.startLexicalEnvironment st =
        (.error ("Debug Failure. False expression: " ++
          "Cannot start a lexical environment during the print phase."), st) ∧
      Stepwise.endLexicalEnvironment st =
        (.error ("Debug Failure. False expression: " ++
          "Cannot end a lexical environment during the print phase."), st)) ∧
    (st.lexicalEnvironmentDisabled = false →
      hoistVariableDeclaration st name =
        .ok ((), { st with
          hoistedVariableDeclarations :=
            some (st.hoistedVariableDeclarations.getD [] ++
              [createVariableDeclaration name]) })) ∧
    (st.lexicalEnvironmentDisabled = false →
      hoistFunctionDeclaration st func =
        .ok ((), { st with
          hoistedFunctionDeclarations :=
            some (st.hoistedFunctionDeclarations.getD [] ++ [func]) })) := by
  have sv := stepwise_hoistVariableDeclaration st name
  have sf := stepwise_hoistFunctionDeclaration st func
  have ss := stepwise_startLexicalEnvironment st
  have se := stepwise_endLexicalEnvironment st
  rcases Bool.eq_false_or_eq_true st.lexicalEnvironmentDisabled with hguard | hguard
  swap
  · have hv := hoistVariableDeclaration_ok st name hguard
    have hf := hoistFunctionDeclaration_ok st func hguard
    have hs := startLexicalEnvironment_ok st hguard
    have he := endLexicalEnvironment_ok st hguard
    rw [hv] at sv
    rw [hf] at sf
    rw [hs] at ss
    rw [he] at se
    refine ⟨?_, ?_, ?_, ?_, ⟨?_, ?_, ?_, ?_⟩, ?_, ?_, ?_, ?_, ?_, fun _ => hv, fun _ => hf⟩
    · rw [hv]; simp [hguard]
    · rw [hf]; simp [hguard]
    · rw [hs]; simp [hguard]
    · rw [he]; simp [hguard]
    · rw [sv, hv]; rfl
    · rw [sf, hf]; rfl
    · rw [ss, hs]; rfl
    · rw [se, he]; rfl
    · intro st' h
      rw [hv] at h
      rw [sv]
      exact Except.ok.inj h
    · intro st' h
      rw [hf] at h
      rw [sf]
      exact Except.ok.inj h
    · intro st' h
      rw [hs] at h
      rw [ss]
      exact Except.ok.inj h
    · intro st' h
      rw [he] at h
      rw [se]
      exact Except.ok.inj h
    · intro h; rw [hguard] at h; cases h
  · have hv := hoistVariableDeclaration_guarded st name hguard
    have hf := hoistFunctionDeclaration_guarded st func hguard
    have hs := startLexicalEnvironment_guarded st hguard
    have he := endLexicalEnvironment_guarded st hguard
    rw [hv] at sv
    rw [hf] at sf
    rw [hs] at ss
    rw [he] at se
    refine ⟨?_, ?_, ?_, ?_, ⟨?_, ?_, ?_, ?_⟩, ?_, ?_, ?_, ?_, fun _ => ⟨sv, sf, ss, se⟩,
      ?_, ?_⟩
    · rw [hv]; simp [hguard]
    · rw [hf]; simp [hguard]
    · rw [hs]; simp [hguard]
    · rw [he]; simp [hguard]
    · rw [sv, hv]; rfl
    · rw [sf, hf]; rfl
    · rw [ss, hs]; rfl
    · rw [se, he]; rfl
    · intro st' h; rw [hv] at h; cases h
    · intro st' h; rw [hf] at h; cases h
    · intro st' h; rw [hs] at h; cases h
    · intro st' h; rw [he] at h; cases h
    · intro h; rw [hguard] at h; cases h
    · intro h; rw [hguard] at h; cases h

/-- Witness of C18: with the guard set hoisting the variable a fails and leaves the
state of the call; in the state `transformFiles` starts in it succeeds and the current
variable sequence is the one declaration of a. -/
theorem lexicalEnvironment_calls_fail_iff_guard_witness :
    (∃ e, hoistVariableDeclaration guardedState "a" = .error e) ∧
    Stepwise.startLexicalEnvironment guardedState =
      (.error ("Debug Failure. False expression: " ++
        "Cannot start a lexical environment during the print phase."), guardedState) ∧
    hoistVariableDeclaration emptyState "a" =
      .ok ((), { emptyState with
        hoistedVariableDeclarations := some [createVariableDeclaration "a"] }) :=
  ⟨(lexicalEnvironment_calls_fail_iff_guard guardedState "a" ⟨"g"⟩).1.2 rfl,
    ((lexicalEnvironment_calls_fail_iff_guard guardedState "a" ⟨"g"⟩).2.2.2.2.2.2.2.2.2.1
      rfl).2.2.1,
    (lexicalEnvironment_calls_fail_iff_guard emptyState "a" ⟨"g"⟩).2.2.2.2.2.2.2.2.2.2.1
      rfl⟩

/-! ## The emit hook -/

section EmitLemmas
variable {X : Type}

theorem onEmitNode_outermost (node : Node) (emit : Node → Eff X Unit)
    (st : TransformState X) (hguard : st.lexicalEnvironmentDisabled = false) :
    onEmitNode node emit st =
      match emit node { st with lexicalEnvironmentDisabled := true } with
      | .error e => .error e
      | .ok (_, st') => .ok ((), { st' with lexicalEnvironmentDisabled := false }) := by
  unfold onEmitNode
  simp only [hguard, Bool.not_false, if_true]

theorem onEmitNode_nested (node : Node) (emit : Node → Eff X Unit)
    (st : TransformState X) (hguard : st.lexicalEnvironmentDisabled = true) :
    onEmitNode node emit st = emit node st := by
  unfold onEmitNode
  simp only [hguard, Bool.not_true, Bool.false_eq_true, if_false]

/-- A callback that fails whenever the guard is set fails inside `onEmitNode`. -/
theorem onEmitNode_fails (node : Node) (call : Node → Eff X Unit) (st : TransformState X)
    (hfail : ∀ (n : Node) (s : TransformState X), s.lexicalEnvironmentDisabled = true →
      ∃ e, call n s = .error e) :
    ∃ e, onEmitNode node call st = .error e := by
  rcases Bool.eq_false_or_eq_true st.lexicalEnvironmentDisabled with hguard | hguard
  · rw [onEmitNode_nested node call st hguard]
    exact hfail node st hguard
  · rw [onEmitNode_outermost node call st hguard]
    obtain ⟨e, he⟩ := hfail node { st with lexicalEnvironmentDisabled := true } rfl
    exact ⟨e, by rw [he]⟩

theorem hoistVariableDeclaration_error (st : TransformState X) (name : String)
    (hguard : st.lexicalEnvironmentDisabled = true) :
    ∃ e, hoistVariableDeclaration st name = .error e := by
  unfold hoistVariableDeclaration
  simp only [Debug.assert, hguard]
  exact ⟨_, rfl⟩

theorem hoistFunctionDeclaration_error (st : TransformState X) (func : FunctionDeclaration)
    (hguard : st.lexicalEnvironmentDisabled = true) :
    ∃ e, hoistFunctionDeclaration st func = .error e := by
  unfold hoistFunctionDeclaration
  simp only [Debug.assert, hguard]
  exact ⟨_, rfl⟩

theorem startLexicalEnvironment_error (st : TransformState X)
    (hguard : st.lexicalEnvironmentDisabled = true) :
    ∃ e, startLexicalEnvironment st = .error e := by
  unfold startLexicalEnvironment
  simp only [Debug.assert, hguard]
  exact ⟨_, rfl⟩

theorem endLexicalEnvironment_error (st : TransformState X)
    (hguard : st.lexicalEnvironmentDisabled = true) :
    ∃ e, endLexicalEnvironment st = .error e := by
  unfold endLexicalEnvironment
  simp only [Debug.assert, hguard]
  exact ⟨_, rfl⟩

theorem loggingEmit_keepsGuard : KeepsGuard loggingEmit := by
  intro node st st' hguard h
  simp only [loggingEmit, Except.ok.injEq, Prod.mk.injEq, true_and] at h
  rw [← h]
  exact hguard

end EmitLemmas

/-- C19: the default `onEmitNode(node, emit)`.  The callback is invoked exactly once,
with that node, in a state in which the guard `lexicalEnvironmentDisabled` is set, so a
hoist, a start or an end attempted inside it fails.  When the callback returns normally
the guard holds the value it had before the call: false after an outermost notification,
and true after a nested one whenever the callback keeps the guard set, which a callback
made of nested notifications does. -/
theorem onEmitNode_guard {X : Type} (node : Node) (emit : Node → Eff X Unit)
    (st : TransformState X) :
    (st.lexicalEnvironmentDisabled = false →
      onEmitNode node emit st =
        match emit node { st with lexicalEnvironmentDisabled := true } with
        | .error e => .error e
        | .ok (_, st') => .ok ((), { st' with lexicalEnvironmentDisabled := false })) ∧
    (st.lexicalEnvironmentDisabled = true → onEmitNode node emit st = emit node st) ∧
    (∀ st', onEmitNode node emit st = .ok ((), st') →
      st.lexicalEnvironmentDisabled = false → st'.lexicalEnvironmentDisabled = false) ∧
    (∀ st', onEmitNode node emit st = .ok ((), st') → KeepsGuard emit →
      st.lexicalEnvironmentDisabled = true → st'.lexicalEnvironmentDisabled = true) ∧
    (KeepsGuard emit → KeepsGuard (fun inner => onEmitNode inner emit)) ∧
    (∀ name, ∃ e,
      onEmitNode node (fun _ s => hoistVariableDeclaration s name) st = .error e) ∧
    (∀ func, ∃ e,
      onEmitNode node (fun _ s => hoistFunctionDeclaration s func) st = .error e) ∧
    (∃ e, onEmitNode node (fun _ s => startLexicalEnvironment s) st = .error e) ∧
    (∃ e, onEmitNode node
      (fun _ s => (endLexicalEnvironment s).map (fun result => ((), result.2))) st =
        .error e) := by
  refine ⟨onEmitNode_outermost node emit st, onEmitNode_nested node emit st, ?_, ?_, ?_,
    ?_, ?_, ?_, ?_⟩
  · intro st' h hguard
    rw [onEmitNode_outermost node emit st hguard] at h
    cases hemit : emit node { st with lexicalEnvironmentDisabled := true } with
    | error e => rw [hemit] at h; cases h
    | ok result =>
      rw [hemit] at h
      simp only [Except.ok.injEq, Prod.mk.injEq, true_and] at h
      rw [← h]
  · intro st' h hkeeps hguard
    rw [onEmitNode_nested node emit st hguard] at h
    exact hkeeps node st st' hguard h
  · intro hkeeps inner s s' hguard h
    have h : onEmitNode inner emit s = .ok ((), s') := h
    rw [onEmitNode_nested inner emit s hguard] at h
    exact hkeeps inner s s' hguard h
  · intro name
    exact onEmitNode_fails node _ st (fun _ s hs => hoistVariableDeclaration_error s name hs)
  · intro func
    exact onEmitNode_fails node _ st (fun _ s hs => hoistFunctionDeclaration_error s func hs)
  · exact onEmitNode_fails node _ st (fun _ s hs => startLexicalEnvironment_error s hs)
  · refine onEmitNode_fails node _ st (fun _ s hs => ?_)
    obtain ⟨e, he⟩ := endLexicalEnvironment_error s hs
    exact ⟨e, by rw [he]; rfl⟩

/-- Witness of C19: an outermost notification of the logging callback invokes it once,
with the node and the guard set, and leaves the guard unset; a notification nested in a
state with the guard set leaves it set. -/
theorem onEmitNode_guard_witness :
    onEmitNode exampleOriginal loggingEmit (emptyStateWith []) =
      .ok ((), emptyStateWith [(1, true)]) ∧
    (onEmitNode exampleOriginal loggingEmit
        { emptyStateWith [] with lexicalEnvironmentDisabled := true } =
      .ok ((), { emptyStateWith [(1, true)] with lexicalEnvironmentDisabled := true }) ∧
      ({ emptyStateWith [(1, true)] with lexicalEnvironmentDisabled := true } :
        TransformState (List (Nat × Bool))).lexicalEnvironmentDisabled = true) :=
  ⟨(onEmitNode_guard exampleOriginal loggingEmit (emptyStateWith [])).1 rfl,
    rfl,
    (onEmitNode_guard exampleOriginal loggingEmit
      { emptyStateWith [] with lexicalEnvironmentDisabled := true }).2.2.2.1 _ rfl
      loggingEmit_keepsGuard rfl⟩

/-! ## The feature table -/

section FeatureLemmas
variable {X : Type}

theorem or_mask_and_other (flags mask other : Nat) (h : mask &&& other = 0) :
    (flags ||| mask) &&& other = flags &&& other := by
  apply Nat.eq_of_testBit_eq
  intro i
  have hi : (mask &&& other).testBit i = false := by rw [h]; exact Nat.zero_testBit i
  rw [Nat.testBit_and] at hi
  rw [Nat.testBit_and, Nat.testBit_or, Nat.testBit_and]
  cases flags.testBit i <;> cases hm : mask.testBit i <;> cases ho : other.testBit i <;>
    simp_all

theorem or_mask_or_mask (flags mask : Nat) : (flags ||| mask) ||| mask = flags ||| mask := by
  rw [Nat.or_assoc, Nat.or_self]

theorem testBit_or_mask (flags mask i : Nat) (h : flags.testBit i = true) :
    (flags ||| mask).testBit i = true := by
  rw [Nat.testBit_or, h, Bool.true_or]

theorem enableSubstitution_features (st : TransformState X) (K kind : Nat) :
    (enableSubstitution st K).enabledSyntaxKindFeatures kind =
      if kind = K then
        st.enabledSyntaxKindFeatures kind ||| SyntaxKindFeatureFlags.Substitution
      else st.enabledSyntaxKindFeatures kind := by
  show Function.update _ _ _ _ = _
  by_cases h : kind = K
  · rw [if_pos h, h, Function.update_same]
  · rw [if_neg h, Function.update_noteq h]

theorem enableEmitNotification_features (st : TransformState X) (K kind : Nat) :
    (enableEmitNotification st K).enabledSyntaxKindFeatures kind =
      if kind = K then
        st.enabledSyntaxKindFeatures kind ||| SyntaxKindFeatureFlags.EmitNotifications
      else st.enabledSyntaxKindFeatures kind := by
  show Function.update _ _ _ _ = _
  by_cases h : kind = K
  · rw [if_pos h, h, Function.update_same]
  · rw [if_neg h, Function.update_noteq h]

end FeatureLemmas

/-- C20: the feature table.  In the state `transformFiles` starts in,
`isSubstitutionEnabled` and the kind-level emit-notification bit are false for every
kind.  After `enableSubstitution(K)`, `isSubstitutionEnabled` is true for every node of
kind K, the substitution interest of every other kind and the emit-notification bit of
every kind are unchanged; symmetrically for `enableEmitNotification(K)`.  Enabling twice
is enabling once, and enabling never clears a bit of the table. -/
theorem feature_table {X : Type} (st : TransformState X) (K : Nat) :
    (∀ n, isSubstitutionEnabled (declareVariables st) n = false) ∧
    (∀ kind, emitNotificationBit (declareVariables st) kind = false) ∧
    (∀ n, n.kind = K → isSubstitutionEnabled (enableSubstitution st K) n = true) ∧
    (∀ n, n.kind ≠ K →
      isSubstitutionEnabled (enableSubstitution st K) n = isSubstitutionEnabled st n) ∧
    (∀ kind, emitNotificationBit (enableSubstitution st K) kind =
      emitNotificationBit st kind) ∧
    (emitNotificationBit (enableEmitNotification st K) K = true) ∧
    (∀ F n, n.kind = K →
      (isEmitNotificationEnabled F (enableEmitNotification st K) n).1 = true) ∧
    (∀ kind, kind ≠ K →
      emitNotificationBit (enableEmitNotification st K) kind =
        emitNotificationBit st kind) ∧
    (∀ n, isSubstitutionEnabled (enableEmitNotification st K) n =
      isSubstitutionEnabled st n) ∧
    enableSubstitution (enableSubstitution st K) K = enableSubstitution st K ∧
    enableEmitNotification (enableEmitNotification st K) K =
      enableEmitNotification st K ∧
    (∀ kind i, (st.enabledSyntaxKindFeatures kind).testBit i = true →
      ((enableSubstitution st K).enabledSyntaxKindFeatures kind).testBit i = true) ∧
    (∀ kind i, (st.enabledSyntaxKindFeatures kind).testBit i = true →
      ((enableEmitNotification st K).enabledSyntaxKindFeatures kind).testBit i = true) := by
  have hbit : emitNotificationBit (enableEmitNotification st K) K = true := by
    unfold emitNotificationBit
    rw [enableEmitNotification_features, if_pos rfl, or_mask_and_mask]
    decide
  refine ⟨?_, ?_, ?_, ?_, ?_, hbit, ?_, ?_, ?_, ?_, ?_, ?_, ?_⟩
  · intro n
    show ((0 : Nat) &&& SyntaxKindFeatureFlags.Substitution != 0) = false
    decide
  · intro kind
    show ((0 : Nat) &&& SyntaxKindFeatureFlags.EmitNotifications != 0) = false
    decide
  · intro n hn
    rw [← hn]
    exact isSubstitutionEnabled_enableSubstitution st n
  · intro n hn
    unfold isSubstitutionEnabled
    rw [enableSubstitution_features, if_neg hn]
  · intro kind
    unfold emitNotificationBit
    rw [enableSubstitution_features]
    split
    · rw [or_mask_and_other _ _ _ (by decide)]
    · rfl
  · intro F n hn
    unfold isEmitNotificationEnabled
    have hbit' : ((enableEmitNotification st K).enabledSyntaxKindFeatures n.kind &&&
        SyntaxKindFeatureFlags.EmitNotifications != 0) = true := by
      rw [hn]; exact hbit
    rw [if_pos hbit']
  · intro kind hkind
    unfold emitNotificationBit
    rw [enableEmitNotification_features, if_neg hkind]
  · intro n
    unfold isSubstitutionEnabled
    rw [enableEmitNotification_features]
    split
    · rw [or_mask_and_other _ _ _ (by decide)]
    · rfl
  · unfold enableSubstitution
    simp only [Function.update_same, Function.update_idem, or_mask_or_mask]
  · unfold enableEmitNotification
    simp only [Function.update_same, Function.update_idem, or_mask_or_mask]
  · intro kind i h
    rw [enableSubstitution_features]
    split
    · exact testBit_or_mask _ _ _ h
    · exact h
  · intro kind i h
    rw [enableEmitNotification_features]
    split
    · exact testBit_or_mask _ _ _ h
    · exact h

/-- Witness of C20: from the empty table, enabling substitution for kind 70 makes
`isSubstitutionEnabled` true for a node of kind 70 and leaves a node of kind 71 as it
was. -/
theorem feature_table_witness :
    isSubstitutionEnabled (enableSubstitution emptyState 70) exampleOriginal = true ∧
    isSubstitutionEnabled (enableSubstitution emptyState 70) (.mk 9 71 true false none) =
      isSubstitutionEnabled emptyState (.mk 9 71 true false none) ∧
    emitNotificationBit (enableEmitNotification emptyState 70) 71 =
      emitNotificationBit emptyState 71 :=
  ⟨(feature_table emptyState 70).2.2.1 exampleOriginal rfl,
    (feature_table emptyState 70).2.2.2.1 (.mk 9 71 true false none) (by decide),
    (feature_table emptyState 70).2.2.2.2.2.2.2.1 71 (by decide)⟩

/-! ## Emit notifications of single nodes -/

section NotificationLemmas
variable {X : Type}

theorem recordedFlags_eq (st : TransformState X) (node : Node) :
    recordedFlags st node = (recordAt st (location node)).bind (fun options => options.flags) := by
  unfold recordedFlags
  rw [getEmitOptions_fst]

theorem recordAt_setNodeEmitFlags (F : NodeEmitFlags) (st : TransformState X) (node : Node)
    (flags : Nat) (place : Bool × Nat) (hplace : place ≠ location node) :
    recordAt (setNodeEmitFlags F st node flags).2 place = recordAt st place := by
  unfold setNodeEmitFlags
  simp only
  rw [recordAt_assignEmitOptions, if_neg hplace, recordAt_getEmitOptions_create,
    if_neg hplace]

theorem features_assignEmitOptions (st : TransformState X) (node : Node)
    (update : NodeEmitOptions → NodeEmitOptions) :
    (assignEmitOptions st node update).enabledSyntaxKindFeatures =
      st.enabledSyntaxKindFeatures := by
  unfold assignEmitOptions
  split <;> rfl

theorem features_getEmitOptions (st : TransformState X) (node : Node) (create : Bool) :
    (getEmitOptions st node create).2.enabledSyntaxKindFeatures =
      st.enabledSyntaxKindFeatures := by
  unfold getEmitOptions
  simp only
  split_ifs <;> rfl

theorem features_setNodeEmitFlags (F : NodeEmitFlags) (st : TransformState X) (node : Node)
    (flags : Nat) :
    (setNodeEmitFlags F st node flags).2.enabledSyntaxKindFeatures =
      st.enabledSyntaxKindFeatures := by
  unfold setNodeEmitFlags
  simp only
  rw [features_assignEmitOptions, features_getEmitOptions]

theorem features_getNodeEmitFlags (F : NodeEmitFlags) (st : TransformState X) :
    ∀ node : Node, (getNodeEmitFlags F st node).2.enabledSyntaxKindFeatures =
      st.enabledSyntaxKindFeatures
  | .mk id kind sourceTree declarationFile none => by
    simp only [getNodeEmitFlags]
    cases ((getEmitOptions st (Node.mk id kind sourceTree declarationFile none) false).1).bind
        (fun options => options.flags) with
    | none => rfl
    | some flags =>
      simp only
      split_ifs
      · exact features_assignEmitOptions _ _ _
      · rfl
  | .mk id kind sourceTree declarationFile (some next) => by
    have ih := features_getNodeEmitFlags F st next
    simp only [getNodeEmitFlags]
    cases ((getEmitOptions st (Node.mk id kind sourceTree declarationFile (some next))
        false).1).bind (fun options => options.flags) with
    | none => exact ih
    | some flags =>
      simp only
      split_ifs
      · exact (features_assignEmitOptions _ _ _).trans ih
      · rfl

/-- The reference get-flags depends only on what is recorded for the node and for the
nodes on its chain of originals. -/
theorem getFlagsReference_congr (F : NodeEmitFlags) (st st' : TransformState X) :
    ∀ node : Node,
      (∀ m, m ∈ node :: originals node → recordedFlags st' m = recordedFlags st m) →
      getFlagsReference F st' node = getFlagsReference F st node
  | .mk id kind sourceTree declarationFile none => by
    intro h
    have h0 := h (.mk id kind sourceTree declarationFile none) (List.mem_cons_self _ _)
    simp only [getFlagsReference, h0]
  | .mk id kind sourceTree declarationFile (some next) => by
    intro h
    have h0 := h (.mk id kind sourceTree declarationFile (some next)) (List.mem_cons_self _ _)
    have ih := getFlagsReference_congr F st st' next (fun m hm =>
      h m (List.mem_cons_of_mem _ (by simpa only [originals] using hm)))
    simp only [getFlagsReference, h0, ih]

theorem isEmitNotificationEnabled_fst (F : NodeEmitFlags) (st : TransformState X)
    (node : Node) :
    (isEmitNotificationEnabled F st node).1 =
      (emitNotificationBit st node.kind ||
        ((getFlagsReference F st node).getD 0 &&& F.AdviseOnEmitNode != 0)) := by
  unfold isEmitNotificationEnabled emitNotificationBit
  rw [← getNodeEmitFlags_fst]
  split <;> rename_i h
  · rw [h, Bool.true_or]
  · rw [Bool.not_eq_true] at h
    rw [h, Bool.false_or]

end NotificationLemmas

/-- C21: for every node n, `isEmitNotificationEnabled(n)` is true if and only if the
EmitNotifications bit is set in the feature table for the kind of n or the flags
`getNodeEmitFlags(n)` reports include the AdviseOnEmitNode marker; the test leaves the
feature table as it is.  So after `setNodeEmitFlags(n, flags)` with the marker in
`flags` the node n is reported enabled and the feature table is unchanged, and every
other node whose chain of originals does not pass through n, of the same kind or not,
is reported as before: a node that was disabled stays disabled. -/
theorem isEmitNotificationEnabled_iff {X : Type} (F : NodeEmitFlags)
    (st : TransformState X) (n : Node) :
    ((isEmitNotificationEnabled F st n).1 = true ↔
      emitNotificationBit st n.kind = true ∨
        (getNodeEmitFlags F st n).1.getD 0 &&& F.AdviseOnEmitNode ≠ 0) ∧
    (isEmitNotificationEnabled F st n).2.enabledSyntaxKindFeatures =
      st.enabledSyntaxKindFeatures ∧
    (∀ flags, flags &&& F.AdviseOnEmitNode ≠ 0 → flags &&& F.Merge = 0 →
      (isEmitNotificationEnabled F (setNodeEmitFlags F st n flags).2 n).1 = true ∧
      (setNodeEmitFlags F st n flags).2.enabledSyntaxKindFeatures =
        st.enabledSyntaxKindFeatures ∧
      ∀ other, (∀ m, m ∈ other :: originals other → location m ≠ location n) →
        (isEmitNotificationEnabled F (setNodeEmitFlags F st n flags).2 other).1 =
          (isEmitNotificationEnabled F st other).1) := by
  refine ⟨?_, ?_, ?_⟩
  · rw [isEmitNotificationEnabled_fst, getNodeEmitFlags_fst, Bool.or_eq_true]
    simp only [bne_iff_ne, ne_eq]
  · unfold isEmitNotificationEnabled
    split
    · rfl
    · exact features_getNodeEmitFlags F st n
  · intro flags hadvise hmerge
    refine ⟨?_, features_setNodeEmitFlags F st n flags, ?_⟩
    · rw [isEmitNotificationEnabled_fst, ← getNodeEmitFlags_fst]
      have hrec : recordedFlags (setNodeEmitFlags F st n flags).2 n = some flags := by
        rw [recordedFlags_setNodeEmitFlags, if_neg (by simpa using hmerge)]
      rw [getNodeEmitFlags_of_recorded F _ n flags hrec hmerge, Bool.or_eq_true]
      right
      simpa using hadvise
    · intro other hchain
      rw [isEmitNotificationEnabled_fst, isEmitNotificationEnabled_fst]
      have hflags : getFlagsReference F (setNodeEmitFlags F st n flags).2 other =
          getFlagsReference F st other := by
        apply getFlagsReference_congr
        intro m hm
        rw [recordedFlags_eq, recordedFlags_eq,
          recordAt_setNodeEmitFlags F st n flags _ (hchain m hm)]
      have hbit : emitNotificationBit (setNodeEmitFlags F st n flags).2 other.kind =
          emitNotificationBit st other.kind := by
        unfold emitNotificationBit
        rw [features_setNodeEmitFlags]
      rw [hflags, hbit]

/-- Witness of C21: in the state `transformFiles` starts in, after the marker (8) is
set on the example node of kind 70, that node is reported enabled, the bit of kind 70 in
the feature table is still unset, and another node of kind 70 is reported disabled. -/
theorem isEmitNotificationEnabled_iff_witness :
    (isEmitNotificationEnabled exampleFlags
      (setNodeEmitFlags exampleFlags emptyState exampleOriginal 8).2 exampleOriginal).1 =
        true ∧
    emitNotificationBit (setNodeEmitFlags exampleFlags emptyState exampleOriginal 8).2 70 =
      false ∧
    (isEmitNotificationEnabled exampleFlags
      (setNodeEmitFlags exampleFlags emptyState exampleOriginal 8).2
      (.mk 9 70 true false none)).1 = false :=
  ⟨((isEmitNotificationEnabled_iff exampleFlags emptyState exampleOriginal).2.2 8
      (by decide) (by decide)).1,
    by decide,
    (((isEmitNotificationEnabled_iff exampleFlags emptyState exampleOriginal).2.2 8
      (by decide) (by decide)).2.2 (.mk 9 70 true false none)
      (by
        intro m hm
        simp only [originals, List.mem_singleton] at hm
        subst hm
        decide)).trans (by decide)⟩

/-! ## The merge marker -/

section MergeLemmas
variable {X : Type}

theorem or_and_mask_eq_zero (left right mask : Nat) (hl : left &&& mask = 0)
    (hr : right &&& mask = 0) : (left ||| right) &&& mask = 0 := by
  apply Nat.eq_of_testBit_eq
  intro i
  have hli : (left &&& mask).testBit i = false := by rw [hl]; exact Nat.zero_testBit i
  have hri : (right &&& mask).testBit i = false := by rw [hr]; exact Nat.zero_testBit i
  rw [Nat.testBit_and] at hli hri
  rw [Nat.testBit_and, Nat.testBit_or, Nat.zero_testBit]
  cases h1 : left.testBit i <;> cases h2 : right.testBit i <;> cases h3 : mask.testBit i <;>
    simp_all

theorem mergeFree_recorded (F : NodeEmitFlags) (st : TransformState X)
    (hfree : MergeFree F st) (node : Node) (flags : Nat)
    (hrec : recordedFlags st node = some flags) : flags &&& F.Merge = 0 := by
  rw [recordedFlags_eq] at hrec
  cases hr : recordAt st (location node) with
  | none => rw [hr] at hrec; cases hrec
  | some options =>
    rw [hr] at hrec
    exact hfree (location node) options flags hr hrec

theorem mergeFree_of_empty (F : NodeEmitFlags) (st : TransformState X)
    (hempty : ∀ place, recordAt st place = none) : MergeFree F st := by
  intro place options flags hrec
  rw [hempty place] at hrec
  cases hrec

/-- The flags `setNodeEmitFlags` stores never contain the merge marker when no record
did before. -/
theorem mergeFree_setNodeEmitFlags (F : NodeEmitFlags) (st : TransformState X)
    (node : Node) (flags : Nat) (hfree : MergeFree F st) :
    MergeFree F (setNodeEmitFlags F st node flags).2 := by
  intro place options stored hrec hstored
  by_cases hplace : place = location node
  · have hnew := recordedFlags_setNodeEmitFlags F st node flags
    rw [recordedFlags_eq, ← hplace, hrec] at hnew
    have hnew : options.flags = _ := hnew
    rw [hstored, Option.some.injEq] at hnew
    rw [hnew]
    split_ifs with hm
    · apply or_and_mask_eq_zero _ _ _ _ (clearFlags_and_mask _ _)
      cases hown : recordedFlags st node with
      | none => exact Nat.zero_and _
      | some own => exact mergeFree_recorded F st hfree node own hown
    · simpa using hm
  · rw [recordAt_setNodeEmitFlags F st node flags place hplace] at hrec
    exact hfree place options stored hrec hstored

theorem mergeFree_setNodeEmitFlagsAll (F : NodeEmitFlags) :
    ∀ (calls : List (Node × Nat)) (st : TransformState X), MergeFree F st →
      MergeFree F (setNodeEmitFlagsAll F st calls)
  | [], _, hfree => hfree
  | call :: rest, st, hfree =>
    mergeFree_setNodeEmitFlagsAll F rest _
      (mergeFree_setNodeEmitFlags F st call.1 call.2 hfree)

/-- Without a merge marker in any record, `getNodeEmitFlags` is the lookup of the
nearest recorded flags on the chain of originals and leaves the state as it is. -/
theorem getNodeEmitFlags_of_mergeFree (F : NodeEmitFlags) (st : TransformState X)
    (hfree : MergeFree F st) :
    ∀ node : Node, getNodeEmitFlags F st node =
      ((node :: originals node).findSome? (recordedFlags st), st)
  | .mk id kind sourceTree declarationFile none => by
    simp only [getNodeEmitFlags, originals, List.findSome?_cons, List.findSome?_nil]
    cases h : recordedFlags st (.mk id kind sourceTree declarationFile none) with
    | none =>
      unfold recordedFlags at h
      simp only [h]
    | some flags =>
      have hz := mergeFree_recorded F st hfree _ flags h
      unfold recordedFlags at h
      simp only [h, hz, ne_eq, not_true_eq_false, if_false]
  | .mk id kind sourceTree declarationFile (some next) => by
    have ih := getNodeEmitFlags_of_mergeFree F st hfree next
    simp only [getNodeEmitFlags, originals, List.findSome?_cons]
    cases h : recordedFlags st (.mk id kind sourceTree declarationFile (some next)) with
    | none =>
      unfold recordedFlags at h
      simp only [h, ih, List.findSome?_cons]
    | some flags =>
      have hz := mergeFree_recorded F st hfree _ flags h
      unfold recordedFlags at h
      simp only [h, hz, ne_eq, not_true_eq_false, if_false]

end MergeLemmas

/-- C22: the merge marker is never stored or reported.  Starting from an empty overlay,
after any finite sequence of `setNodeEmitFlags` calls, with or without the merge marker,
on any nodes, no overlay record holds flags containing Merge; so the flags met by
`getNodeEmitFlags` never satisfy the test of its merge-resolution branch, the value it
returns never has a bit of Merge, and the call is the lookup of the nearest recorded
flags on the chain of originals and leaves the state unchanged. -/
theorem merge_marker_never_stored {X : Type} (F : NodeEmitFlags) (st : TransformState X)
    (calls : List (Node × Nat)) (hempty : ∀ place, recordAt st place = none) :
    MergeFree F (setNodeEmitFlagsAll F st calls) ∧
    (∀ node flags, recordedFlags (setNodeEmitFlagsAll F st calls) node = some flags →
      ¬ (flags &&& F.Merge ≠ 0)) ∧
    (∀ node flags,
      (getNodeEmitFlags F (setNodeEmitFlagsAll F st calls) node).1 = some flags →
      flags &&& F.Merge = 0) ∧
    (∀ node, getNodeEmitFlags F (setNodeEmitFlagsAll F st calls) node =
      ((node :: originals node).findSome? (recordedFlags (setNodeEmitFlagsAll F st calls)),
        setNodeEmitFlagsAll F st calls)) := by
  have hfree := mergeFree_setNodeEmitFlagsAll F calls st (mergeFree_of_empty F st hempty)
  refine ⟨hfree, ?_, ?_, getNodeEmitFlags_of_mergeFree F _ hfree⟩
  · intro node flags hrec hm
    exact hm (mergeFree_recorded F _ hfree node flags hrec)
  · intro node flags hget
    rw [getNodeEmitFlags_of_mergeFree F _ hfree node] at hget
    obtain ⟨m, -, hm⟩ := List.exists_of_findSome?_eq_some hget
    exact mergeFree_recorded F _ hfree m flags hm

/-- Witness of C22: from the empty overlay, after `setNodeEmitFlags(original, 1 | Merge)`
and `setNodeEmitFlags(synthesized, 2 | Merge)`, the read of the synthesized node returns
`2` and the state of the call. -/
theorem merge_marker_never_stored_witness :
    (getNodeEmitFlags exampleFlags
      (setNodeEmitFlagsAll exampleFlags emptyState
        [(exampleOriginal, 5), (exampleSynthesized, 6)]) exampleSynthesized).1 = some 2 ∧
    (getNodeEmitFlags exampleFlags
      (setNodeEmitFlagsAll exampleFlags emptyState
        [(exampleOriginal, 5), (exampleSynthesized, 6)]) exampleSynthesized).2 =
      setNodeEmitFlagsAll exampleFlags emptyState
        [(exampleOriginal, 5), (exampleSynthesized, 6)] :=
  ⟨(congrArg Prod.fst
      ((merge_marker_never_stored exampleFlags emptyState
        [(exampleOriginal, 5), (exampleSynthesized, 6)]
        (fun place => by cases place with | mk tree id => cases tree <;> rfl)).2.2.2
        exampleSynthesized)).trans (by decide),
    congrArg Prod.snd
      ((merge_marker_never_stored exampleFlags emptyState
        [(exampleOriginal, 5), (exampleSynthesized, 6)]
        (fun place => by cases place with | mk tree id => cases tree <;> rfl)).2.2.2
        exampleSynthesized)⟩

end ts
